import Mathlib

/-!
# Whispr front end: the report collection view-model

A shallow embedding of `src/Whispr_frontend/src/hooks/useFilters.js`, of
`src/Whispr_frontend/src/services/aiService.js` (the local scorer and the fallback around the
remote call), of the list operations of `services/reportService.js`, of `truncateText` of
`utils/helpers.js`, of the fetch guard of `hooks/useReports.js` and
`hooks/useAuthorityDashboard.js`, and of the list state of `pages/AuthorityPage.jsx` with the
rank sort of `features/authority/AIPrioritizationPanel.jsx`.

* A JavaScript property that may be absent (`undefined` / `null`) is an `Option`.
* Numbers (`stakeAmount`, `evidenceCount`, time values) are integers; a number that is
  `NaN` is `none`.
* The built-ins the hook calls (`String.prototype.toLowerCase`, `Date.parse`,
  `String.prototype.localeCompare`, `Array.prototype.sort`) are not code of the repository:
  they are the fields of a `Runtime`. A theorem holds for every runtime, under the laws of
  the built-ins that it names as hypotheses. For the sort the law is `SortContract`: the
  result is always a permutation, and it is the stable sorted arrangement whenever the
  comparator is consistent on the elements; for an inconsistent comparator ECMAScript
  leaves the order to the engine.
* An `async` function is modelled by how its promise settles (`Settled`), as a function of
  how the promises it awaits settle; a component or hook by its state and a step function
  on events.
* Two concrete runtimes evaluate the definitions: `stdRuntime`, which sorts by stable
  insertion, and `v8Runtime`, which sorts as V8 sorts an array of fewer than 64 elements.
  Both sorts are proved to meet `SortContract`.
-/

namespace Whispr

/-! ## Data model -/

/-- The `location` of a report, as far as the scorer reads it. -/
structure Location where
  address : Option String := none
deriving DecidableEq, Repr

/-- A report record as the hook and the scorer read it; `none` is an absent property. -/
structure Report where
  id : Option String := none
  title : Option String := none
  description : Option String := none
  category : Option String := none
  status : Option String := none
  date : Option String := none
  stakeAmount : Option Int := none
  evidenceCount : Option Int := none
  location : Option Location := none
deriving DecidableEq, Repr

/-- The `filters` state of the hook, with the defaults of `useState` (useFilters.js 4-9). -/
structure Filters where
  search : String := ""
  category : String := "all"
  status : String := "all"
  sortBy : String := "date"
  sortDirection : String := "desc"
deriving DecidableEq, Repr

/-- The built-ins of the JavaScript engine used by the hook. `dateParse s = none` is an
Invalid Date (time value `NaN`); `sort cmp l` is `l.sort(cmp)`, the callback `cmp` returning
`none` for `NaN`. -/
structure Runtime where
  toLowerCase : String → String
  dateParse : String → Option Int
  localeCompare : String → String → Int
  sort : (Report → Report → Option Int) → List Report → List Report

/-! ## JavaScript primitives -/

/-- Is `pat` a contiguous block of `s`, on character lists. -/
def isInfixOf (pat : List Char) : List Char → Bool
  | [] => pat.isEmpty
  | c :: cs => pat.isPrefixOf (c :: cs) || isInfixOf pat cs

/-- `s.includes(pat)`. -/
def includes (s pat : String) : Bool :=
  isInfixOf pat.data s.data

/-- Truthiness of a string: every string but the empty one. -/
def truthy (s : String) : Bool :=
  s != ""

/-- `x || d` for `x` a string or `undefined`. -/
def strOr (x : Option String) (d : String) : String :=
  match x with
  | some s => if truthy s then s else d
  | none => d

/-- `x || 0` for `x` a number or `undefined` (`0` and `NaN` are falsy). -/
def numOr (x : Option Int) : Int :=
  match x with
  | some n => n
  | none => 0

/-- Time value of `new Date(d || 0)`: an absent or empty `d` gives `new Date(0)`, any other
string is parsed; `none` is an Invalid Date. -/
def newDate (rt : Runtime) (d : Option String) : Option Int :=
  match d with
  | none => some 0
  | some s => if truthy s then rt.dateParse s else some 0

/-- `x - y` on numbers: `NaN` if either side is. -/
def numSub (x y : Option Int) : Option Int :=
  match x, y with
  | some a, some b => some (a - b)
  | _, _ => none

/-- `-x` on numbers. -/
def numNeg (x : Option Int) : Option Int :=
  x.map (fun a => -a)

/-- `SortCompare` of ECMAScript on the value `v` the comparator returned: `NaN` reads `+0`. -/
def sortCompare {α : Type} (cmp : α → α → Option Int) (a b : α) : Int :=
  match cmp a b with
  | some v => v
  | none => 0

/-- The stable sorted arrangement of `l` under `cmp`: each element, from the last to the
first, is put before the first element of the sorted rest that it does not compare greater
than. -/
def stableSort {α : Type} (cmp : α → α → Option Int) (l : List α) : List α :=
  l.insertionSort (fun a b => sortCompare cmp a b ≤ 0)

/-- The comparator is consistent on the elements of `l`: what `SortCompare` reads is
antisymmetric in sign and transitive, a total preorder on those elements. -/
def ConsistentOn {α : Type} (cmp : α → α → Option Int) (l : List α) : Prop :=
  (∀ a ∈ l, ∀ b ∈ l, (sortCompare cmp a b < 0 ↔ 0 < sortCompare cmp b a)) ∧
  (∀ a ∈ l, ∀ b ∈ l, ∀ c ∈ l, sortCompare cmp a b ≤ 0 → sortCompare cmp b c ≤ 0 →
    sortCompare cmp a c ≤ 0)

/-- The contract of `Array.prototype.sort` (ECMAScript 2019 on): the result holds the same
elements, and for a consistent comparator it is the stable sorted arrangement. -/
structure SortContract {α : Type} (sort : (α → α → Option Int) → List α → List α) : Prop where
  perm : ∀ cmp l, (sort cmp l).Perm l
  stable : ∀ cmp l, ConsistentOn cmp l → sort cmp l = stableSort cmp l

/-- A total preorder `le` with strict part `lt` on the elements that satisfy `P`. -/
structure PreOn {α : Type} (le lt : α → α → Prop) (P : α → Prop) : Prop where
  not_lt : ∀ x y, P x → P y → (¬ lt x y ↔ le y x)
  le_of_lt : ∀ x y, P x → P y → lt x y → le x y
  trans : ∀ x y z, P x → P y → P z → le x y → le y z → le x z

/-! ### The sort of V8 for short arrays

`ArrayTimSortImpl` of V8 (`third_party/v8/builtins/array-sort.tq`) on an array of fewer than
64 elements: `CountAndMakeRun` finds the run the array starts with, non-descending or
strictly descending (then reversed), and `BinaryInsertionSort` inserts the other elements
one by one at the place a binary search finds. -/

/-- Number of further elements that continue the run whose last element is `prev`. -/
def extendRun {α : Type} (cmp : α → α → Option Int) (desc : Bool) (prev : α) : List α → Nat
  | [] => 0
  | y :: ys =>
    if desc then
      (if sortCompare cmp y prev ≥ 0 then 0 else 1 + extendRun cmp desc y ys)
    else
      (if sortCompare cmp y prev < 0 then 0 else 1 + extendRun cmp desc y ys)

/-- `CountAndMakeRun`: is the initial run strictly descending, and its length. -/
def countRun {α : Type} (cmp : α → α → Option Int) : List α → Bool × Nat
  | [] => (false, 0)
  | [_] => (false, 1)
  | x0 :: x1 :: rest =>
    let desc := decide (sortCompare cmp x1 x0 < 0)
    (desc, 2 + extendRun cmp desc x1 rest)

/-- The binary search of `BinaryInsertionSort` for the place of `pivot` in `arr`, between
`left` and `right`. -/
def findPos {α : Type} (cmp : α → α → Option Int) (pivot : α) (arr : List α) :
    Nat → Nat → Nat → Nat
  | 0, left, _ => left
  | fuel + 1, left, right =>
    if left < right then
      let mid := left + (right - left) / 2
      match arr.get? mid with
      | some m =>
        if sortCompare cmp pivot m < 0 then findPos cmp pivot arr fuel left mid
        else findPos cmp pivot arr fuel (mid + 1) right
      | none => left
    else left

/-- One step of `BinaryInsertionSort`: put `pivot` at its place in the sorted part. -/
def binaryInsert {α : Type} (cmp : α → α → Option Int) (sorted : List α) (pivot : α) :
    List α :=
  let pos := findPos cmp pivot sorted (sorted.length + 1) 0 sorted.length
  sorted.take pos ++ pivot :: sorted.drop pos

/-- The sort of V8 for an array of fewer than 64 elements. -/
def shortArraySort {α : Type} (cmp : α → α → Option Int) (l : List α) : List α :=
  let run := countRun cmp l
  let first := if run.1 then (l.take run.2).reverse else l.take run.2
  (l.drop run.2).foldl (binaryInsert cmp) first

/-! ## useFilters.js -/

/-- The predicate of the search filter (useFilters.js 20-24). -/
def searchPred (rt : Runtime) (searchLower : String) (item : Report) : Bool :=
  includes (strOr (item.title.map rt.toLowerCase) "") searchLower ||
  includes (strOr (item.id.map rt.toLowerCase) "") searchLower ||
  includes (strOr (item.description.map rt.toLowerCase) "") searchLower

/-- The search filter step (useFilters.js 18-25). -/
def searchStep (rt : Runtime) (filters : Filters) (result : List Report) : List Report :=
  if truthy filters.search then
    result.filter (searchPred rt (rt.toLowerCase filters.search))
  else result

/-- The category filter step (useFilters.js 27-29). -/
def categoryStep (filters : Filters) (result : List Report) : List Report :=
  if truthy filters.category && filters.category != "all" then
    result.filter (fun item => decide (item.category = some filters.category))
  else result

/-- The status filter step (useFilters.js 31-33). -/
def statusStep (filters : Filters) (result : List Report) : List Report :=
  if truthy filters.status && filters.status != "all" then
    result.filter (fun item => decide (item.status = some filters.status))
  else result

/-- The `comparison` of the sort callback, by `sortBy` (useFilters.js 36-53). -/
def comparison (rt : Runtime) (sortBy : String) (a b : Report) : Option Int :=
  if sortBy = "date" then numSub (newDate rt a.date) (newDate rt b.date)
  else if sortBy = "stake" then some (numOr a.stakeAmount - numOr b.stakeAmount)
  else if sortBy = "evidence" then some (numOr a.evidenceCount - numOr b.evidenceCount)
  else if sortBy = "title" then some (rt.localeCompare (strOr a.title "") (strOr b.title ""))
  else some 0

/-- The sort callback (useFilters.js 35-56). -/
def compareFn (rt : Runtime) (filters : Filters) (a b : Report) : Option Int :=
  if filters.sortDirection = "asc" then comparison rt filters.sortBy a b
  else numNeg (comparison rt filters.sortBy a b)

/-- The records that pass the three filters, in input order (useFilters.js 16-33). -/
def passing (rt : Runtime) (data : List Report) (filters : Filters) : List Report :=
  statusStep filters (categoryStep filters (searchStep rt filters data))

/-- The `filteredData` of `useFilters(data, ...)` when the state is `filters`
(useFilters.js 13-59); `data = none` is `null` or `undefined`. -/
def filteredData (rt : Runtime) (data : Option (List Report)) (filters : Filters) :
    List Report :=
  match data with
  | none => []
  | some data => rt.sort (compareFn rt filters) (passing rt data filters)

/-! ## A concrete runtime

Instances of `Runtime` on which the definitions evaluate: ASCII lower-casing, the ISO
date-only form `YYYY-MM-DD` read as UTC midnight, code point order, and one of the two
sorts. -/

/-- Lower-case the ASCII letters of a string. -/
def asciiLower (s : String) : String :=
  String.mk (s.data.map Char.toLower)

/-- Value of a decimal digit. -/
def digitVal (c : Char) : Option Int :=
  if c.isDigit then some ((c.toNat : Int) - 48) else none

/-- Days from 1970-01-01 to the civil date `y-m-d` (proleptic Gregorian). -/
def daysFromCivil (y m d : Int) : Int :=
  let y1 := if m ≤ 2 then y - 1 else y
  let era := y1 / 400
  let yoe := y1 - era * 400
  let mp := if m > 2 then m - 3 else m + 9
  let doy := (153 * mp + 2) / 5 + d - 1
  let doe := yoe * 365 + yoe / 4 - yoe / 100 + doy
  era * 146097 + doe - 719468

/-- Number of days of month `m` of year `y`. -/
def daysInMonth (y m : Int) : Int :=
  if m = 2 then (if y % 4 = 0 ∧ (y % 100 ≠ 0 ∨ y % 400 = 0) then 29 else 28)
  else if m = 4 ∨ m = 6 ∨ m = 9 ∨ m = 11 then 30 else 31

/-- Parse `YYYY-MM-DD` to milliseconds since the epoch; anything else is invalid. -/
def isoDateParse (s : String) : Option Int :=
  match s.data with
  | [y1, y2, y3, y4, '-', m1, m2, '-', d1, d2] =>
    match digitVal y1, digitVal y2, digitVal y3, digitVal y4,
        digitVal m1, digitVal m2, digitVal d1, digitVal d2 with
    | some a, some b, some c, some e, some f, some g, some h, some i =>
      let y := a * 1000 + b * 100 + c * 10 + e
      let m := f * 10 + g
      let d := h * 10 + i
      if 1 ≤ m ∧ m ≤ 12 ∧ 1 ≤ d ∧ d ≤ daysInMonth y m then
        some (daysFromCivil y m d * 86400000)
      else none
    | _, _, _, _, _, _, _, _ => none
  | _ => none

/-- Compare two character lists by code point order: `-1`, `0` or `1`. -/
def compareChars : List Char → List Char → Int
  | [], [] => 0
  | [], _ :: _ => -1
  | _ :: _, [] => 1
  | a :: as, b :: bs =>
    if a.toNat < b.toNat then -1
    else if b.toNat < a.toNat then 1
    else compareChars as bs

/-- Compare two strings by code point order. -/
def codePointCompare (s t : String) : Int :=
  compareChars s.data t.data

/-- The concrete runtime that sorts by stable insertion. -/
def stdRuntime : Runtime where
  toLowerCase := asciiLower
  dateParse := isoDateParse
  localeCompare := codePointCompare
  sort := stableSort

/-- The concrete runtime that sorts as V8 sorts a short array. -/
def v8Runtime : Runtime where
  toLowerCase := asciiLower
  dateParse := isoDateParse
  localeCompare := codePointCompare
  sort := shortArraySort

/-- The fixture of `useFilters.test.js` (lines 10-15). -/
def mockData : List Report :=
  [ { id := some "1", title := some "Fraud Report", category := some "fraud",
      status := some "pending", date := some "2024-01-15", stakeAmount := some 100,
      evidenceCount := some 3 },
    { id := some "2", title := some "Environmental Issue", category := some "environmental",
      status := some "verified", date := some "2024-01-10", stakeAmount := some 50,
      evidenceCount := some 1 },
    { id := some "3", title := some "Corruption Case", category := some "corruption",
      status := some "pending", date := some "2024-01-20", stakeAmount := some 200,
      evidenceCount := some 5 },
    { id := some "4", title := some "Another Fraud", category := some "fraud",
      status := some "rejected", date := some "2024-01-05", stakeAmount := some 75,
      evidenceCount := some 2 } ]

/-- Two records, the second with a date that does not parse. -/
def badDateData : List Report :=
  [ { id := some "1", title := some "Dated", date := some "2024-01-20" },
    { id := some "2", title := some "Undated", date := some "not a date" } ]

/-- Three records of which the first and the last have the same stake, evidence count,
title and date. -/
def tieData : List Report :=
  [ { id := some "a", title := some "Same", date := some "2024-03-01", stakeAmount := some 50,
      evidenceCount := some 2 },
    { id := some "b", title := some "Other", date := some "2024-02-01", stakeAmount := some 10,
      evidenceCount := some 1 },
    { id := some "c", title := some "Same", date := some "2024-03-01", stakeAmount := some 50,
      evidenceCount := some 2 } ]

/-- Eight records, the fifth with a date that does not parse, the sixth and the eighth with
the same date. -/
def mixedDateData : List Report :=
  [ { id := some "K", date := some "2024-01-08" },
    { id := some "M", date := some "2024-01-09" },
    { id := some "N", date := some "2024-01-10" },
    { id := some "O", date := some "2024-01-11" },
    { id := some "Q", date := some "not a date" },
    { id := some "X", date := some "2024-01-05" },
    { id := some "W", date := some "2024-01-06" },
    { id := some "Y", date := some "2024-01-05" } ]

/-! ## Notions the statements use -/

/-- The string `pat` is a substring of `s`: a contiguous block of its characters. -/
def IsSubstring (pat s : String) : Prop :=
  pat.data <:+: s.data

/-- Lower-cased text of a field, a missing field counting as the empty string. -/
def lowerOrEmpty (rt : Runtime) (x : Option String) : String :=
  match x with
  | some s => rt.toLowerCase s
  | none => ""

/-- The timestamp a record's date parses to, when the date is there and parses. -/
def parsedTimestamp (rt : Runtime) (r : Report) : Option Int :=
  r.date.bind rt.dateParse

/-- The timestamp function of the date sort as specified: a date that parses has its
timestamp, a missing or unparsable date has `0`. -/
def epochZeroTimestamp (rt : Runtime) (r : Report) : Int :=
  match parsedTimestamp rt r with
  | some t => t
  | none => 0

/-- The stake key: `stakeAmount`, missing treated as `0`. -/
def stakeKey (r : Report) : Int :=
  r.stakeAmount.getD 0

/-- The evidence key: `evidenceCount`, missing treated as `0`. -/
def evidenceKey (r : Report) : Int :=
  r.evidenceCount.getD 0

/-- The title key: `title`, missing treated as the empty string. -/
def titleKey (r : Report) : String :=
  r.title.getD ""

/-- The records that pass the filters, as one predicate: the search predicate (skipped for
an empty search), the category predicate and the status predicate (each skipped for an empty
value and for "all"). -/
def passesFilters (rt : Runtime) (f : Filters) (r : Report) : Bool :=
  (!truthy f.search || searchPred rt (rt.toLowerCase f.search) r) &&
  ((!(truthy f.category && f.category != "all") ||
      decide (r.category = some f.category)) &&
    (!(truthy f.status && f.status != "all") || decide (r.status = some f.status)))

/-! ## useFilters.js: the `filters` state

The state is a JavaScript object. An object is the map from property names to the values of
its own properties; a name without own property maps to `none`. -/

/-- A JavaScript value, as far as the filters state holds one. -/
inductive JsValue where
  | undefined
  | null
  | bool (b : Bool)
  | number (n : Int)
  | string (s : String)
deriving DecidableEq, Repr

/-- A JavaScript object: its own properties. -/
abbrev JsObject := String → Option JsValue

/-- The empty object `{}`. -/
def emptyObject : JsObject :=
  fun _ => none

/-- The object `{...a, ...b}`: the properties of `a`, then those of `b` over them. -/
def objSpread (a b : JsObject) : JsObject :=
  fun k =>
    match b k with
    | some v => some v
    | none => a k

/-- The object `{...o, [key]: value}`. -/
def objSet (o : JsObject) (key : String) (value : JsValue) : JsObject :=
  fun k => if k = key then some value else o k

/-- The literal `{search: '', category: 'all', status: 'all', sortBy: 'date',
sortDirection: 'desc'}` of useFilters.js 5-9 and 67-71. -/
def defaultFilters : JsObject :=
  objSet (objSet (objSet (objSet (objSet emptyObject "search" (.string ""))
    "category" (.string "all")) "status" (.string "all")) "sortBy" (.string "date"))
    "sortDirection" (.string "desc")

/-- The initial `filters` of `useFilters(data, initialFilters)` (useFilters.js 4-11). -/
def initialState (initialFilters : JsObject) : JsObject :=
  objSpread defaultFilters initialFilters

/-- The state after `updateFilter(key, value)` on the state `prev` (useFilters.js 61-63). -/
def updateFilter (prev : JsObject) (key : String) (value : JsValue) : JsObject :=
  objSet prev key value

/-- The state after `resetFilters()` on the state `prev` (useFilters.js 65-74). -/
def resetFilters (initialFilters : JsObject) (_prev : JsObject) : JsObject :=
  objSpread defaultFilters initialFilters

/-- The state after a sequence of `updateFilter` calls, the first call first. -/
def applyUpdates (state : JsObject) (updates : List (String × JsValue)) : JsObject :=
  updates.foldl (fun s kv => updateFilter s kv.1 kv.2) state

/-- The overrides `{ status: 'pending' }` of `useFilters.test.js` (lines 32 and 244). -/
def pendingOverrides : JsObject :=
  objSet emptyObject "status" (.string "pending")

/-! ## aiService.js: the local scorer

Numbers are rationals, `none` is `NaN`. The scorer adds integers to a product with `0.3`;
for the ten values of `CATEGORY_SEVERITY` the double product is the exact multiple of one
half, so the double arithmetic of the scorer agrees with the rational one. -/

/-- What reading `object[key]` on an object literal gives. -/
inductive PropertyRead where
  | own (value : ℚ)
  | inherited
  | absent
deriving DecidableEq, Repr

/-- The table `CATEGORY_SEVERITY` (aiService.js 8-19). -/
def CATEGORY_SEVERITY : List (String × ℚ) :=
  [("murder", 100), ("violence", 95), ("domestic_violence", 90), ("cybercrime", 85),
    ("corruption", 80), ("fraud", 75), ("environmental", 70), ("harassment", 65),
    ("theft", 60), ("other", 50)]

/-- The property names of `Object.prototype`, which every object literal inherits; each
holds a function or an object. -/
def objectPrototypeKeys : List String :=
  ["constructor", "__defineGetter__", "__defineSetter__", "hasOwnProperty",
    "__lookupGetter__", "__lookupSetter__", "isPrototypeOf", "propertyIsEnumerable",
    "toString", "valueOf", "__proto__", "toLocaleString"]

/-- The read `CATEGORY_SEVERITY[category]`: an own property of the table, else a property
inherited from `Object.prototype`, else `undefined`. -/
def readSeverity (category : String) : PropertyRead :=
  match CATEGORY_SEVERITY.lookup category with
  | some n => .own n
  | none => if category ∈ objectPrototypeKeys then .inherited else .absent

/-- The product `(x || 50) * 0.3` for a read `x`: a function or an object is truthy and
its product with a number is `NaN`. -/
def severityScore (x : PropertyRead) : Option ℚ :=
  match x with
  | .own n => some ((if n = 0 then 50 else n) * (3 / 10))
  | .inherited => none
  | .absent => some (50 * (3 / 10))

/-- The length of a string in UTF-16 code units: `s.length`. -/
def utf16Length (s : String) : Nat :=
  (s.data.map (fun c => if c.toNat < 65536 then 1 else 2)).sum

/-- `x + y` on numbers: `NaN` if the sum so far is. -/
def numAdd (x : Option ℚ) (y : ℚ) : Option ℚ :=
  x.map (fun a => a + y)

/-- The truthiness of `report.location?.address`. -/
def hasAddress (report : Report) : Bool :=
  match report.location with
  | some loc =>
    match loc.address with
    | some a => truthy a
    | none => false
  | none => false

/-- `Math.floor(Math.random() * 8) - 4` for the draw `random` of `Math.random()`. -/
def variance (random : ℚ) : Int :=
  Rat.floor (random * 8) - 4

/-- `Math.round(x)`: the nearest integer, a half rounded up. -/
def mathRound (x : Option ℚ) : Option Int :=
  x.map (fun a => Rat.floor (a + 1 / 2))

/-- `Math.max(25, Math.min(95, x))`. -/
def clampScore (x : Option ℚ) : Option ℚ :=
  x.map (fun a => max 25 (min 95 a))

/-- `calculateLocalScore(report)` when `Math.random()` returns `random`
(aiService.js 24-59). -/
def calculateLocalScore (rt : Runtime) (report : Report) (random : ℚ) : Option Int :=
  let score : Option ℚ := some 40
  let category := rt.toLowerCase (strOr report.category "")
  let score := match severityScore (readSeverity category) with
    | some s => numAdd score s
    | none => none
  let descLength := utf16Length (strOr report.description "")
  let score :=
    if descLength > 500 then numAdd score 15
    else if descLength > 300 then numAdd score 12
    else if descLength > 150 then numAdd score 8
    else if descLength > 50 then numAdd score 4
    else score
  let evidenceCount := numOr report.evidenceCount
  let score :=
    if evidenceCount ≥ 5 then numAdd score 15
    else if evidenceCount ≥ 3 then numAdd score 12
    else if evidenceCount ≥ 1 then numAdd score 8
    else score
  let stakeAmount := numOr report.stakeAmount
  let score :=
    if stakeAmount ≥ 20 then numAdd score 10
    else if stakeAmount ≥ 10 then numAdd score 7
    else if stakeAmount ≥ 5 then numAdd score 4
    else score
  let score := if hasAddress report then numAdd score 5 else score
  let score := clampScore (numAdd score (variance random))
  mathRound score

/-- `score >= bound` for a number `score`: false for `NaN`. -/
def numGe (score : Option ℚ) (bound : ℚ) : Bool :=
  match score with
  | some s => decide (s ≥ bound)
  | none => false

/-- `getPriorityFromScore(score, category)` (aiService.js 64-71). -/
def getPriorityFromScore (rt : Runtime) (score : Option ℚ) (category : Option String) :
    String :=
  let cat := rt.toLowerCase (strOr category "")
  let isSevereCrime :=
    decide (cat ∈ ["murder", "violence", "domestic_violence", "cybercrime", "corruption"])
  if numGe score 75 || (isSevereCrime && numGe score 60) then "HIGH"
  else if numGe score 50 then "MEDIUM"
  else "LOW"

/-- The generic statement of `generateReason` by score band (aiService.js 103-105). -/
def genericReason (score : Option ℚ) : String :=
  if numGe score 70 then "Multiple credibility indicators present"
  else if numGe score 50 then "Standard report requiring review"
  else "Limited details provided"

/-- `generateReason(report, score)` (aiService.js 76-109). -/
def generateReason (rt : Runtime) (report : Report) (score : Option ℚ) : String :=
  let reasons : List String := []
  let cat := rt.toLowerCase (strOr report.category "")
  let reasons :=
    if cat ∈ ["murder", "violence", "domestic_violence"] then
      reasons ++ ["Severe crime category"]
    else if cat ∈ ["cybercrime", "corruption"] then reasons ++ ["High-impact crime type"]
    else reasons
  let reasons :=
    if utf16Length (strOr report.description "") > 300 then
      reasons ++ ["detailed description"]
    else reasons
  let reasons :=
    if numOr report.evidenceCount ≥ 3 then reasons ++ ["multiple evidence files"]
    else reasons
  let reasons :=
    if numOr report.stakeAmount ≥ 15 then reasons ++ ["high stake commitment"]
    else reasons
  let reasons := if hasAddress report then reasons ++ ["location provided"] else reasons
  if reasons.length = 0 then genericReason score
  else String.intercalate ", " (reasons.take 2)

/-- The number `score` as the scorer returns it, read as a rational. -/
def scoreValue (score : Option Int) : Option ℚ :=
  score.map (fun n => (n : ℚ))

/-- An entry of the `analysis` array of the local fallback (aiService.js 250-255); `rank`
is set by the `forEach` of line 260. -/
structure AnalysisItem where
  reportId : Option String
  credibilityScore : Option Int
  priorityLevel : String
  reason : String
  rank : Option Nat := none
deriving DecidableEq, Repr

/-- The callback of `reports.map` (aiService.js 246-256) on `report`, when `Math.random()`
returns `random`. -/
def analyzeItem (rt : Runtime) (report : Report) (random : ℚ) : AnalysisItem :=
  let score := calculateLocalScore rt report random
  let priority := getPriorityFromScore rt (scoreValue score) report.category
  { reportId := report.id
    credibilityScore := score
    priorityLevel := priority
    reason := generateReason rt report (scoreValue score) }

/-- `reports.map(...)` of aiService.js 246-256: the report at index `i` is scored with the
draw `random i`, indices counted from `start`. -/
def analyzeItems (rt : Runtime) (random : Nat → ℚ) : Nat → List Report → List AnalysisItem
  | _, [] => []
  | start, report :: rest =>
    analyzeItem rt report (random start) :: analyzeItems rt random (start + 1) rest

/-- The sort callback `(a, b) => b.credibilityScore - a.credibilityScore`
(aiService.js 259). -/
def compareScores (a b : AnalysisItem) : Option Int :=
  numSub b.credibilityScore a.credibilityScore

/-- The `forEach` of aiService.js 260-262: the item at index `i` gets rank `i + 1`, indices
counted from `start`. -/
def assignRanks : Nat → List AnalysisItem → List AnalysisItem
  | _, [] => []
  | start, item :: rest => { item with rank := some (start + 1) } :: assignRanks (start + 1) rest

/-- `a.credibilityScore < 40`: false for `NaN`. -/
def scoreBelow (score : Option Int) (bound : Int) : Bool :=
  match score with
  | some s => decide (s < bound)
  | none => false

/-- What the local fallback of `analyzeAndPrioritizeReports` returns, but for the `summary`
text. -/
structure BatchAnalysis where
  analysis : List AnalysisItem
  highPriorityCount : Nat
  suspiciousCount : Nat
deriving DecidableEq, Repr

/-- The local fallback of `analyzeAndPrioritizeReports(reports)` (aiService.js 245-272),
with `sort` for `Array.prototype.sort` and `random i` for the draw of `Math.random()` while
the report at index `i` is scored. -/
def analyzeAndPrioritizeReportsLocal (rt : Runtime)
    (sort : (AnalysisItem → AnalysisItem → Option Int) → List AnalysisItem → List AnalysisItem)
    (random : Nat → ℚ) (reports : List Report) : BatchAnalysis :=
  let analysis := analyzeItems rt random 0 reports
  let analysis := sort compareScores analysis
  let analysis := assignRanks 0 analysis
  let highPriorityCount := (analysis.filter (fun a => a.priorityLevel == "HIGH")).length
  let suspiciousCount := (analysis.filter (fun a => scoreBelow a.credibilityScore 40)).length
  { analysis := analysis
    highPriorityCount := highPriorityCount
    suspiciousCount := suspiciousCount }

/-- A report of unknown category, a report of category "constructor" and a report of
category "murder". -/
def inheritedCategoryBatch : List Report :=
  [ { id := some "A", category := some "vandalism" },
    { id := some "B", category := some "constructor" },
    { id := some "C", category := some "murder" } ]

/-- A batch of four reports whose categories are own keys of the table or unknown. -/
def plainBatch : List Report :=
  [ { id := some "1", category := some "fraud", evidenceCount := some 3,
      stakeAmount := some 100 },
    { id := some "2", category := some "Murder", evidenceCount := some 5,
      stakeAmount := some 20, location := some { address := some "12 Main Street" } },
    { id := some "3" },
    { id := some "4", category := some "theft", stakeAmount := some 5 } ]

/-! ## aiService.js: the remote call and the fallback

An `async` function is modelled by how its promise settles, as a function of how the
promises it awaits settle. -/

/-- How a promise settles: fulfilled with a value, or rejected (with an `Error`). -/
inductive Settled (α : Type) where
  | fulfilled (value : α)
  | rejected

/-- A value parsed from JSON text: what `JSON.parse` returns. -/
inductive JsonValue where
  | null
  | bool (b : Bool)
  | number (n : ℚ)
  | string (s : String)
  | array (items : List JsonValue)
  | object (members : List (String × JsonValue))

/-- The truthiness of a parsed value. -/
def JsonValue.truthy : JsonValue → Bool
  | .null => false
  | .bool b => b
  | .number n => decide (n ≠ 0)
  | .string s => decide (s ≠ "")
  | .array _ => true
  | .object _ => true

/-- The read `value[key]` on a parsed value other than `null`, for a `key` that no prototype
defines: the member of an object, `undefined` (`none`) otherwise. -/
def JsonValue.get (value : JsonValue) (key : String) : Option JsonValue :=
  match value with
  | .object members => members.lookup key
  | _ => none

/-- The truthiness of the result of a read; `undefined` is falsy. -/
def readTruthy (x : Option JsonValue) : Bool :=
  match x with
  | some v => v.truthy
  | none => false

/-- The text of `report.evidenceCount` or `report.stakeAmount` in a template literal. -/
def propertyText (x : Option Int) : String :=
  match x with
  | some n => toString n
  | none => "undefined"

/-- The text of the score in a template literal. -/
def scoreText (score : Option Int) : String :=
  match score with
  | some n => toString n
  | none => "NaN"

/-- `generateObservations(report, score)` (aiService.js 140-164). -/
def generateObservations (report : Report) : List String :=
  let obs : List String := []
  let obs :=
    if numOr report.evidenceCount > 0 then
      obs ++ [propertyText report.evidenceCount ++ " evidence file(s) attached support the claims"]
    else obs
  let obs :=
    if numOr report.stakeAmount ≥ 10 then
      obs ++ ["Reporter staked " ++ propertyText report.stakeAmount ++ " tokens showing commitment"]
    else obs
  let obs :=
    if utf16Length (strOr report.description "") > 200 then
      obs ++ ["Detailed description provides context"]
    else obs
  let obs := if hasAddress report then obs ++ ["Specific location helps verification"] else obs
  let obs :=
    if obs.length = 0 then obs ++ ["Report requires additional verification"] else obs
  obs.take 3

/-- `getRecommendedAction(priority, category)` (aiService.js 166-174). -/
def getRecommendedAction (priority : String) : String :=
  if priority = "HIGH" then "Immediate review recommended - escalate if verified"
  else if priority = "MEDIUM" then "Standard review process - verify evidence"
  else "Low priority - review when resources available"

/-- `getRiskIndicators(report)` (aiService.js 176-192). -/
def getRiskIndicators (report : Report) : List String :=
  let risks : List String := []
  let risks :=
    if utf16Length (strOr report.description "") < 50 then risks ++ ["Very brief description"]
    else risks
  let risks :=
    if numOr report.evidenceCount = 0 then risks ++ ["No evidence files attached"] else risks
  let risks := if numOr report.stakeAmount < 5 then risks ++ ["Low stake amount"] else risks
  risks

/-- The object the local fallback of `analyzeReport` returns (aiService.js 129-137). -/
structure LocalAnalysis where
  credibilityScore : Option Int
  priorityLevel : String
  priorityReason : String
  observations : List String
  recommendedAction : String
  riskIndicators : List String
  summary : String
deriving DecidableEq, Repr

/-- The local fallback analysis of `analyzeReport(report)` (aiService.js 125-137), when
`Math.random()` returns `random`. -/
def localAnalysis (rt : Runtime) (report : Report) (random : ℚ) : LocalAnalysis :=
  let score := calculateLocalScore rt report random
  let priority := getPriorityFromScore rt (scoreValue score) report.category
  { credibilityScore := score
    priorityLevel := priority
    priorityReason := generateReason rt report (scoreValue score)
    observations := generateObservations report
    recommendedAction := getRecommendedAction priority
    riskIndicators := getRiskIndicators report
    summary := priority ++ " priority report with " ++ scoreText score ++ "% credibility score" }

/-- What `analyzeReport` returns: the payload of the remote call, or the local analysis. -/
inductive ReportAnalysis where
  | remote (payload : JsonValue)
  | fallback (result : LocalAnalysis)

/-- The `try` / `catch` of `analyzeReport` and `analyzeAndPrioritizeReports`, whose handler
logs and falls through: `some r` when the `try` block returns `r`, `none` when control
reaches the code after the statement. -/
def tryReturn {α : Type} (block : Settled (Option α)) : Option α :=
  match block with
  | .fulfilled r => r
  | .rejected => none

/-- `analyzeReport(report)` (aiService.js 114-138) when the promise of
`callGeminiForSingleReport(report)` settles as `remote` and `Math.random()` returns
`random`. -/
def analyzeReport (rt : Runtime) (remote : Settled JsonValue) (report : Report)
    (random : ℚ) : Settled ReportAnalysis :=
  let block : Settled (Option ReportAnalysis) :=
    match remote with
    | .fulfilled aiResult =>
      if aiResult.truthy && !readTruthy (aiResult.get "error") then
        .fulfilled (some (.remote aiResult))
      else .fulfilled none
    | .rejected => .rejected
  match tryReturn block with
  | some r => .fulfilled r
  | none => .fulfilled (.fallback (localAnalysis rt report random))

/-- What `analyzeAndPrioritizeReports` returns: the payload of the remote call, or the local
batch analysis. -/
inductive BatchResult where
  | remote (payload : JsonValue)
  | fallback (result : BatchAnalysis)

/-- `analyzeAndPrioritizeReports(reports)` (aiService.js 231-273) when the promise of
`callGeminiForBatchReports(reports)` settles as `remote`. -/
def analyzeAndPrioritizeReports (rt : Runtime)
    (sort : (AnalysisItem → AnalysisItem → Option Int) → List AnalysisItem → List AnalysisItem)
    (remote : Settled JsonValue) (random : Nat → ℚ) (reports : List Report) :
    Settled BatchResult :=
  let block : Settled (Option BatchResult) :=
    match remote with
    | .fulfilled aiResult =>
      if aiResult.truthy && readTruthy (aiResult.get "analysis") &&
          !readTruthy (aiResult.get "error") then
        .fulfilled (some (.remote aiResult))
      else .fulfilled none
    | .rejected => .rejected
  match tryReturn block with
  | some r => .fulfilled r
  | none => .fulfilled (.fallback (analyzeAndPrioritizeReportsLocal rt sort random reports))

/-! ## Notions the statements on the scorer use -/

/-- The draw of `Math.random()`: a number of the interval `[0, 1)`. -/
def IsRandomDraw (u : ℚ) : Prop :=
  0 ≤ u ∧ u < 1

/-- The category a report is scored by: lower-cased, a missing category as the empty
string. -/
def loweredCategory (rt : Runtime) (category : Option String) : String :=
  rt.toLowerCase (category.getD "")

/-- The severity weight as specified: the value of the table for a known category, 50 for
an unknown or missing one. -/
def severityWeight (category : String) : ℚ :=
  (CATEGORY_SEVERITY.lookup category).getD 50

/-- The description-detail contribution as specified. -/
def descriptionPoints (report : Report) : ℚ :=
  let n := utf16Length (report.description.getD "")
  if n > 500 then 15 else if n > 300 then 12 else if n > 150 then 8 else if n > 50 then 4
  else 0

/-- The evidence contribution as specified. -/
def evidencePoints (report : Report) : ℚ :=
  let n := report.evidenceCount.getD 0
  if n ≥ 5 then 15 else if n ≥ 3 then 12 else if n ≥ 1 then 8 else 0

/-- The stake contribution as specified. -/
def stakePoints (report : Report) : ℚ :=
  let n := report.stakeAmount.getD 0
  if n ≥ 20 then 10 else if n ≥ 10 then 7 else if n ≥ 5 then 4 else 0

/-- The location contribution as specified: 5 if `location.address` is a non-empty
string. -/
def locationPoints (report : Report) : ℚ :=
  match report.location with
  | some loc =>
    match loc.address with
    | some a => if a ≠ "" then 5 else 0
    | none => 0
  | none => 0

/-- The score as specified, for the jitter `j`: the sum, clamped to `[25, 95]`, rounded to
the nearest integer. -/
def specifiedScore (rt : Runtime) (report : Report) (j : Int) : Int :=
  Rat.floor (min 95 (max 25 (40 + 3 / 10 * severityWeight (loweredCategory rt report.category)
    + descriptionPoints report + evidencePoints report + stakePoints report
    + locationPoints report + j)) + 1 / 2)

/-- The clauses of the reason, in the order of the checks, each with whether it matches. -/
def reasonChecks (rt : Runtime) (report : Report) : List (Bool × String) :=
  let cat := loweredCategory rt report.category
  [ (decide (cat ∈ ["murder", "violence", "domestic_violence"]), "Severe crime category"),
    (decide (cat ∈ ["cybercrime", "corruption"]), "High-impact crime type"),
    (decide (utf16Length (report.description.getD "") > 300), "detailed description"),
    (decide (report.evidenceCount.getD 0 ≥ 3), "multiple evidence files"),
    (decide (report.stakeAmount.getD 0 ≥ 15), "high stake commitment"),
    (hasAddress report, "location provided") ]

/-- The matched clauses, in the order of the checks. -/
def matchedClauses (rt : Runtime) (report : Report) : List String :=
  ((reasonChecks rt report).filter (fun c => c.1)).map (fun c => c.2)

/-- The number `score` is at least `bound`; `NaN` is not. -/
def ScoreAtLeast (score : Option ℚ) (bound : ℚ) : Prop :=
  ∃ s, score = some s ∧ bound ≤ s

/-- The condition of the priority "HIGH" as specified. -/
def IsHighPriority (rt : Runtime) (score : Option ℚ) (category : Option String) : Prop :=
  ScoreAtLeast score 75 ∨
    (loweredCategory rt category ∈
        ["murder", "violence", "domestic_violence", "cybercrime", "corruption"] ∧
      ScoreAtLeast score 60)

/-! ## Notions the statements on the remote call use -/

/-- A payload is a well-formed score result as the data model describes one: an object with
an integer `credibilityScore` from 0 to 100 and a `priorityLevel` that is one of "HIGH",
"MEDIUM" and "LOW". -/
def IsScoreResult (payload : JsonValue) : Prop :=
  (∃ n : Int, payload.get "credibilityScore" = some (.number n) ∧ 0 ≤ n ∧ n ≤ 100) ∧
  (∃ s, payload.get "priorityLevel" = some (.string s) ∧ s ∈ ["HIGH", "MEDIUM", "LOW"])

/-- The payload has a member `key` whose value is truthy. -/
def HasTruthyMember (payload : JsonValue) (key : String) : Prop :=
  ∃ v, payload.get key = some v ∧ v.truthy = true

/-! ## utils/helpers.js -/

/-- The UTF-16 code units of a string: the elements that `length` counts and `substring`
cuts. -/
def utf16Units (s : String) : List Nat :=
  (s.data.map (fun c =>
    if c.toNat < 65536 then [c.toNat]
    else [55296 + (c.toNat - 65536) / 1024, 56320 + (c.toNat - 65536) % 1024])).flatten

/-- `truncateText(text, maxLength = 60)` (utils/helpers.js 25-28) on a string given by its
code units; `text = none` is `null` or `undefined`, `maxLength = none` an omitted
argument. -/
def truncateText (text : Option (List Nat)) (maxLength : Option Nat) : List Nat :=
  match text with
  | none => []
  | some text =>
    if text.length = 0 then []
    else
      let maxLength := maxLength.getD 60
      if text.length > maxLength then text.take maxLength ++ utf16Units "..." else text

/-! ## services/reportService.js

Each operation is an `async` function whose body is one `try` / `catch`; the arguments are
how the backend calls of `api/whisprBackend.js` settle. Every rejection of those calls
carries an `Error`, so reading `error.message` in a handler does not throw. -/

/-- The promise of `x.then(f)`: `await x` followed by the rest of the block. -/
def Settled.andThen {α β : Type} (x : Settled α) (f : α → Settled β) : Settled β :=
  match x with
  | .fulfilled v => f v
  | .rejected => .rejected

/-- The function body `try { block } catch (error) { ...; return handler; }`. -/
def catchReturn {α : Type} (block : Settled α) (handler : α) : Settled α :=
  match block with
  | .fulfilled v => .fulfilled v
  | .rejected => .fulfilled handler

/-- The value `reports || []` for what a backend list call resolved to; `none` is `null` or
`undefined`. -/
def listOr (reports : Option (List Report)) : List Report :=
  match reports with
  | some l => l
  | none => []

/-- The inner `try` / `catch` around `isAuth = await isAuthority()`
(reportService.js 45-50, 70-75): `false` when the call is rejected. -/
def authorityCheck (authority : Settled Bool) : Bool :=
  match authority with
  | .fulfilled b => b
  | .rejected => false

/-- `reportService.getUserReports()` (reportService.js 21-30) when `getUserReports()` of the
backend settles as `user`. -/
def reportService.getUserReports (user : Settled (Option (List Report))) :
    Settled (List Report) :=
  catchReturn (user.andThen (fun reports => .fulfilled (listOr reports))) []

/-- `reportService.getAllReports()` (reportService.js 42-65) when the backend calls
`isAuthority()`, `getAllReports()` and `getUserReports()` settle as `authority`, `all` and
`user`. -/
def reportService.getAllReports (authority : Settled Bool)
    (all user : Settled (Option (List Report))) : Settled (List Report) :=
  catchReturn
    (if authorityCheck authority then all.andThen (fun reports => .fulfilled (listOr reports))
     else user.andThen (fun reports => .fulfilled (listOr reports))) []

/-- `reportService.getReportsByStatus(status)` (reportService.js 67-93) when the backend calls
`isAuthority()`, `getReportsByStatus(status)` and `getUserReports()` settle as `authority`,
`byStatus` and `user`. -/
def reportService.getReportsByStatus (status : String) (authority : Settled Bool)
    (byStatus user : Settled (Option (List Report))) : Settled (List Report) :=
  catchReturn
    (if authorityCheck authority then
      byStatus.andThen (fun reports => .fulfilled (listOr reports))
     else
      user.andThen (fun userReports =>
        .fulfilled ((listOr userReports).filter (fun r => decide (r.status = some status))))) []

/-- `reportService.getUserReportsByStatus(status)` (reportService.js 96-106) when
`getUserReports()` of the backend settles as `user`. -/
def reportService.getUserReportsByStatus (status : String)
    (user : Settled (Option (List Report))) : Settled (List Report) :=
  catchReturn
    (user.andThen (fun userReports =>
      .fulfilled ((listOr userReports).filter (fun r => decide (r.status = some status))))) []

/-! ## hooks/useReports.js, hooks/useAuthorityDashboard.js: the fetch guard

Both hooks guard their fetch function (`fetchReports`, `fetchData`) by the same code. A fetch
is in flight from the call that passes the guard to its `finally` block. -/

/-- The state of the guard: the flag `fetchingRef.current`, and the number of fetches that
have started and not yet completed. -/
structure FetchState where
  fetchingRef : Bool := false
  inFlight : Nat := 0
deriving DecidableEq, Repr

/-- What happens to a mounted hook: the effect runs (on mount, and again when the fetch
function changes), the view requests a refresh, a fetch in flight completes. -/
inductive FetchEvent where
  | mount
  | refresh
  | completion
deriving DecidableEq, Repr

/-- The call `fetchData()` up to its first `await` (useAuthorityDashboard.js 21-24,
useReports.js 13-16): nothing if the flag is set, else the flag is set and a fetch starts. -/
def fetchData (s : FetchState) : FetchState :=
  if s.fetchingRef then s
  else { s with fetchingRef := true, inFlight := s.inFlight + 1 }

/-- One event: the effect calls `fetchData()`; `refresh` clears the flag and calls
`fetchData()` (useAuthorityDashboard.js 69-72, useReports.js 55-58); the `finally` block of a
fetch in flight clears the flag. -/
def FetchState.step (s : FetchState) : FetchEvent → FetchState
  | .mount => fetchData s
  | .refresh => fetchData { s with fetchingRef := false }
  | .completion =>
    if s.inFlight = 0 then s
    else { s with fetchingRef := false, inFlight := s.inFlight - 1 }

/-- The state after a sequence of events. -/
def FetchState.run (s : FetchState) (events : List FetchEvent) : FetchState :=
  events.foldl FetchState.step s

/-- In the sequence `events` from the state `s`, every refresh is requested while no fetch
is in flight. -/
def RefreshWhenIdle : FetchState → List FetchEvent → Prop
  | _, [] => True
  | s, e :: rest => (e = .refresh → s.inFlight = 0) ∧ RefreshWhenIdle (s.step e) rest

instance RefreshWhenIdle.decidable :
    ∀ (s : FetchState) (events : List FetchEvent), Decidable (RefreshWhenIdle s events)
  | _, [] => isTrue trivial
  | s, e :: rest =>
    have : Decidable (RefreshWhenIdle (s.step e) rest) :=
      RefreshWhenIdle.decidable (s.step e) rest
    inferInstanceAs
      (Decidable ((e = .refresh → s.inFlight = 0) ∧ RefreshWhenIdle (s.step e) rest))

/-- The flag tells whether a fetch is in flight. -/
def GuardInvariant (s : FetchState) : Prop :=
  s.inFlight = if s.fetchingRef then 1 else 0

/-! ## features/authority/AIPrioritizationPanel.jsx, pages/AuthorityPage.jsx -/

/-- `analysis.find(x => x.reportId === id)`. -/
def findAnalysis (analysis : List AnalysisItem) (id : Option String) : Option AnalysisItem :=
  analysis.find? (fun x => decide (x.reportId = id))

/-- The sort callback of `handlePrioritize` (AIPrioritizationPanel.jsx 29-37). -/
def rankCompare (analysis : List AnalysisItem) (a b : Report) : Option Int :=
  match findAnalysis analysis a.id with
  | none => some 1
  | some aAnalysis =>
    match findAnalysis analysis b.id with
    | none => some (-1)
    | some bAnalysis =>
      numSub (aAnalysis.rank.map Int.ofNat) (bAnalysis.rank.map Int.ofNat)

/-- The list `prioritizedReports` of `handlePrioritize` (AIPrioritizationPanel.jsx 28-38). -/
def prioritizedReports (rt : Runtime) (reports : List Report) (analysis : List AnalysisItem) :
    List Report :=
  rt.sort (rankCompare analysis) reports

/-- The state of `AuthorityPage` that the list depends on: `reports` of
`useAuthorityDashboard`, and the two states `aiPrioritizedReports` and `aiAnalysisResult`
(AuthorityPage.jsx 29-36), both `null` at first. -/
structure AuthorityPageState where
  reports : List Report
  aiPrioritizedReports : Option (List Report) := none
  aiAnalysisResult : Option BatchResult := none

/-- What changes that state: the panel calls `handleAIPrioritize` (AuthorityPage.jsx 46-49),
or a fetch of the hook, on mount or after `refresh()`, delivers a reports collection. -/
inductive AuthorityPageEvent where
  | prioritize (prioritizedReports : List Report) (analysisResult : BatchResult)
  | deliver (reports : List Report)

/-- One event on the state of the page. -/
def AuthorityPageState.step (s : AuthorityPageState) : AuthorityPageEvent → AuthorityPageState
  | .prioritize prioritizedReports analysisResult =>
    { s with aiPrioritizedReports := some prioritizedReports
             aiAnalysisResult := some analysisResult }
  | .deliver reports => { s with reports := reports }

/-- The state after a sequence of events. -/
def AuthorityPageState.run (s : AuthorityPageState) (events : List AuthorityPageEvent) :
    AuthorityPageState :=
  events.foldl AuthorityPageState.step s

/-- `reportsToFilter = aiPrioritizedReports || reports` (AuthorityPage.jsx 39); an array is
truthy, also an empty one. -/
def reportsToFilter (s : AuthorityPageState) : List Report :=
  match s.aiPrioritizedReports with
  | some l => l
  | none => s.reports

/-- The filters of `useFilters(reportsToFilter, { status: 'pending' })` at construction
(AuthorityPage.jsx 41-43): the overrides merged onto the defaults. -/
def authorityFilters : Filters :=
  { status := "pending" }

/-- The list the page hands to `ReportTable`: `filteredData` of `useFilters` on
`reportsToFilter`, with the filters of construction. -/
def displayedReports (rt : Runtime) (s : AuthorityPageState) : List Report :=
  filteredData rt (some (reportsToFilter s)) authorityFilters

/-- The reports of the panel: `reports.filter(r => r.status === 'pending')`
(AIPrioritizationPanel.jsx 12). -/
def pendingReports (reports : List Report) : List Report :=
  reports.filter (fun r => decide (r.status = some "pending"))

/-- Two pending reports: the first has five evidence files and the earlier date. -/
def rankedData : List Report :=
  [ { id := some "A", title := some "Bribery at the port", status := some "pending",
      date := some "2024-01-10", evidenceCount := some 5 },
    { id := some "B", title := some "Noise complaint", status := some "pending",
      date := some "2024-01-20" } ]

/-- The rank of a report in an analysis. -/
def rankOf (analysis : List AnalysisItem) (r : Report) : Option Nat :=
  (findAnalysis analysis r.id).bind (fun a => a.rank)

/-- The reports of `rankedData` after the first was verified: what a refresh delivers. -/
def refreshedData : List Report :=
  [ { id := some "A", title := some "Bribery at the port", status := some "verified",
      date := some "2024-01-10", evidenceCount := some 5 },
    { id := some "B", title := some "Noise complaint", status := some "pending",
      date := some "2024-01-20" } ]

/-- The analysis of the local fallback for the pending reports of `rankedData`, every draw
0.5. -/
def rankedAnalysis : List AnalysisItem :=
  (analyzeAndPrioritizeReportsLocal stdRuntime stableSort (fun _ => 1 / 2)
    (pendingReports rankedData)).analysis

/-! ## Notions the statement on the two sort directions uses -/

/-- The records of `l` have pairwise distinct sort keys: the time values of
`new Date(r.date || 0)`, the stakes, the evidence counts, or titles that `localeCompare`
tells apart. -/
def DistinctSortKeys (rt : Runtime) (sortBy : String) (l : List Report) : Prop :=
  (sortBy = "date" → (l.map (fun r => newDate rt r.date)).Nodup) ∧
  (sortBy = "stake" → (l.map stakeKey).Nodup) ∧
  (sortBy = "evidence" → (l.map evidenceKey).Nodup) ∧
  (sortBy = "title" → l.Pairwise (fun a b => rt.localeCompare (titleKey a) (titleKey b) ≠ 0))

/-- The records `a` and `b` share the sort key. -/
def SharesSortKey (rt : Runtime) (sortBy : String) (a b : Report) : Prop :=
  (sortBy = "date" ∧ newDate rt a.date = newDate rt b.date) ∨
  (sortBy = "stake" ∧ stakeKey a = stakeKey b) ∨
  (sortBy = "evidence" ∧ evidenceKey a = evidenceKey b) ∨
  (sortBy = "title" ∧ rt.localeCompare (titleKey a) (titleKey b) = 0)

end Whispr

namespace Whispr

/-! ## Lemmas on the primitives -/

theorem isInfixOf_iff (pat s : List Char) : isInfixOf pat s = true ↔ pat <:+: s := by
  induction s with
  | nil =>
    cases pat <;> simp [isInfixOf]
  | cons c cs ih =>
    rw [isInfixOf, Bool.or_eq_true, ih, List.infix_cons_iff, List.isPrefixOf_iff_prefix]

theorem includes_iff (s pat : String) : includes s pat = true ↔ IsSubstring pat s :=
  isInfixOf_iff pat.data s.data

theorem includes_empty (s : String) : includes s "" = true := by
  rw [includes_iff]
  exact List.nil_infix

theorem truthy_iff (s : String) : truthy s = true ↔ s ≠ "" := by
  simp [truthy]

theorem strOr_lower (rt : Runtime) (x : Option String) :
    strOr (x.map rt.toLowerCase) "" = lowerOrEmpty rt x := by
  cases x with
  | none => rfl
  | some s =>
    simp only [Option.map, strOr, lowerOrEmpty]
    split
    · rfl
    · rename_i h
      simp [truthy] at h
      exact h.symm

theorem searchPred_iff (rt : Runtime) (sl : String) (r : Report) :
    searchPred rt sl r = true ↔
      (IsSubstring sl (lowerOrEmpty rt r.title) ∨ IsSubstring sl (lowerOrEmpty rt r.id) ∨
        IsSubstring sl (lowerOrEmpty rt r.description)) := by
  simp only [searchPred, Bool.or_eq_true, strOr_lower, includes_iff, or_assoc]

theorem numOr_eq_getD (x : Option Int) : numOr x = x.getD 0 := by
  cases x <;> rfl

theorem strOr_eq_getD (x : Option String) : strOr x "" = x.getD "" := by
  cases x with
  | none => rfl
  | some s =>
    simp only [strOr, Option.getD]
    split
    · rfl
    · rename_i h
      simp [truthy] at h
      exact h.symm

/-! ## Lemmas on the sort -/

theorem stableSort_perm {α : Type} (cmp : α → α → Option Int) (l : List α) :
    (stableSort cmp l).Perm l :=
  List.perm_insertionSort _ l

/-- Stable insertion meets the contract of the sort. -/
theorem stableSort_contract {α : Type} :
    SortContract (stableSort : (α → α → Option Int) → List α → List α) :=
  ⟨stableSort_perm, fun _ _ _ => rfl⟩

theorem orderedInsert_congr {α : Type} (r s : α → α → Prop) [DecidableRel r] [DecidableRel s]
    (a : α) (l : List α) (h : ∀ b ∈ l, (r a b ↔ s a b)) :
    l.orderedInsert r a = l.orderedInsert s a := by
  induction l with
  | nil => rfl
  | cons b l ih =>
    have hb : r a b ↔ s a b := h b (List.mem_cons_self b l)
    have ih2 := ih (fun c hc => h c (List.mem_cons_of_mem b hc))
    by_cases hr : r a b
    · simp [List.orderedInsert, hr, hb.1 hr]
    · have hs : ¬ s a b := fun hs => hr (hb.2 hs)
      simp [List.orderedInsert, hr, hs, ih2]

theorem insertionSort_congr {α : Type} (r s : α → α → Prop) [DecidableRel r] [DecidableRel s]
    (l : List α) (h : ∀ a ∈ l, ∀ b ∈ l, (r a b ↔ s a b)) :
    l.insertionSort r = l.insertionSort s := by
  induction l with
  | nil => rfl
  | cons a l ih =>
    have ih2 := ih (fun x hx y hy => h x (List.mem_cons_of_mem a hx) y (List.mem_cons_of_mem a hy))
    rw [List.insertionSort, List.insertionSort, ih2]
    apply orderedInsert_congr
    intro b hb
    exact h a (List.mem_cons_self a l) b (List.mem_cons_of_mem a ((List.mem_insertionSort s).1 hb))

/-- The stable sort is ordered by any total and transitive relation that the comparator
decides on the elements of the list. -/
theorem stableSort_sorted {α : Type} (cmp : α → α → Option Int) (s : α → α → Prop)
    [DecidableRel s] (htot : ∀ a b, s a b ∨ s b a) (htrans : ∀ a b c, s a b → s b c → s a c)
    (l : List α) (h : ∀ a ∈ l, ∀ b ∈ l, (sortCompare cmp a b ≤ 0 ↔ s a b)) :
    (stableSort cmp l).Sorted s := by
  haveI : IsTotal α s := ⟨htot⟩
  haveI : IsTrans α s := ⟨htrans⟩
  rw [stableSort, insertionSort_congr _ s l h]
  exact List.sorted_insertionSort s l

/-- A comparator that is the difference of an integer key is consistent, and a sort that
meets the contract orders the list by that key, ascending. -/
theorem sort_sorted_asc {α : Type} (sort : (α → α → Option Int) → List α → List α)
    (hsort : SortContract sort) (cmp : α → α → Option Int) (k : α → Int) (l : List α)
    (h : ∀ a ∈ l, ∀ b ∈ l, cmp a b = some (k a - k b)) :
    ((sort cmp l).map k).Sorted (· ≤ ·) := by
  have hc : ConsistentOn cmp l := by
    constructor
    · intro a ha b hb
      simp only [sortCompare, h a ha b hb, h b hb a ha]
      omega
    · intro a ha b hb c hc
      simp only [sortCompare, h a ha b hb, h b hb c hc, h a ha c hc]
      omega
  rw [hsort.stable cmp l hc]
  have hs := stableSort_sorted cmp (fun a b => k a ≤ k b) (fun a b => le_total (k a) (k b))
    (fun a b c => le_trans) l
    (fun a ha b hb => by simp only [sortCompare, h a ha b hb]; omega)
  exact List.pairwise_map.2 hs

/-- The same for the negated difference: the list is ordered by the key, descending. -/
theorem sort_sorted_desc {α : Type} (sort : (α → α → Option Int) → List α → List α)
    (hsort : SortContract sort) (cmp : α → α → Option Int) (k : α → Int) (l : List α)
    (h : ∀ a ∈ l, ∀ b ∈ l, cmp a b = some (-(k a - k b))) :
    ((sort cmp l).map k).Sorted (· ≥ ·) := by
  have hc : ConsistentOn cmp l := by
    constructor
    · intro a ha b hb
      simp only [sortCompare, h a ha b hb, h b hb a ha]
      omega
    · intro a ha b hb c hc
      simp only [sortCompare, h a ha b hb, h b hb c hc, h a ha c hc]
      omega
  rw [hsort.stable cmp l hc]
  have hs := stableSort_sorted cmp (fun a b => k a ≥ k b) (fun a b => le_total (k b) (k a))
    (fun a b c hab hbc => le_trans hbc hab) l
    (fun a ha b hb => by simp only [sortCompare, h a ha b hb]; omega)
  exact List.pairwise_map.2 hs

/-- A comparator that is a lawful three-way comparison of a key is consistent, and a sort
that meets the contract orders the list by it. -/
theorem sort_sorted_of_compare {α β : Type} (sort : (α → α → Option Int) → List α → List α)
    (hsort : SortContract sort) (cmp : α → α → Option Int) (k : α → β) (c : β → β → Int)
    (hanti : ∀ s t, c s t < 0 ↔ 0 < c t s)
    (htrans : ∀ s t u, c s t ≤ 0 → c t u ≤ 0 → c s u ≤ 0)
    (l : List α) (h : ∀ a ∈ l, ∀ b ∈ l, cmp a b = some (c (k a) (k b))) :
    ((sort cmp l).map k).Sorted (fun s t => c s t ≤ 0) := by
  have hc : ConsistentOn cmp l := by
    constructor
    · intro a ha b hb
      simp only [sortCompare, h a ha b hb, h b hb a ha]
      exact hanti _ _
    · intro a ha b hb d hd
      simp only [sortCompare, h a ha b hb, h b hb d hd, h a ha d hd]
      exact htrans _ _ _
  rw [hsort.stable cmp l hc]
  have hs := stableSort_sorted cmp (fun a b => c (k a) (k b) ≤ 0)
    (fun a b => by
      have h1 := hanti (k a) (k b)
      have h2 := hanti (k b) (k a)
      omega)
    (fun a b d => htrans _ _ _) l
    (fun a ha b hb => by simp only [sortCompare, h a ha b hb])
  exact List.pairwise_map.2 hs

/-! ## The sort of V8 for short arrays meets the contract -/

theorem PreOn.lt_of_not_le {α : Type} {le lt : α → α → Prop} {P : α → Prop}
    (h : PreOn le lt P) {x y : α} (hx : P x) (hy : P y) (hn : ¬ le x y) : lt y x := by
  by_contra hlt
  exact hn ((h.not_lt y x hy hx).1 hlt)

theorem PreOn.not_le_of_lt {α : Type} {le lt : α → α → Prop} {P : α → Prop}
    (h : PreOn le lt P) {x y : α} (hx : P x) (hy : P y) (hlt : lt x y) : ¬ le y x :=
  fun hle => ((h.not_lt x y hx hy).2 hle) hlt

theorem PreOn.lt_trans {α : Type} {le lt : α → α → Prop} {P : α → Prop}
    (h : PreOn le lt P) {x y z : α} (hx : P x) (hy : P y) (hz : P z)
    (hxy : lt x y) (hyz : lt y z) : lt x z := by
  by_contra hn
  have h1 : le z x := (h.not_lt x z hx hz).1 hn
  have h2 : le z y := h.trans z x y hz hx hy h1 (h.le_of_lt x y hx hy hxy)
  exact h.not_le_of_lt hy hz hyz h2

/-- Putting `a` before its ties and putting `x` after its ties commute. -/
theorem orderedInsert_comm {α : Type} (le lt : α → α → Prop) [DecidableRel le]
    [DecidableRel lt] (P : α → Prop) (h : PreOn le lt P) (a x : α) (ha : P a) (hx : P x)
    (S : List α) (hS : ∀ y ∈ S, P y) :
    (S.orderedInsert lt x).orderedInsert le a = (S.orderedInsert le a).orderedInsert lt x := by
  induction S with
  | nil =>
    by_cases hax : le a x
    · have hn : ¬ lt x a := (h.not_lt x a hx ha).2 hax
      simp [List.orderedInsert, hax, hn]
    · have hl : lt x a := h.lt_of_not_le ha hx hax
      simp [List.orderedInsert, hax, hl]
  | cons b S ih =>
    have hb : P b := hS b (List.mem_cons_self b S)
    have ih2 := ih (fun y hy => hS y (List.mem_cons_of_mem b hy))
    by_cases hxb : lt x b
    · by_cases hab : le a b
      · by_cases hax : le a x
        · have hn : ¬ lt x a := (h.not_lt x a hx ha).2 hax
          simp [List.orderedInsert, hxb, hab, hax, hn]
        · have hl : lt x a := h.lt_of_not_le ha hx hax
          simp [List.orderedInsert, hxb, hab, hax, hl]
      · have hax : ¬ le a x := fun hax =>
          hab (h.trans a x b ha hx hb hax (h.le_of_lt x b hx hb hxb))
        simp [List.orderedInsert, hxb, hab, hax]
    · by_cases hab : le a b
      · have hbx : le b x := (h.not_lt x b hx hb).1 hxb
        have hn : ¬ lt x a := (h.not_lt x a hx ha).2 (h.trans a b x ha hb hx hab hbx)
        simp [List.orderedInsert, hxb, hab, hn]
      · simp [List.orderedInsert, hxb, hab, ih2]

/-- Sorting a list with one more element at its end puts that element after its ties. -/
theorem insertionSort_append_singleton {α : Type} (le lt : α → α → Prop) [DecidableRel le]
    [DecidableRel lt] (P : α → Prop) (h : PreOn le lt P) (x : α) (hx : P x)
    (l : List α) (hl : ∀ y ∈ l, P y) :
    (l ++ [x]).insertionSort le = (l.insertionSort le).orderedInsert lt x := by
  induction l with
  | nil => rfl
  | cons a l ih =>
    have ih2 := ih (fun y hy => hl y (List.mem_cons_of_mem a hy))
    rw [List.cons_append, List.insertionSort, ih2, List.insertionSort]
    exact orderedInsert_comm le lt P h a x (hl a (List.mem_cons_self a l)) hx _
      (fun y hy => hl y (List.mem_cons_of_mem a ((List.mem_insertionSort le).1 hy)))

theorem pairwise_orderedInsert_on {α : Type} (le lt : α → α → Prop) [DecidableRel le]
    (P : α → Prop) (h : PreOn le lt P) (a : α) (ha : P a) (S : List α)
    (hS : ∀ y ∈ S, P y) (hp : S.Pairwise le) : (S.orderedInsert le a).Pairwise le := by
  induction S with
  | nil => simp [List.orderedInsert]
  | cons b S ih =>
    have hb : P b := hS b (List.mem_cons_self b S)
    have hS2 : ∀ y ∈ S, P y := fun y hy => hS y (List.mem_cons_of_mem b hy)
    rw [List.pairwise_cons] at hp
    by_cases hab : le a b
    · rw [List.orderedInsert, if_pos hab, List.pairwise_cons]
      refine ⟨?_, List.pairwise_cons.2 hp⟩
      intro y hy
      rcases List.mem_cons.1 hy with rfl | hy
      · exact hab
      · exact h.trans a b y ha hb (hS2 y hy) hab (hp.1 y hy)
    · rw [List.orderedInsert, if_neg hab, List.pairwise_cons]
      refine ⟨?_, ih hS2 hp.2⟩
      intro y hy
      rcases (List.mem_orderedInsert le).1 hy with rfl | hy
      · exact h.le_of_lt b y hb ha (h.lt_of_not_le ha hb hab)
      · exact hp.1 y hy

theorem pairwise_insertionSort_on {α : Type} (le lt : α → α → Prop) [DecidableRel le]
    (P : α → Prop) (h : PreOn le lt P) (l : List α) (hl : ∀ y ∈ l, P y) :
    (l.insertionSort le).Pairwise le := by
  induction l with
  | nil => simp
  | cons a l ih =>
    have hl2 : ∀ y ∈ l, P y := fun y hy => hl y (List.mem_cons_of_mem a hy)
    rw [List.insertionSort]
    exact pairwise_orderedInsert_on le lt P h a (hl a (List.mem_cons_self a l)) _
      (fun y hy => hl2 y ((List.mem_insertionSort le).1 hy)) (ih hl2)

/-- The binary search returns the boundary between the elements that `pivot` does not
compare less than and those it compares less than, when the former are a prefix. -/
theorem findPos_spec {α : Type} (cmp : α → α → Option Int) (pivot : α) (arr : List α)
    (hmono : ∀ i j (hi : i < arr.length) (hj : j < arr.length), i ≤ j →
      ¬ (sortCompare cmp pivot arr[j] < 0) → ¬ (sortCompare cmp pivot arr[i] < 0))
    (fuel left right : Nat) (hlr : left ≤ right) (hr : right ≤ arr.length)
    (hfuel : right - left < fuel)
    (hleft : ∀ i (hi : i < arr.length), i < left → ¬ (sortCompare cmp pivot arr[i] < 0))
    (hright : ∀ i (hi : i < arr.length), right ≤ i → sortCompare cmp pivot arr[i] < 0) :
    findPos cmp pivot arr fuel left right ≤ arr.length ∧
    (∀ i (hi : i < arr.length), i < findPos cmp pivot arr fuel left right →
      ¬ (sortCompare cmp pivot arr[i] < 0)) ∧
    (∀ i (hi : i < arr.length), findPos cmp pivot arr fuel left right ≤ i →
      sortCompare cmp pivot arr[i] < 0) := by
  induction fuel generalizing left right with
  | zero => omega
  | succ fuel ih =>
    by_cases hlt : left < right
    · have hmid : left + (right - left) / 2 < arr.length := by omega
      rw [findPos, if_pos hlt]
      simp only [List.get?_eq_getElem?, List.getElem?_eq_getElem hmid]
      by_cases hc : sortCompare cmp pivot arr[left + (right - left) / 2] < 0
      · rw [if_pos hc]
        apply ih left (left + (right - left) / 2) (by omega) (by omega) (by omega) hleft
        intro i hi hmi
        by_contra hn
        exact hmono _ i hmid hi hmi hn hc
      · rw [if_neg hc]
        apply ih (left + (right - left) / 2 + 1) right (by omega) hr (by omega) _ hright
        intro i hi hmi
        exact hmono i _ hi hmid (by omega) hc
    · have he : left = right := by omega
      rw [findPos, if_neg hlt]
      subst he
      exact ⟨hr, hleft, hright⟩

/-- Putting `x` in front of the first element it compares less than, when the list splits
into elements it does not compare less than and elements it does. -/
theorem orderedInsert_of_split {α : Type} (lt : α → α → Prop) [DecidableRel lt] (x : α)
    (A B : List α) (hA : ∀ a ∈ A, ¬ lt x a) (hB : ∀ b ∈ B, lt x b) :
    (A ++ B).orderedInsert lt x = A ++ x :: B := by
  induction A with
  | nil =>
    cases B with
    | nil => rfl
    | cons b B => simp [List.orderedInsert, hB b (List.mem_cons_self b B)]
  | cons a A ih =>
    have ha := hA a (List.mem_cons_self a A)
    simp [List.orderedInsert, ha, ih (fun y hy => hA y (List.mem_cons_of_mem a hy))]

/-- On a sorted list the binary insertion puts `pivot` after its ties. -/
theorem binaryInsert_eq_orderedInsert {α : Type} (cmp : α → α → Option Int) (P : α → Prop)
    (h : PreOn (fun a b => sortCompare cmp a b ≤ 0) (fun a b => sortCompare cmp a b < 0) P)
    (pivot : α) (hp : P pivot) (S : List α) (hS : ∀ y ∈ S, P y)
    (hsorted : S.Pairwise (fun a b => sortCompare cmp a b ≤ 0)) :
    binaryInsert cmp S pivot = S.orderedInsert (fun a b => sortCompare cmp a b < 0) pivot := by
  have hmono : ∀ i j (hi : i < S.length) (hj : j < S.length), i ≤ j →
      ¬ (sortCompare cmp pivot S[j] < 0) → ¬ (sortCompare cmp pivot S[i] < 0) := by
    intro i j hi hj hij hnj
    rcases Nat.eq_or_lt_of_le hij with he | hlt
    · subst he
      exact hnj
    · have hPi : P S[i] := hS _ (List.getElem_mem hi)
      have hPj : P S[j] := hS _ (List.getElem_mem hj)
      have h1 : sortCompare cmp S[i] S[j] ≤ 0 := List.pairwise_iff_getElem.1 hsorted i j hi hj hlt
      have h2 : sortCompare cmp S[j] pivot ≤ 0 := (h.not_lt pivot S[j] hp hPj).1 hnj
      exact (h.not_lt pivot S[i] hp hPi).2 (h.trans _ _ _ hPi hPj hp h1 h2)
  have hspec := findPos_spec cmp pivot S hmono (S.length + 1) 0 S.length (Nat.zero_le _)
    (Nat.le_refl _) (by omega) (fun i _ hi => absurd hi (Nat.not_lt_zero i))
    (fun i hi hle => absurd hi (Nat.not_lt.2 hle))
  obtain ⟨hle, hl, hr⟩ := hspec
  have hsplit := orderedInsert_of_split (fun a b => sortCompare cmp a b < 0) pivot
    (S.take (findPos cmp pivot S (S.length + 1) 0 S.length))
    (S.drop (findPos cmp pivot S (S.length + 1) 0 S.length))
    (by
      intro a ha
      obtain ⟨i, hi, rfl⟩ := List.mem_take_iff_getElem.1 ha
      exact hl i (by omega) (by omega))
    (by
      intro b hb
      obtain ⟨i, hi, rfl⟩ := List.mem_drop_iff_getElem.1 hb
      exact hr _ (by omega) (by omega))
  rw [List.take_append_drop] at hsplit
  rw [hsplit]
  rfl

theorem preOn_of_consistentOn {α : Type} (cmp : α → α → Option Int) (l : List α)
    (h : ConsistentOn cmp l) :
    PreOn (fun a b => sortCompare cmp a b ≤ 0) (fun a b => sortCompare cmp a b < 0)
      (fun a => a ∈ l) := by
  obtain ⟨hanti, htrans⟩ := h
  refine ⟨?_, ?_, ?_⟩
  · intro x y hx hy
    have h1 := hanti x hx y hy
    omega
  · intro x y _ _ hlt
    omega
  · intro x y z hx hy hz
    exact htrans x hx y hy z hz

theorem orderedInsert_at_end {α : Type} (le : α → α → Prop) [DecidableRel le] (a : α)
    (S : List α) (h : ∀ y ∈ S, ¬ le a y) : S.orderedInsert le a = S ++ [a] := by
  induction S with
  | nil => rfl
  | cons b S ih =>
    simp [List.orderedInsert, h b (List.mem_cons_self b S),
      ih (fun y hy => h y (List.mem_cons_of_mem b hy))]

/-- A strictly descending list is sorted by reversing it. -/
theorem insertionSort_of_descending {α : Type} (le lt : α → α → Prop) [DecidableRel le]
    (P : α → Prop) (h : PreOn le lt P) (D : List α) (hD : ∀ y ∈ D, P y)
    (hdesc : D.Pairwise (fun a b => lt b a)) : D.insertionSort le = D.reverse := by
  induction D with
  | nil => rfl
  | cons a D ih =>
    rw [List.pairwise_cons] at hdesc
    have hD2 : ∀ y ∈ D, P y := fun y hy => hD y (List.mem_cons_of_mem a hy)
    have ha : P a := hD a (List.mem_cons_self a D)
    rw [List.insertionSort, ih hD2 hdesc.2, List.reverse_cons]
    apply orderedInsert_at_end
    intro y hy
    have hy2 : y ∈ D := List.mem_reverse.1 hy
    exact h.not_le_of_lt (hD2 y hy2) ha (hdesc.1 y hy2)

/-- The elements that continue a non-descending run are in order. -/
theorem extendRun_ascending {α : Type} (cmp : α → α → Option Int) (P : α → Prop)
    (h : PreOn (fun a b => sortCompare cmp a b ≤ 0) (fun a b => sortCompare cmp a b < 0) P)
    (rest : List α) (prev : α) (hp : P prev) (hr : ∀ y ∈ rest, P y) :
    (prev :: rest.take (extendRun cmp false prev rest)).Pairwise
      (fun a b => sortCompare cmp a b ≤ 0) := by
  induction rest generalizing prev with
  | nil => simp [extendRun]
  | cons y ys ih =>
    have hy : P y := hr y (List.mem_cons_self y ys)
    have hys : ∀ z ∈ ys, P z := fun z hz => hr z (List.mem_cons_of_mem y hz)
    by_cases hc : sortCompare cmp y prev < 0
    · simp [extendRun, hc]
    · have ih2 := ih y hy hys
      have hle : sortCompare cmp prev y ≤ 0 := (h.not_lt y prev hy hp).1 hc
      have hk : extendRun cmp false prev (y :: ys) = 1 + extendRun cmp false y ys := by
        simp [extendRun, hc]
      rw [hk, Nat.add_comm, List.take_succ_cons, List.pairwise_cons]
      refine ⟨?_, ih2⟩
      intro z hz
      rcases List.mem_cons.1 hz with rfl | hz
      · exact hle
      · have hz2 : P z := hys z (List.mem_of_mem_take hz)
        exact h.trans prev y z hp hy hz2 hle ((List.pairwise_cons.1 ih2).1 z hz)

/-- The elements that continue a strictly descending run are in strictly descending
order. -/
theorem extendRun_descending {α : Type} (cmp : α → α → Option Int) (P : α → Prop)
    (h : PreOn (fun a b => sortCompare cmp a b ≤ 0) (fun a b => sortCompare cmp a b < 0) P)
    (rest : List α) (prev : α) (hp : P prev) (hr : ∀ y ∈ rest, P y) :
    (prev :: rest.take (extendRun cmp true prev rest)).Pairwise
      (fun a b => sortCompare cmp b a < 0) := by
  induction rest generalizing prev with
  | nil => simp [extendRun]
  | cons y ys ih =>
    have hy : P y := hr y (List.mem_cons_self y ys)
    have hys : ∀ z ∈ ys, P z := fun z hz => hr z (List.mem_cons_of_mem y hz)
    by_cases hc : sortCompare cmp y prev ≥ 0
    · simp [extendRun, hc]
    · have ih2 := ih y hy hys
      have hlt : sortCompare cmp y prev < 0 := by omega
      have hk : extendRun cmp true prev (y :: ys) = 1 + extendRun cmp true y ys := by
        simp [extendRun, hlt]
      rw [hk, Nat.add_comm, List.take_succ_cons, List.pairwise_cons]
      refine ⟨?_, ih2⟩
      intro z hz
      rcases List.mem_cons.1 hz with rfl | hz
      · exact hlt
      · have hz2 : P z := hys z (List.mem_of_mem_take hz)
        exact h.lt_trans hz2 hy hp ((List.pairwise_cons.1 ih2).1 z hz) hlt

/-- The initial run that `countRun` finds, reversed when it is descending, is the stable
sorted arrangement of those elements. -/
theorem makeRun_eq_stableSort {α : Type} (cmp : α → α → Option Int) (l : List α)
    (h : ConsistentOn cmp l) :
    (if (countRun cmp l).1 then (l.take (countRun cmp l).2).reverse
      else l.take (countRun cmp l).2) = stableSort cmp (l.take (countRun cmp l).2) := by
  have hpre := preOn_of_consistentOn cmp l h
  match l, hpre with
  | [], _ => simp [countRun, stableSort]
  | [x], _ => simp [countRun, stableSort]
  | x0 :: x1 :: rest, hpre =>
    have h0 : x0 ∈ x0 :: x1 :: rest := List.mem_cons_self _ _
    have h1 : x1 ∈ x0 :: x1 :: rest := List.mem_cons_of_mem _ (List.mem_cons_self _ _)
    have hrest : ∀ y ∈ rest, y ∈ x0 :: x1 :: rest :=
      fun y hy => List.mem_cons_of_mem _ (List.mem_cons_of_mem _ hy)
    by_cases hd : sortCompare cmp x1 x0 < 0
    · have hrun := extendRun_descending cmp _ hpre rest x1 h1 hrest
      have htake : (x0 :: x1 :: rest).take (2 + extendRun cmp true x1 rest) =
          x0 :: x1 :: rest.take (extendRun cmp true x1 rest) := by
        rw [Nat.add_comm]
        rfl
      simp only [countRun, hd, decide_True, if_true, htake]
      symm
      apply insertionSort_of_descending _ _ _ hpre
      · intro y hy
        rcases List.mem_cons.1 hy with rfl | hy
        · exact h0
        · rcases List.mem_cons.1 hy with rfl | hy
          · exact h1
          · exact hrest y (List.mem_of_mem_take hy)
      · rw [List.pairwise_cons]
        refine ⟨?_, hrun⟩
        intro z hz
        rcases List.mem_cons.1 hz with rfl | hz
        · exact hd
        · exact hpre.lt_trans (hrest z (List.mem_of_mem_take hz)) h1 h0
            ((List.pairwise_cons.1 hrun).1 z hz) hd
    · have hrun := extendRun_ascending cmp _ hpre rest x1 h1 hrest
      have htake : (x0 :: x1 :: rest).take (2 + extendRun cmp false x1 rest) =
          x0 :: x1 :: rest.take (extendRun cmp false x1 rest) := by
        rw [Nat.add_comm]
        rfl
      have hle : sortCompare cmp x0 x1 ≤ 0 := (hpre.not_lt x1 x0 h1 h0).1 hd
      simp only [countRun, hd, decide_False, htake]
      symm
      apply List.Sorted.insertionSort_eq
      rw [List.Sorted, List.pairwise_cons]
      refine ⟨?_, hrun⟩
      intro z hz
      rcases List.mem_cons.1 hz with rfl | hz
      · exact hle
      · exact hpre.trans x0 x1 z h0 h1 (hrest z (List.mem_of_mem_take hz)) hle
          ((List.pairwise_cons.1 hrun).1 z hz)

/-- Binary insertion of the elements of `rest`, one by one, into the stable sorted
arrangement of `init` gives the stable sorted arrangement of `init ++ rest`. -/
theorem foldl_binaryInsert {α : Type} (cmp : α → α → Option Int) (P : α → Prop)
    (h : PreOn (fun a b => sortCompare cmp a b ≤ 0) (fun a b => sortCompare cmp a b < 0) P)
    (rest init : List α) (hi : ∀ y ∈ init, P y) (hr : ∀ y ∈ rest, P y) :
    rest.foldl (binaryInsert cmp) (stableSort cmp init) = stableSort cmp (init ++ rest) := by
  induction rest generalizing init with
  | nil => simp
  | cons x rest ih =>
    have hx : P x := hr x (List.mem_cons_self x rest)
    have hS : ∀ y ∈ stableSort cmp init, P y :=
      fun y hy => hi y ((List.mem_insertionSort _).1 hy)
    have hstep : binaryInsert cmp (stableSort cmp init) x = stableSort cmp (init ++ [x]) := by
      rw [binaryInsert_eq_orderedInsert cmp P h x hx _ hS
        (pairwise_insertionSort_on _ _ P h init hi)]
      exact (insertionSort_append_singleton _ _ P h x hx init hi).symm
    rw [List.foldl_cons, hstep, ih (init ++ [x])
      (fun y hy => by
        rcases List.mem_append.1 hy with hy | hy
        · exact hi y hy
        · rw [List.mem_singleton.1 hy]
          exact hx)
      (fun y hy => hr y (List.mem_cons_of_mem x hy))]
    simp

theorem binaryInsert_perm {α : Type} (cmp : α → α → Option Int) (S : List α) (x : α) :
    (binaryInsert cmp S x).Perm (x :: S) := by
  unfold binaryInsert
  refine List.perm_middle.trans ?_
  rw [List.take_append_drop]

theorem foldl_binaryInsert_perm {α : Type} (cmp : α → α → Option Int) (rest init : List α) :
    (rest.foldl (binaryInsert cmp) init).Perm (init ++ rest) := by
  induction rest generalizing init with
  | nil => simp
  | cons x rest ih =>
    rw [List.foldl_cons]
    refine (ih (binaryInsert cmp init x)).trans ?_
    refine ((binaryInsert_perm cmp init x).append_right rest).trans ?_
    exact List.perm_middle.symm

/-- The sort of V8 for short arrays meets the contract of the sort. -/
theorem shortArraySort_contract {α : Type} :
    SortContract (shortArraySort : (α → α → Option Int) → List α → List α) := by
  constructor
  · intro cmp l
    unfold shortArraySort
    refine (foldl_binaryInsert_perm cmp _ _).trans ?_
    have hfirst : (if (countRun cmp l).1 then (l.take (countRun cmp l).2).reverse
        else l.take (countRun cmp l).2).Perm (l.take (countRun cmp l).2) := by
      split
      · exact List.reverse_perm _
      · exact List.Perm.refl _
    refine (hfirst.append_right _).trans ?_
    rw [List.take_append_drop]
  · intro cmp l h
    unfold shortArraySort
    have hpre := preOn_of_consistentOn cmp l h
    simp only []
    rw [makeRun_eq_stableSort cmp l h,
      foldl_binaryInsert cmp _ hpre _ _ (fun y hy => List.mem_of_mem_take hy)
        (fun y hy => List.mem_of_mem_drop hy),
      List.take_append_drop]

/-! ## Lemmas on the filter steps -/

theorem filteredData_perm (rt : Runtime) (hsort : SortContract rt.sort) (data : List Report)
    (f : Filters) : (filteredData rt (some data) f).Perm (passing rt data f) :=
  hsort.perm _ _

theorem mem_filteredData (rt : Runtime) (hsort : SortContract rt.sort) (data : List Report)
    (f : Filters) (r : Report) :
    r ∈ filteredData rt (some data) f ↔ r ∈ passing rt data f :=
  (filteredData_perm rt hsort data f).mem_iff

theorem searchStep_sublist (rt : Runtime) (f : Filters) (l : List Report) :
    (searchStep rt f l).Sublist l := by
  unfold searchStep
  split
  · exact List.filter_sublist l
  · exact List.Sublist.refl l

theorem categoryStep_sublist (f : Filters) (l : List Report) :
    (categoryStep f l).Sublist l := by
  unfold categoryStep
  split
  · exact List.filter_sublist l
  · exact List.Sublist.refl l

theorem statusStep_sublist (f : Filters) (l : List Report) :
    (statusStep f l).Sublist l := by
  unfold statusStep
  split
  · exact List.filter_sublist l
  · exact List.Sublist.refl l

theorem passing_sublist (rt : Runtime) (data : List Report) (f : Filters) :
    (passing rt data f).Sublist data :=
  ((statusStep_sublist f _).trans (categoryStep_sublist f _)).trans (searchStep_sublist rt f _)

theorem categoryStep_all (f : Filters) (l : List Report) (h : f.category = "all") :
    categoryStep f l = l := by
  simp [categoryStep, h]

theorem statusStep_all (f : Filters) (l : List Report) (h : f.status = "all") :
    statusStep f l = l := by
  simp [statusStep, h]

theorem searchStep_empty (rt : Runtime) (f : Filters) (l : List Report) (h : f.search = "") :
    searchStep rt f l = l := by
  simp [searchStep, truthy, h]

theorem searchStep_congr (rt : Runtime) (f g : Filters) (l : List Report)
    (hempty : rt.toLowerCase "" = "")
    (h : rt.toLowerCase f.search = rt.toLowerCase g.search) :
    searchStep rt f l = searchStep rt g l := by
  have key : ∀ (x y : Filters), x.search = "" →
      rt.toLowerCase x.search = rt.toLowerCase y.search →
      searchStep rt x l = searchStep rt y l := by
    intro x y hx hxy
    rw [searchStep_empty rt x l hx, searchStep]
    split
    · rw [← hxy, hx, hempty]
      symm
      apply List.filter_eq_self.2
      intro a _
      simp only [searchPred, includes_empty, Bool.or_self]
    · rfl
  by_cases hf : f.search = ""
  · exact key f g hf h
  · by_cases hg : g.search = ""
    · exact (key g f hg h.symm).symm
    · simp only [searchStep, (truthy_iff _).2 hf, (truthy_iff _).2 hg, if_true, h]

theorem statusStep_mono (f g : Filters) (l l2 : List Report) (h : f.status = g.status)
    (hl : l ⊆ l2) : statusStep f l ⊆ statusStep g l2 := by
  simp only [statusStep, h]
  split
  · intro x hx
    rw [List.mem_filter] at hx ⊢
    exact ⟨hl hx.1, hx.2⟩
  · exact hl

theorem passing_eq_filter (rt : Runtime) (f : Filters) :
    ∃ p : Report → Bool, ∀ l, passing rt l f = l.filter p := by
  have h1 : ∃ p : Report → Bool, ∀ l, searchStep rt f l = l.filter p := by
    unfold searchStep
    split
    · exact ⟨_, fun l => rfl⟩
    · exact ⟨fun _ => true, fun l => (List.filter_true l).symm⟩
  have h2 : ∃ p : Report → Bool, ∀ l, categoryStep f l = l.filter p := by
    unfold categoryStep
    split
    · exact ⟨_, fun l => rfl⟩
    · exact ⟨fun _ => true, fun l => (List.filter_true l).symm⟩
  have h3 : ∃ p : Report → Bool, ∀ l, statusStep f l = l.filter p := by
    unfold statusStep
    split
    · exact ⟨_, fun l => rfl⟩
    · exact ⟨fun _ => true, fun l => (List.filter_true l).symm⟩
  obtain ⟨p1, hp1⟩ := h1
  obtain ⟨p2, hp2⟩ := h2
  obtain ⟨p3, hp3⟩ := h3
  refine ⟨fun x => p1 x && (p2 x && p3 x), fun l => ?_⟩
  rw [passing, hp1, hp2, hp3, List.filter_filter, List.filter_filter]
  congr 1
  funext x
  cases p1 x <;> cases p2 x <;> cases p3 x <;> rfl

/-! ## Lemmas on the concrete runtime -/

theorem compareChars_swap (a b : List Char) : compareChars b a = - compareChars a b := by
  induction a generalizing b with
  | nil => cases b <;> simp [compareChars]
  | cons x xs ih =>
    cases b with
    | nil => simp [compareChars]
    | cons y ys =>
      simp only [compareChars]
      split_ifs <;> first | omega | exact ih ys

theorem compareChars_trans (a b c : List Char) (hab : compareChars a b ≤ 0)
    (hbc : compareChars b c ≤ 0) : compareChars a c ≤ 0 := by
  induction a generalizing b c with
  | nil => cases c <;> simp [compareChars]
  | cons x xs ih =>
    cases b with
    | nil => simp [compareChars] at hab
    | cons y ys =>
      cases c with
      | nil => simp [compareChars] at hbc
      | cons z zs =>
        simp only [compareChars] at hab hbc ⊢
        split_ifs at hab hbc ⊢ <;> first | omega | exact ih ys zs hab hbc

theorem codePointCompare_antisymm (s t : String) :
    codePointCompare s t < 0 ↔ 0 < codePointCompare t s := by
  unfold codePointCompare
  rw [compareChars_swap s.data t.data]
  omega

theorem codePointCompare_trans (s t u : String) (hst : codePointCompare s t ≤ 0)
    (htu : codePointCompare t u ≤ 0) : codePointCompare s u ≤ 0 :=
  compareChars_trans s.data t.data u.data hst htu

/-- The sort of `stdRuntime` meets the contract. -/
theorem stdRuntime_sort : SortContract stdRuntime.sort :=
  stableSort_contract

/-- The sort of `v8Runtime` meets the contract. -/
theorem v8Runtime_sort : SortContract v8Runtime.sort :=
  shortArraySort_contract

/-! ## The filters -/

/-- C1. Search predicate: with category "all", status "all" and a non-empty search string,
a record is in `filteredData` iff it is a record of `data` and the lower-cased search string
is a substring of its lower-cased title, id or description (a missing field counting as the
empty string); with an empty search string every record of `data` is in `filteredData`. -/
theorem C1_search_predicate (rt : Runtime) (hsort : SortContract rt.sort)
    (data : List Report) (f : Filters) (hc : f.category = "all") (hs : f.status = "all") :
    (f.search ≠ "" → ∀ r, r ∈ filteredData rt (some data) f ↔
      (r ∈ data ∧
        (IsSubstring (rt.toLowerCase f.search) (lowerOrEmpty rt r.title) ∨
          IsSubstring (rt.toLowerCase f.search) (lowerOrEmpty rt r.id) ∨
          IsSubstring (rt.toLowerCase f.search) (lowerOrEmpty rt r.description)))) ∧
    (f.search = "" → ∀ r, r ∈ data → r ∈ filteredData rt (some data) f) := by
  constructor
  · intro hne r
    have ht : truthy f.search = true := (truthy_iff _).2 hne
    rw [mem_filteredData rt hsort, passing, statusStep_all _ _ hs, categoryStep_all _ _ hc,
      searchStep, if_pos ht, List.mem_filter, searchPred_iff]
  · intro he r hr
    rw [mem_filteredData rt hsort, passing, statusStep_all _ _ hs, categoryStep_all _ _ hc,
      searchStep_empty _ _ _ he]
    exact hr

/-- Witness of C1 on the test fixture, search "Fraud". -/
theorem C1_search_predicate_witness :
    ("Fraud" : String) ≠ "" ∧
    ∀ r, r ∈ filteredData stdRuntime (some mockData) { search := "Fraud" } ↔
      (r ∈ mockData ∧
        (IsSubstring (stdRuntime.toLowerCase "Fraud") (lowerOrEmpty stdRuntime r.title) ∨
          IsSubstring (stdRuntime.toLowerCase "Fraud") (lowerOrEmpty stdRuntime r.id) ∨
          IsSubstring (stdRuntime.toLowerCase "Fraud")
            (lowerOrEmpty stdRuntime r.description))) :=
  ⟨by decide,
    (C1_search_predicate stdRuntime stdRuntime_sort mockData { search := "Fraud" }
      rfl rfl).1 (by decide)⟩

/-- C2 as stated fails: with category "" (a string other than "all") nothing is filtered,
so the fixture's records, none of category "", are all returned. -/
theorem C2_category_empty_counterexample :
    ("" : String) ≠ "all" ∧
    filteredData stdRuntime (some mockData) { category := "" } =
      filteredData stdRuntime (some mockData) {} ∧
    ¬ (∀ r ∈ filteredData stdRuntime (some mockData) { category := "" },
        r.category = some "") := by
  decide

/-- C2, amended. Category predicate, with an empty search and status "all". For a category
that is neither empty nor "all", `filteredData` holds exactly the records of `data` whose
category is equal to `filters.category`. An empty category string, like "all", filters
nothing: `filteredData` holds every record of `data`, each as often as `data` does. The law
of the built-in used: the sort returns a permutation. -/
theorem C2_category_predicate (rt : Runtime) (hsort : SortContract rt.sort)
    (data : List Report) (f : Filters) (hsearch : f.search = "") (hs : f.status = "all") :
    (f.category ≠ "" → f.category ≠ "all" →
      ∀ r, r ∈ filteredData rt (some data) f ↔ (r ∈ data ∧ r.category = some f.category)) ∧
    (f.category = "" ∨ f.category = "all" →
      (filteredData rt (some data) f).Perm data ∧
      ∀ r, r ∈ filteredData rt (some data) f ↔ r ∈ data) := by
  constructor
  · intro hne hall r
    have hcond : (truthy f.category && f.category != "all") = true := by
      simp [truthy, hne, hall]
    rw [mem_filteredData rt hsort, passing, statusStep_all _ _ hs,
      searchStep_empty _ _ _ hsearch, categoryStep, if_pos hcond, List.mem_filter,
      decide_eq_true_iff]
  · intro hcat
    have hcond : (truthy f.category && f.category != "all") = false := by
      rcases hcat with h | h <;> simp [truthy, h]
    have hp : passing rt data f = data := by
      rw [passing, statusStep_all _ _ hs, searchStep_empty _ _ _ hsearch, categoryStep, hcond]
      rfl
    have hperm : (filteredData rt (some data) f).Perm data := by
      have h := filteredData_perm rt hsort data f
      rwa [hp] at h
    exact ⟨hperm, fun r => hperm.mem_iff⟩

/-- Witness of the amended C2 on the test fixture: category "fraud" keeps the two records of
that category, the empty category keeps all four records. -/
theorem C2_category_predicate_witness :
    ("fraud" : String) ≠ "" ∧ ("fraud" : String) ≠ "all" ∧
    (∀ r, r ∈ filteredData stdRuntime (some mockData) { category := "fraud" } ↔
      (r ∈ mockData ∧ r.category = some "fraud")) ∧
    (filteredData stdRuntime (some mockData) { category := "" }).Perm mockData :=
  ⟨by decide, by decide,
    (C2_category_predicate stdRuntime stdRuntime_sort mockData { category := "fraud" } rfl
      rfl).1 (by decide) (by decide),
    ((C2_category_predicate stdRuntime stdRuntime_sort mockData { category := "" } rfl
      rfl).2 (Or.inl rfl)).1⟩

/-- C3. With category "all", status "all" and an empty search, for any `sortBy` and
`sortDirection`, `filteredData` is a permutation of `data`. -/
theorem C3_permutation (rt : Runtime) (hsort : SortContract rt.sort) (data : List Report)
    (f : Filters) (hc : f.category = "all") (hs : f.status = "all") (hsearch : f.search = "") :
    (filteredData rt (some data) f).Perm data := by
  have h := filteredData_perm rt hsort data f
  rw [passing, statusStep_all _ _ hs, categoryStep_all _ _ hc,
    searchStep_empty _ _ _ hsearch] at h
  exact h

/-- Witness of C3 on the test fixture with the default filters. -/
theorem C3_permutation_witness :
    (filteredData stdRuntime (some mockData) {}).Perm mockData ∧
    (filteredData stdRuntime (some mockData) {}).map (fun r => r.id) =
      [some "3", some "1", some "2", some "4"] :=
  ⟨C3_permutation stdRuntime stdRuntime_sort mockData {} rfl rfl rfl, by decide⟩

/-- C4. For every filter state, `data` that is `null` or `undefined` yields the empty list
(the function is total: nothing throws). -/
theorem C4_null_data (rt : Runtime) (f : Filters) : filteredData rt none f = [] :=
  rfl

/-- C5. The search filter is case-insensitive: two filter states that differ only in their
search strings, whose lower-cased forms are equal, give the same `filteredData`. The law of
the built-in used: `"".toLowerCase()` is `""`. -/
theorem C5_search_case_insensitive (rt : Runtime) (data : Option (List Report))
    (f : Filters) (s1 s2 : String) (hempty : rt.toLowerCase "" = "")
    (h : rt.toLowerCase s1 = rt.toLowerCase s2) :
    filteredData rt data { f with search := s1 } =
      filteredData rt data { f with search := s2 } := by
  cases data with
  | none => rfl
  | some l =>
    have hstep := searchStep_congr rt { f with search := s1 } { f with search := s2 } l hempty h
    have hcmp : compareFn rt { f with search := s1 } = compareFn rt { f with search := s2 } :=
      rfl
    simp only [filteredData, passing, categoryStep, statusStep]
    rw [hstep, hcmp]

/-- Witness of C5 on the test fixture: "FRAUD" and "fraud". -/
theorem C5_search_case_insensitive_witness :
    stdRuntime.toLowerCase "" = "" ∧
    stdRuntime.toLowerCase "FRAUD" = stdRuntime.toLowerCase "fraud" ∧
    filteredData stdRuntime (some mockData) { search := "FRAUD" } =
      filteredData stdRuntime (some mockData) { search := "fraud" } :=
  ⟨by decide, by decide,
    C5_search_case_insensitive stdRuntime (some mockData) {} "FRAUD" "fraud"
      (by decide) (by decide)⟩

/-- C6. Combined filters are conjunctive: every record of `filteredData` for category `c`
and status `s` is also in `filteredData` for category `c` alone (status "all") and in
`filteredData` for status `s` alone (category "all"), the other fields being equal. -/
theorem C6_combined_filters_conjunctive (rt : Runtime) (hsort : SortContract rt.sort)
    (data : Option (List Report)) (f : Filters) (c s : String) :
    filteredData rt data { f with category := c, status := s } ⊆
        filteredData rt data { f with category := c, status := "all" } ∧
      filteredData rt data { f with category := c, status := s } ⊆
        filteredData rt data { f with category := "all", status := s } := by
  cases data with
  | none => exact ⟨fun _ h => h, fun _ h => h⟩
  | some l =>
    constructor
    · intro x hx
      rw [mem_filteredData rt hsort] at hx ⊢
      rw [passing, statusStep_all _ _ rfl]
      exact (statusStep_sublist _ _).subset hx
    · intro x hx
      rw [mem_filteredData rt hsort] at hx ⊢
      rw [passing, categoryStep_all _ _ rfl]
      refine statusStep_mono { f with category := c, status := s } _ _ _ rfl ?_ hx
      exact (categoryStep_sublist _ _).subset

/-- Witness of C6 on the test fixture: category "fraud" and status "pending". -/
theorem C6_combined_filters_conjunctive_witness :
    (filteredData stdRuntime (some mockData) { category := "fraud", status := "pending" } ⊆
        filteredData stdRuntime (some mockData) { category := "fraud", status := "all" } ∧
      filteredData stdRuntime (some mockData) { category := "fraud", status := "pending" } ⊆
        filteredData stdRuntime (some mockData) { category := "all", status := "pending" }) ∧
    (filteredData stdRuntime (some mockData)
        { category := "fraud", status := "pending" }).map (fun r => r.id) = [some "1"] :=
  ⟨C6_combined_filters_conjunctive stdRuntime stdRuntime_sort (some mockData) {}
      "fraud" "pending", by decide⟩

/-! ## The sort callback -/

theorem sortCompare_numNeg {α : Type} (cmp : α → α → Option Int) (a b : α) :
    sortCompare (fun x y => numNeg (cmp x y)) a b = - sortCompare cmp a b := by
  simp only [sortCompare, numNeg]
  cases h : cmp a b <;> simp

theorem consistentOn_of_compare {α β : Type} (cmp : α → α → Option Int) (k : α → β)
    (c : β → β → Int) (hanti : ∀ s t, c s t < 0 ↔ 0 < c t s)
    (htrans : ∀ s t u, c s t ≤ 0 → c t u ≤ 0 → c s u ≤ 0)
    (l : List α) (h : ∀ a ∈ l, ∀ b ∈ l, cmp a b = some (c (k a) (k b))) :
    ConsistentOn cmp l := by
  constructor
  · intro a ha b hb
    simp only [sortCompare, h a ha b hb, h b hb a ha]
    exact hanti _ _
  · intro a ha b hb d hd
    simp only [sortCompare, h a ha b hb, h b hb d hd, h a ha d hd]
    exact htrans _ _ _

theorem consistentOn_numNeg {α : Type} (cmp : α → α → Option Int) (l : List α)
    (h : ConsistentOn cmp l) : ConsistentOn (fun x y => numNeg (cmp x y)) l := by
  obtain ⟨hanti, htrans⟩ := h
  constructor
  · intro a ha b hb
    rw [sortCompare_numNeg, sortCompare_numNeg]
    have h1 := hanti b hb a ha
    omega
  · intro a ha b hb d hd hab hbd
    rw [sortCompare_numNeg] at hab hbd ⊢
    have h1 := hanti a ha b hb
    have h2 := hanti b hb d hd
    have h3 := hanti a ha d hd
    have h4 := hanti b hb a ha
    have h5 := hanti d hd b hb
    have h6 := hanti d hd a ha
    have h7 := htrans d hd b hb a ha (by omega) (by omega)
    omega

/-- The `comparison` of the callback is consistent on a list in which, when the sort is by
date, no date is unparsable. -/
theorem comparison_consistent (rt : Runtime)
    (hanti : ∀ s t, rt.localeCompare s t < 0 ↔ 0 < rt.localeCompare t s)
    (htrans : ∀ s t u, rt.localeCompare s t ≤ 0 → rt.localeCompare t u ≤ 0 →
      rt.localeCompare s u ≤ 0)
    (sortBy : String) (l : List Report)
    (hdate : sortBy = "date" → ∀ r ∈ l, (newDate rt r.date).isSome = true) :
    ConsistentOn (comparison rt sortBy) l := by
  have hsub : ∀ s t : Int, s - t < 0 ↔ 0 < t - s := fun s t => by omega
  have hsubt : ∀ s t u : Int, s - t ≤ 0 → t - u ≤ 0 → s - u ≤ 0 := fun s t u => by omega
  by_cases h1 : sortBy = "date"
  · apply consistentOn_of_compare _ (fun r => (newDate rt r.date).getD 0)
      (fun s t => s - t) hsub hsubt
    intro a ha b hb
    have hda := hdate h1 a ha
    have hdb := hdate h1 b hb
    rw [Option.isSome_iff_exists] at hda hdb
    obtain ⟨x, hx⟩ := hda
    obtain ⟨y, hy⟩ := hdb
    simp [comparison, h1, hx, hy, numSub]
  · by_cases h2 : sortBy = "stake"
    · apply consistentOn_of_compare _ (fun r => numOr r.stakeAmount) (fun s t => s - t)
        hsub hsubt
      intro a _ b _
      simp [comparison, h2]
    · by_cases h3 : sortBy = "evidence"
      · apply consistentOn_of_compare _ (fun r => numOr r.evidenceCount) (fun s t => s - t)
          hsub hsubt
        intro a _ b _
        simp [comparison, h3]
      · by_cases h4 : sortBy = "title"
        · apply consistentOn_of_compare _ (fun r => strOr r.title "") rt.localeCompare
            hanti htrans
          intro a _ b _
          simp [comparison, h4]
        · apply consistentOn_of_compare _ (fun _ => ()) (fun _ _ => 0)
            (fun _ _ => by simp) (fun _ _ _ _ _ => le_refl 0)
          intro a _ b _
          simp [comparison, h1, h2, h3, h4]

/-- The sort callback is consistent on a list in which, when the sort is by date, no date
is unparsable. -/
theorem compareFn_consistent (rt : Runtime)
    (hanti : ∀ s t, rt.localeCompare s t < 0 ↔ 0 < rt.localeCompare t s)
    (htrans : ∀ s t u, rt.localeCompare s t ≤ 0 → rt.localeCompare t u ≤ 0 →
      rt.localeCompare s u ≤ 0)
    (f : Filters) (l : List Report)
    (hdate : f.sortBy = "date" → ∀ r ∈ l, (newDate rt r.date).isSome = true) :
    ConsistentOn (compareFn rt f) l := by
  have hc := comparison_consistent rt hanti htrans f.sortBy l hdate
  by_cases hd : f.sortDirection = "asc"
  · have he : compareFn rt f = comparison rt f.sortBy := by
      funext a b
      simp [compareFn, hd]
    rw [he]
    exact hc
  · have he : compareFn rt f = fun a b => numNeg (comparison rt f.sortBy a b) := by
      funext a b
      simp [compareFn, hd]
    rw [he]
    exact consistentOn_numNeg _ _ hc

/-- When `new Date(r.date || 0)` is a valid date of time value `k r` for every record of `l`,
the date sort orders `l` by `k`: ascending for "asc", descending otherwise. -/
theorem dateSort_sorted (rt : Runtime) (hsort : SortContract rt.sort) (f : Filters)
    (k : Report → Int) (l : List Report)
    (hs : f.sortBy = "date") (hk : ∀ r ∈ l, newDate rt r.date = some (k r)) :
    (f.sortDirection = "asc" → ((rt.sort (compareFn rt f) l).map k).Sorted (· ≤ ·)) ∧
    (f.sortDirection ≠ "asc" → ((rt.sort (compareFn rt f) l).map k).Sorted (· ≥ ·)) := by
  constructor
  · intro hd
    apply sort_sorted_asc rt.sort hsort
    intro a ha b hb
    simp [compareFn, comparison, hs, hd, hk a ha, hk b hb, numSub]
  · intro hd
    apply sort_sorted_desc rt.sort hsort
    intro a ha b hb
    simp [compareFn, comparison, hs, hd, hk a ha, hk b hb, numSub, numNeg]

theorem newDate_of_parsed (rt : Runtime) (hempty : rt.dateParse "" = none) (r : Report)
    (t : Int) (h : parsedTimestamp rt r = some t) : newDate rt r.date = some t := by
  unfold parsedTimestamp at h
  cases hd : r.date with
  | none => rw [hd] at h; simp at h
  | some d =>
    rw [hd] at h
    simp only [Option.some_bind] at h
    have hne : d ≠ "" := by
      intro he
      rw [he, hempty] at h
      exact Option.noConfusion h
    simp [newDate, (truthy_iff d).2 hne, h]

theorem newDate_epochZero (rt : Runtime) (hempty : rt.dateParse "" = none) (r : Report)
    (h : ∀ d, r.date = some d → d ≠ "" → (rt.dateParse d).isSome) :
    newDate rt r.date = some (epochZeroTimestamp rt r) := by
  unfold epochZeroTimestamp parsedTimestamp
  cases hd : r.date with
  | none => rfl
  | some d =>
    by_cases he : d = ""
    · subst he
      simp [newDate, truthy, hempty]
    · have hp := h d hd he
      rw [Option.isSome_iff_exists] at hp
      obtain ⟨t, ht⟩ := hp
      simp [newDate, (truthy_iff d).2 he, ht]

/-- When every pair of elements of `l` compares as a tie, a sort that meets the contract
returns `l` unchanged. -/
theorem sort_all_ties {α : Type} (sort : (α → α → Option Int) → List α → List α)
    (hsort : SortContract sort) (cmp : α → α → Option Int) (l : List α)
    (h : ∀ a ∈ l, ∀ b ∈ l, sortCompare cmp a b = 0) : sort cmp l = l := by
  have hc : ConsistentOn cmp l := by
    constructor
    · intro a ha b hb
      rw [h a ha b hb, h b hb a ha]
    · intro a ha b hb c hc _ _
      rw [h a ha c hc]
  rw [hsort.stable cmp l hc, stableSort,
    insertionSort_congr _ (fun _ _ => True) l (fun a ha b hb => by simp [h a ha b hb])]
  exact List.Sorted.insertionSort_eq (List.pairwise_of_forall (fun _ _ => trivial))

/-- On a list where the sort callback is consistent, a sort that meets the contract keeps
two records that compare as a tie in their input order. -/
theorem sort_stable_of_consistent (rt : Runtime) (hsort : SortContract rt.sort)
    (data : List Report) (f : Filters) (a b : Report)
    (hcons : ConsistentOn (compareFn rt f) (passing rt data f))
    (hab : [a, b].Sublist data)
    (ha : a ∈ filteredData rt (some data) f) (hb : b ∈ filteredData rt (some data) f)
    (heq : sortCompare (compareFn rt f) a b = 0) :
    [a, b].Sublist (filteredData rt (some data) f) := by
  rw [mem_filteredData rt hsort] at ha hb
  obtain ⟨p, hp⟩ := passing_eq_filter rt f
  have hsub : [a, b].Sublist (passing rt data f) := by
    rw [hp] at ha hb ⊢
    have h := hab.filter p
    simpa [List.filter, (List.mem_filter.1 ha).2, (List.mem_filter.1 hb).2] using h
  rw [filteredData, hsort.stable _ _ hcons, stableSort]
  exact List.pair_sublist_insertionSort (le_of_eq heq) hsub

/-- Stability of the sort of `useFilters` where its callback is consistent: when the sort is
not by date, or no date of `data` is unparsable, two records of `filteredData` that compare
as a tie, the first before the second in `data`, are in that order in `filteredData`. -/
theorem sort_stable_of_valid_dates (rt : Runtime) (hsort : SortContract rt.sort)
    (hanti : ∀ s t, rt.localeCompare s t < 0 ↔ 0 < rt.localeCompare t s)
    (htrans : ∀ s t u, rt.localeCompare s t ≤ 0 → rt.localeCompare t u ≤ 0 →
      rt.localeCompare s u ≤ 0)
    (data : List Report) (f : Filters) (a b : Report)
    (hdate : f.sortBy = "date" → ∀ r ∈ data, (newDate rt r.date).isSome = true)
    (hab : [a, b].Sublist data)
    (ha : a ∈ filteredData rt (some data) f) (hb : b ∈ filteredData rt (some data) f)
    (heq : sortCompare (compareFn rt f) a b = 0) :
    [a, b].Sublist (filteredData rt (some data) f) :=
  sort_stable_of_consistent rt hsort data f a b
    (compareFn_consistent rt hanti htrans f _
      (fun hs r hr => hdate hs r ((passing_sublist rt data f).subset hr)))
    hab ha hb heq

/-! ## The sort -/

/-- C7. When every record's date parses to a valid timestamp, sorting by date gives the
parsed timestamps of `filteredData` as a non-increasing sequence for "desc" and a
non-decreasing sequence for "asc". The laws of the built-ins used: the contract of the sort,
and that the empty string does not parse as a date. -/
theorem C7_date_sorted (rt : Runtime) (hsort : SortContract rt.sort) (data : List Report)
    (f : Filters) (hempty : rt.dateParse "" = none) (hs : f.sortBy = "date")
    (hvalid : ∀ r ∈ data, (parsedTimestamp rt r).isSome = true) :
    ∃ ts : List Int,
      (filteredData rt (some data) f).map (parsedTimestamp rt) = ts.map some ∧
      (f.sortDirection = "desc" → ts.Sorted (· ≥ ·)) ∧
      (f.sortDirection = "asc" → ts.Sorted (· ≤ ·)) := by
  have hts : ∀ r ∈ data, parsedTimestamp rt r = some (epochZeroTimestamp rt r) := by
    intro r hr
    have h := hvalid r hr
    rw [Option.isSome_iff_exists] at h
    obtain ⟨t, ht⟩ := h
    simp [epochZeroTimestamp, ht]
  have hk : ∀ r ∈ passing rt data f, newDate rt r.date = some (epochZeroTimestamp rt r) :=
    fun r hr => newDate_of_parsed rt hempty r _ (hts r ((passing_sublist rt data f).subset hr))
  have hsorted := dateSort_sorted rt hsort f (epochZeroTimestamp rt) (passing rt data f) hs hk
  refine ⟨(filteredData rt (some data) f).map (epochZeroTimestamp rt), ?_, ?_, ?_⟩
  · rw [List.map_map]
    apply List.map_congr_left
    intro r hr
    exact hts r ((passing_sublist rt data f).subset ((mem_filteredData rt hsort data f r).1 hr))
  · intro hd
    exact hsorted.2 (by rw [hd]; decide)
  · intro hd
    exact hsorted.1 hd

/-- Witness of C7 on the test fixture with the default filters (date, descending). -/
theorem C7_date_sorted_witness :
    stdRuntime.dateParse "" = none ∧
    (∀ r ∈ mockData, (parsedTimestamp stdRuntime r).isSome = true) ∧
    ∃ ts : List Int,
      (filteredData stdRuntime (some mockData) {}).map (parsedTimestamp stdRuntime) =
        ts.map some ∧
      ((({} : Filters).sortDirection = "desc") → ts.Sorted (· ≥ ·)) ∧
      ((({} : Filters).sortDirection = "asc") → ts.Sorted (· ≤ ·)) :=
  ⟨by decide, by decide,
    C7_date_sorted stdRuntime stdRuntime_sort mockData {} (by decide) rfl (by decide)⟩

/-- The part of the date sort that treats a missing date as epoch `0`: when every date that
is there and not empty parses, `filteredData` is ordered by the timestamp function that maps
a missing date to `0`, and it holds every record that passes the filters. -/
theorem dateSort_missing_epochZero (rt : Runtime) (hsort : SortContract rt.sort)
    (data : List Report) (f : Filters)
    (hempty : rt.dateParse "" = none) (hs : f.sortBy = "date")
    (hvalid : ∀ r ∈ data, ∀ d, r.date = some d → d ≠ "" → (rt.dateParse d).isSome = true) :
    (filteredData rt (some data) f).Perm (passing rt data f) ∧
    (f.sortDirection = "asc" →
      ((filteredData rt (some data) f).map (epochZeroTimestamp rt)).Sorted (· ≤ ·)) ∧
    (f.sortDirection = "desc" →
      ((filteredData rt (some data) f).map (epochZeroTimestamp rt)).Sorted (· ≥ ·)) := by
  have hk : ∀ r ∈ passing rt data f, newDate rt r.date = some (epochZeroTimestamp rt r) :=
    fun r hr => newDate_epochZero rt hempty r (hvalid r ((passing_sublist rt data f).subset hr))
  have hsorted := dateSort_sorted rt hsort f (epochZeroTimestamp rt) (passing rt data f) hs hk
  exact ⟨filteredData_perm rt hsort data f, hsorted.1,
    fun hd => hsorted.2 (by rw [hd]; decide)⟩

/-- The failing input of C8 on every engine: a record whose date parses followed by a record
whose date does not. Every comparison of the callback is a tie (`NaN`, or a date with
itself), so a sort that meets the contract returns the two records in input order. -/
theorem unparsable_date_kept_in_place (rt : Runtime) (hsort : SortContract rt.sort)
    (t : Int) (hd : rt.dateParse "2024-01-20" = some t)
    (hu : rt.dateParse "not a date" = none) (dir : String) :
    filteredData rt (some badDateData) { sortBy := "date", sortDirection := dir } =
      badDateData := by
  have hp : passing rt badDateData { sortBy := "date", sortDirection := dir } = badDateData := by
    simp [passing, searchStep, categoryStep, statusStep, truthy]
  rw [filteredData, hp]
  apply sort_all_ties rt.sort hsort
  intro a ha b hb
  simp only [badDateData, List.mem_cons, List.mem_singleton, List.not_mem_nil, or_false] at ha hb
  rcases ha with rfl | rfl <;> rcases hb with rfl | rfl <;>
    by_cases hdir : dir = "asc" <;>
    simp [sortCompare, compareFn, comparison, newDate, truthy, numSub, numNeg, hd, hu, hdir]

/-- C8 at its failing input: a record dated 2024-01-20 followed by a record whose date does
not parse. Sorted by date ascending the two stay in input order (the comparison is `NaN`,
read as a tie), on both concrete runtimes, so the timestamps with the unparsable date counted
as `0` are `[1705708800000, 0]`: not a non-decreasing sequence. -/
theorem C8_unparsable_date_not_epoch_zero :
    filteredData stdRuntime (some badDateData) { sortBy := "date", sortDirection := "asc" } =
      badDateData ∧
    filteredData v8Runtime (some badDateData) { sortBy := "date", sortDirection := "asc" } =
      badDateData ∧
    badDateData.map (epochZeroTimestamp stdRuntime) = [1705708800000, 0] ∧
    ¬ ((filteredData stdRuntime (some badDateData)
        { sortBy := "date", sortDirection := "asc" }).map
          (epochZeroTimestamp stdRuntime)).Sorted (· ≤ ·) := by
  decide

/-- C9. Sorting by stake, evidence or title orders `filteredData` by the selected key,
non-decreasing for "asc" and non-increasing for "desc": `stakeAmount` and `evidenceCount`
with a missing value as `0`, `title` with a missing value as the empty string and compared
by `localeCompare`. The laws of the built-ins used: the contract of the sort, and that
`localeCompare` is antisymmetric in sign and transitive. -/
theorem C9_key_sorted (rt : Runtime) (hsort : SortContract rt.sort) (data : List Report)
    (f : Filters)
    (hanti : ∀ s t, rt.localeCompare s t < 0 ↔ 0 < rt.localeCompare t s)
    (htrans : ∀ s t u, rt.localeCompare s t ≤ 0 → rt.localeCompare t u ≤ 0 →
      rt.localeCompare s u ≤ 0) :
    (f.sortBy = "stake" →
      (f.sortDirection = "asc" →
        ((filteredData rt (some data) f).map stakeKey).Sorted (· ≤ ·)) ∧
      (f.sortDirection = "desc" →
        ((filteredData rt (some data) f).map stakeKey).Sorted (· ≥ ·))) ∧
    (f.sortBy = "evidence" →
      (f.sortDirection = "asc" →
        ((filteredData rt (some data) f).map evidenceKey).Sorted (· ≤ ·)) ∧
      (f.sortDirection = "desc" →
        ((filteredData rt (some data) f).map evidenceKey).Sorted (· ≥ ·))) ∧
    (f.sortBy = "title" →
      (f.sortDirection = "asc" →
        ((filteredData rt (some data) f).map titleKey).Sorted
          (fun s t => rt.localeCompare s t ≤ 0)) ∧
      (f.sortDirection = "desc" →
        ((filteredData rt (some data) f).map titleKey).Sorted
          (fun s t => rt.localeCompare s t ≥ 0))) := by
  refine ⟨fun hs => ⟨fun hd => ?_, fun hd => ?_⟩, fun hs => ⟨fun hd => ?_, fun hd => ?_⟩,
    fun hs => ⟨fun hd => ?_, fun hd => ?_⟩⟩
  · apply sort_sorted_asc rt.sort hsort
    intro a _ b _
    simp [compareFn, comparison, hs, hd, numOr_eq_getD, stakeKey]
  · apply sort_sorted_desc rt.sort hsort
    intro a _ b _
    simp [compareFn, comparison, hs, hd, numOr_eq_getD, stakeKey, numNeg]
  · apply sort_sorted_asc rt.sort hsort
    intro a _ b _
    simp [compareFn, comparison, hs, hd, numOr_eq_getD, evidenceKey]
  · apply sort_sorted_desc rt.sort hsort
    intro a _ b _
    simp [compareFn, comparison, hs, hd, numOr_eq_getD, evidenceKey, numNeg]
  · apply sort_sorted_of_compare rt.sort hsort _ titleKey rt.localeCompare hanti htrans
    intro a _ b _
    simp [compareFn, comparison, hs, hd, strOr_eq_getD, titleKey]
  · have h := sort_sorted_of_compare rt.sort hsort (compareFn rt f) titleKey
      (fun s t => - rt.localeCompare s t)
      (fun s t => by
        have h1 := hanti t s
        dsimp only
        omega)
      (fun s t u hst htu => by
        dsimp only at hst htu ⊢
        have h1 := hanti s t
        have h2 := hanti t u
        have h3 := hanti s u
        have h4 := hanti t s
        have h5 := hanti u t
        have h6 := hanti u s
        have h7 := htrans u t s (by omega) (by omega)
        omega)
      (passing rt data f)
      (fun a _ b _ => by
        simp [compareFn, comparison, hs, hd, strOr_eq_getD, titleKey, numNeg])
    refine List.Pairwise.imp ?_ h
    intro s t hst
    dsimp only at hst
    omega

/-- Witness of C9 on the test fixture sorted by title, ascending, in code point order. -/
theorem C9_key_sorted_witness :
    (∀ s t, stdRuntime.localeCompare s t < 0 ↔ 0 < stdRuntime.localeCompare t s) ∧
    (∀ s t u, stdRuntime.localeCompare s t ≤ 0 → stdRuntime.localeCompare t u ≤ 0 →
      stdRuntime.localeCompare s u ≤ 0) ∧
    ((filteredData stdRuntime (some mockData)
        { sortBy := "title", sortDirection := "asc" }).map titleKey).Sorted
      (fun s t => stdRuntime.localeCompare s t ≤ 0) ∧
    ((filteredData stdRuntime (some mockData)
        { sortBy := "title", sortDirection := "asc" }).map titleKey) =
      ["Another Fraud", "Corruption Case", "Environmental Issue", "Fraud Report"] :=
  ⟨codePointCompare_antisymm, codePointCompare_trans,
    ((C9_key_sorted stdRuntime stdRuntime_sort mockData
      { sortBy := "title", sortDirection := "asc" }
      codePointCompare_antisymm codePointCompare_trans).2.2 rfl).1 rfl,
    by decide⟩

/-- C10 at its failing input, on the sort of V8 (a sort that meets the contract:
`v8Runtime_sort`): eight records sorted by date ascending, the fifth with an unparsable
date. The records "X" and "Y" have the same date and "X" is before "Y" in `data`, yet
`filteredData` has "Y" first and "X" seventh: the first seven records are one run (each
comparison with the unparsable date is `NaN`, a tie), and the binary search for "Y" meets
"O", "M" and "K", all later dates. -/
theorem C10_unstable_on_unparsable_date :
    (filteredData v8Runtime (some mixedDateData)
        { sortBy := "date", sortDirection := "asc" }).map (fun r => r.id) =
      [some "Y", some "K", some "M", some "N", some "O", some "Q", some "X", some "W"] ∧
    sortCompare (compareFn v8Runtime { sortBy := "date", sortDirection := "asc" })
      (mixedDateData.get ⟨5, by decide⟩) (mixedDateData.get ⟨7, by decide⟩) = 0 ∧
    [mixedDateData.get ⟨5, by decide⟩, mixedDateData.get ⟨7, by decide⟩].Sublist
      mixedDateData ∧
    ¬ [mixedDateData.get ⟨5, by decide⟩, mixedDateData.get ⟨7, by decide⟩].Sublist
      (filteredData v8Runtime (some mixedDateData)
        { sortBy := "date", sortDirection := "asc" }) := by
  decide

/-- The stability of the sort on `tieData`, on the sort of V8: the first and the last record
have the same stake; sorted by stake descending they keep their input order, ahead of the
record of lower stake. -/
theorem sort_stable_of_valid_dates_witness :
    [tieData.get ⟨0, by decide⟩, tieData.get ⟨2, by decide⟩].Sublist
        (filteredData v8Runtime (some tieData)
          { sortBy := "stake", sortDirection := "desc" }) ∧
      (filteredData v8Runtime (some tieData)
          { sortBy := "stake", sortDirection := "desc" }).map (fun r => r.id) =
        [some "a", some "c", some "b"] :=
  ⟨sort_stable_of_valid_dates v8Runtime v8Runtime_sort codePointCompare_antisymm
      codePointCompare_trans tieData { sortBy := "stake", sortDirection := "desc" }
      (tieData.get ⟨0, by decide⟩) (tieData.get ⟨2, by decide⟩)
      (by decide) (by decide) (by decide) (by decide) (by decide),
    by decide⟩

/-! ## The unrecognised sort key, and the `filters` state -/

/-- The three filter steps keep exactly the records that pass the three predicates, in
input order. -/
theorem passing_eq_filter_passesFilters (rt : Runtime) (data : List Report) (f : Filters) :
    passing rt data f = data.filter (passesFilters rt f) := by
  unfold passing searchStep categoryStep statusStep
  have hfun : passesFilters rt f = fun r =>
      (!truthy f.search || searchPred rt (rt.toLowerCase f.search) r) &&
      ((!(truthy f.category && f.category != "all") ||
          decide (r.category = some f.category)) &&
        (!(truthy f.status && f.status != "all") || decide (r.status = some f.status))) :=
    rfl
  rw [hfun]
  by_cases h1 : truthy f.search = true <;>
    by_cases h2 : (truthy f.category && f.category != "all") = true <;>
    by_cases h3 : (truthy f.status && f.status != "all") = true <;>
    simp only [h1, h2, h3, if_true, if_false, List.filter_filter, Bool.not_true,
      Bool.not_false, Bool.false_or, Bool.true_or, Bool.and_true, Bool.true_and,
      Bool.not_eq_true, Bool.false_eq_true, List.filter_true] <;>
    first
    | rfl
    | (apply List.filter_congr; intro x _; ac_rfl)

/-- C11. When `sortBy` is none of date, stake, evidence, title, the sort callback returns 0
(or -0) for every pair and `filteredData` is the list of the records of `data` that pass the
filters, in input order, for either sort direction. The function is total: nothing throws.
The law of the built-in used: the contract of the sort. -/
theorem C11_unrecognized_sortBy (rt : Runtime) (hsort : SortContract rt.sort)
    (data : List Report) (f : Filters)
    (h1 : f.sortBy ≠ "date") (h2 : f.sortBy ≠ "stake") (h3 : f.sortBy ≠ "evidence")
    (h4 : f.sortBy ≠ "title") :
    filteredData rt (some data) f = data.filter (passesFilters rt f) := by
  rw [filteredData, ← passing_eq_filter_passesFilters]
  apply sort_all_ties rt.sort hsort
  intro a _ b _
  by_cases hd : f.sortDirection = "asc" <;>
    simp [sortCompare, compareFn, comparison, numNeg, h1, h2, h3, h4, hd]

/-- Witness of C11 on the test fixture: sort key "rank", status "pending", on the sort of
V8. -/
theorem C11_unrecognized_sortBy_witness :
    filteredData v8Runtime (some mockData) { sortBy := "rank", status := "pending" } =
        mockData.filter (passesFilters v8Runtime { sortBy := "rank", status := "pending" }) ∧
      (filteredData v8Runtime (some mockData)
          { sortBy := "rank", status := "pending" }).map (fun r => r.id) =
        [some "1", some "3"] :=
  ⟨C11_unrecognized_sortBy v8Runtime v8Runtime_sort mockData
      { sortBy := "rank", status := "pending" }
      (by decide) (by decide) (by decide) (by decide),
    by decide⟩

theorem initialState_apply (initialFilters : JsObject) (k : String) :
    initialState initialFilters k =
      match initialFilters k with
      | some v => some v
      | none => defaultFilters k :=
  rfl

/-- C12. After any sequence of `updateFilter` calls, `resetFilters` sets the state to the
defaults merged with the overrides given at construction, the overrides winning: the initial
state of that instance. -/
theorem C12_reset_restores_initial (initialFilters : JsObject)
    (updates : List (String × JsValue)) :
    resetFilters initialFilters (applyUpdates (initialState initialFilters) updates) =
        initialState initialFilters ∧
      (∀ k v, initialFilters k = some v → initialState initialFilters k = some v) ∧
      (∀ k, initialFilters k = none → initialState initialFilters k = defaultFilters k) := by
  refine ⟨rfl, ?_, ?_⟩
  · intro k v h
    rw [initialState_apply, h]
  · intro k h
    rw [initialState_apply, h]

/-- Witness of C12 on the overrides `{ status: 'pending' }`: after two updates the reset
state has status "pending", not the default "all", and category "all". -/
theorem C12_reset_restores_initial_witness :
    resetFilters pendingOverrides
        (applyUpdates (initialState pendingOverrides)
          [("category", .string "fraud"), ("status", .string "verified")]) =
      initialState pendingOverrides ∧
    resetFilters pendingOverrides
        (applyUpdates (initialState pendingOverrides)
          [("category", .string "fraud"), ("status", .string "verified")]) "status" =
      some (.string "pending") ∧
    resetFilters pendingOverrides
        (applyUpdates (initialState pendingOverrides)
          [("category", .string "fraud"), ("status", .string "verified")]) "category" =
      some (.string "all") ∧
    defaultFilters "status" = some (.string "all") :=
  ⟨(C12_reset_restores_initial pendingOverrides
      [("category", .string "fraud"), ("status", .string "verified")]).1,
    by decide, by decide, by decide⟩

/-- C13. `updateFilter(k, v)` yields a state whose property `k` is `v` and whose every other
property is that of the state before. -/
theorem C13_updateFilter_frame (f : JsObject) (k : String) (v : JsValue) :
    updateFilter f k v k = some v ∧ ∀ j, j ≠ k → updateFilter f k v j = f j := by
  constructor
  · simp [updateFilter, objSet]
  · intro j hj
    simp [updateFilter, objSet, hj]

/-! ## The local scorer -/

theorem lookup_mem {β : Type} (l : List (String × β)) (k : String) (v : β)
    (h : l.lookup k = some v) : (k, v) ∈ l := by
  induction l with
  | nil => simp [List.lookup] at h
  | cons p l ih =>
    obtain ⟨k2, v2⟩ := p
    by_cases hk : k = k2
    · subst hk
      simp [List.lookup] at h
      simp [h]
    · have hne : (k == k2) = false := by simpa using hk
      rw [List.lookup, hne] at h
      exact List.mem_cons_of_mem _ (ih h)

theorem severity_ne_zero (c : String) (n : ℚ) (h : CATEGORY_SEVERITY.lookup c = some n) :
    n ≠ 0 := by
  have hm := lookup_mem _ _ _ h
  simp only [CATEGORY_SEVERITY, List.mem_cons, Prod.mk.injEq, List.mem_singleton,
    List.not_mem_nil, or_false] at hm
  rcases hm with h | h | h | h | h | h | h | h | h | h <;> rw [h.2] <;> norm_num

/-- For a category that is not a property name of `Object.prototype`, the product
`(CATEGORY_SEVERITY[category] || 50) * 0.3` is `0.3` times the severity weight. -/
theorem severityScore_of_plain (c : String) (h : readSeverity c ≠ .inherited) :
    severityScore (readSeverity c) = some (3 / 10 * severityWeight c) := by
  unfold readSeverity at h ⊢
  unfold severityWeight
  cases hl : CATEGORY_SEVERITY.lookup c with
  | some n =>
    simp only [severityScore, if_neg (severity_ne_zero c n hl), Option.getD_some]
    rw [mul_comm]
  | none =>
    rw [hl] at h
    simp only at h
    split at h
    · exact absurd rfl h
    · rename_i hc
      simp only [hc, if_false, severityScore, Option.getD_none]
      rw [mul_comm]

theorem descriptionPoints_eq (report : Report) (score : Option ℚ) :
    (if utf16Length (strOr report.description "") > 500 then numAdd score 15
      else if utf16Length (strOr report.description "") > 300 then numAdd score 12
      else if utf16Length (strOr report.description "") > 150 then numAdd score 8
      else if utf16Length (strOr report.description "") > 50 then numAdd score 4
      else score) = numAdd score (descriptionPoints report) := by
  unfold descriptionPoints
  rw [strOr_eq_getD]
  cases score <;> simp only [numAdd, Option.map] <;> split_ifs <;> simp

theorem evidencePoints_eq (report : Report) (score : Option ℚ) :
    (if numOr report.evidenceCount ≥ 5 then numAdd score 15
      else if numOr report.evidenceCount ≥ 3 then numAdd score 12
      else if numOr report.evidenceCount ≥ 1 then numAdd score 8
      else score) = numAdd score (evidencePoints report) := by
  unfold evidencePoints
  rw [numOr_eq_getD]
  cases score <;> simp only [numAdd, Option.map] <;> split_ifs <;> simp

theorem stakePoints_eq (report : Report) (score : Option ℚ) :
    (if numOr report.stakeAmount ≥ 20 then numAdd score 10
      else if numOr report.stakeAmount ≥ 10 then numAdd score 7
      else if numOr report.stakeAmount ≥ 5 then numAdd score 4
      else score) = numAdd score (stakePoints report) := by
  unfold stakePoints
  rw [numOr_eq_getD]
  cases score <;> simp only [numAdd, Option.map] <;> split_ifs <;> simp

theorem locationPoints_eq (report : Report) (score : Option ℚ) :
    (if hasAddress report then numAdd score 5 else score) =
      numAdd score (locationPoints report) := by
  unfold hasAddress locationPoints
  cases score <;> cases report.location with
  | none => simp [numAdd]
  | some loc =>
    cases hadr : loc.address with
    | none => simp [numAdd, hadr]
    | some a => by_cases ha : a = "" <;> simp [numAdd, truthy, ha, hadr]

/-- For a category that is not a property name of `Object.prototype`, the scorer returns the
score as specified. -/
theorem calculateLocalScore_eq_specified (rt : Runtime) (report : Report) (random : ℚ)
    (h : readSeverity (loweredCategory rt report.category) ≠ .inherited) :
    calculateLocalScore rt report random =
      some (specifiedScore rt report (variance random)) := by
  have hcat : rt.toLowerCase (strOr report.category "") =
      loweredCategory rt report.category := by
    rw [strOr_eq_getD]
    rfl
  unfold calculateLocalScore
  simp only [hcat, severityScore_of_plain _ h, descriptionPoints_eq, evidencePoints_eq,
    stakePoints_eq, locationPoints_eq]
  simp only [numAdd, Option.map, clampScore, mathRound, specifiedScore, Option.some.injEq]
  rw [max_min_distrib_left]
  norm_num

theorem floor_lt_of_lt (r : ℚ) (z : Int) (h : r < z) : Rat.floor r < z := by
  by_contra hn
  have h1 : (z : ℚ) ≤ r := Rat.le_floor.1 (not_lt.1 hn)
  exact absurd h (not_lt.2 h1)

/-- The score as specified is in `[25, 95]`. -/
theorem specifiedScore_range (rt : Runtime) (report : Report) (j : Int) :
    25 ≤ specifiedScore rt report j ∧ specifiedScore rt report j ≤ 95 := by
  unfold specifiedScore
  generalize 40 + 3 / 10 * severityWeight (loweredCategory rt report.category)
    + descriptionPoints report + evidencePoints report + stakePoints report
    + locationPoints report + (j : ℚ) = x
  have h1 : (25 : ℚ) ≤ min 95 (max 25 x) := le_min (by norm_num) (le_max_left _ _)
  have h2 : min 95 (max 25 x) ≤ (95 : ℚ) := min_le_left _ _
  constructor
  · apply Rat.le_floor.2
    push_cast
    linarith
  · have h3 : Rat.floor (min 95 (max 25 x) + 1 / 2) < 96 := by
      apply floor_lt_of_lt
      push_cast
      linarith
    omega

/-- For a category that is not a property name of `Object.prototype`, the scorer returns an
integer in `[25, 95]`, for every draw. -/
theorem calculateLocalScore_range (rt : Runtime) (report : Report) (random : ℚ)
    (h : readSeverity (loweredCategory rt report.category) ≠ .inherited) :
    ∃ n : Int, calculateLocalScore rt report random = some n ∧ 25 ≤ n ∧ n ≤ 95 :=
  ⟨_, calculateLocalScore_eq_specified rt report random h,
    specifiedScore_range rt report (variance random)⟩

/-- The priority level is always one of the three. -/
theorem getPriorityFromScore_mem (rt : Runtime) (score : Option ℚ) (category : Option String) :
    getPriorityFromScore rt score category = "HIGH" ∨
      getPriorityFromScore rt score category = "MEDIUM" ∨
      getPriorityFromScore rt score category = "LOW" := by
  unfold getPriorityFromScore
  simp only
  split_ifs
  · exact Or.inl rfl
  · exact Or.inr (Or.inl rfl)
  · exact Or.inr (Or.inr rfl)

/-- C14 at its failing input: a report of category "Constructor" (any report whose
lower-cased category is a property name of `Object.prototype`). The read
`CATEGORY_SEVERITY[category]` gives the inherited function, its product with `0.3` is `NaN`,
and so is the score: not an integer of `[25, 95]`. The priority level is "LOW". -/
theorem C14_score_nan_for_inherited_category :
    readSeverity (stdRuntime.toLowerCase "Constructor") = .inherited ∧
    calculateLocalScore stdRuntime { category := some "Constructor" } (1 / 2) = none ∧
    getPriorityFromScore stdRuntime
        (scoreValue (calculateLocalScore stdRuntime { category := some "Constructor" } (1 / 2)))
        (some "Constructor") = "LOW" ∧
    calculateLocalScore stdRuntime {} (1 / 2) = some 55 := by
  decide!

/-- C15 at its failing input: for a report of category "constructor" the formula gives 55
(severity weight 50 for a category that is not in the table, jitter 0) and the scorer gives
`NaN`. -/
theorem C15_formula_fails_for_inherited_category :
    specifiedScore stdRuntime { category := some "constructor" } (variance (1 / 2)) = 55 ∧
    calculateLocalScore stdRuntime { category := some "constructor" } (1 / 2) = none := by
  decide!

/-- The jitter of the scorer: for every draw of `[0, 1)` an integer from -4 to 3. -/
theorem variance_range (u : ℚ) (h : IsRandomDraw u) : -4 ≤ variance u ∧ variance u ≤ 3 := by
  obtain ⟨h0, h1⟩ := h
  unfold variance
  have hlo : (0 : Int) ≤ Rat.floor (u * 8) := by
    apply Rat.le_floor.2
    push_cast
    linarith
  have hhi : Rat.floor (u * 8) < 8 := by
    apply floor_lt_of_lt
    push_cast
    linarith
  omega

/-- C16 on the code: for every draw `u` of `[0, 1)` the jitter `floor(8u) - 4` is an integer
from -4 to 3. The endpoint -4 is produced (by the draw 0), the endpoint +4 never is: the
largest jitter is 3. -/
theorem C16_jitter_never_plus_four (u : ℚ) (h : IsRandomDraw u) :
    (-4 ≤ variance u ∧ variance u ≤ 3) ∧ variance u ≠ 4 ∧ variance 0 = -4 ∧
      variance (7 / 8) = 3 := by
  have hr := variance_range u h
  refine ⟨hr, by omega, by decide!, by decide!⟩

/-- Witness of C16 on the draw 0.999. -/
theorem C16_jitter_never_plus_four_witness :
    IsRandomDraw (999 / 1000) ∧ variance (999 / 1000) = 3 ∧ variance (999 / 1000) ≠ 4 :=
  ⟨⟨by norm_num, by norm_num⟩, by decide!,
    (C16_jitter_never_plus_four (999 / 1000) ⟨by norm_num, by norm_num⟩).2.1⟩

theorem numGe_iff (score : Option ℚ) (bound : ℚ) :
    numGe score bound = true ↔ ScoreAtLeast score bound := by
  unfold numGe ScoreAtLeast
  cases score with
  | none => simp
  | some s => simp

/-- C17. `getPriorityFromScore` returns "HIGH" iff the score is at least 75, or the
lower-cased category is one of murder, violence, domestic_violence, cybercrime, corruption
and the score is at least 60; "MEDIUM" iff it is not "HIGH" and the score is at least 50;
"LOW" otherwise. -/
theorem C17_priority_from_score (rt : Runtime) (score : Option ℚ) (category : Option String) :
    (getPriorityFromScore rt score category = "HIGH" ↔ IsHighPriority rt score category) ∧
    (getPriorityFromScore rt score category = "MEDIUM" ↔
      (¬ IsHighPriority rt score category ∧ ScoreAtLeast score 50)) ∧
    (getPriorityFromScore rt score category = "LOW" ↔
      (¬ IsHighPriority rt score category ∧ ¬ ScoreAtLeast score 50)) := by
  have hcat : rt.toLowerCase (strOr category "") = loweredCategory rt category := by
    rw [strOr_eq_getD]
    rfl
  have hhigh : (numGe score 75 || (decide (loweredCategory rt category ∈
      ["murder", "violence", "domestic_violence", "cybercrime", "corruption"]) &&
        numGe score 60)) = true ↔ IsHighPriority rt score category := by
    unfold IsHighPriority
    rw [Bool.or_eq_true, Bool.and_eq_true, numGe_iff, numGe_iff, decide_eq_true_iff]
  have h1 : ("HIGH" : String) ≠ "MEDIUM" := by decide
  have h2 : ("HIGH" : String) ≠ "LOW" := by decide
  have h3 : ("MEDIUM" : String) ≠ "LOW" := by decide
  unfold getPriorityFromScore
  simp only [hcat]
  by_cases hh : IsHighPriority rt score category
  · rw [if_pos (hhigh.2 hh)]
    simp [hh, h1, h2]
  · rw [if_neg (fun h => hh (hhigh.1 h))]
    by_cases hm : ScoreAtLeast score 50
    · rw [if_pos ((numGe_iff _ _).2 hm)]
      simp [hh, hm, h1.symm, h3]
    · rw [if_neg (fun h => hm ((numGe_iff _ _).1 h))]
      simp [hh, hm, h2.symm, h3.symm]

/-- C18. `generateReason` returns the first two matched clauses, in the order of the checks
(category severity, description length, evidence count, stake amount, location presence),
joined by ", " (the single one when one matches), never more than two; when no clause
matches it returns the generic statement of the score band: at least 70, at least 50,
otherwise. -/
theorem C18_generate_reason (rt : Runtime) (report : Report) (score : Option ℚ) :
    (matchedClauses rt report ≠ [] →
      generateReason rt report score =
        String.intercalate ", " ((matchedClauses rt report).take 2)) ∧
    ((matchedClauses rt report).take 2).length ≤ 2 ∧
    (matchedClauses rt report = [] →
      (ScoreAtLeast score 70 →
        generateReason rt report score = "Multiple credibility indicators present") ∧
      (¬ ScoreAtLeast score 70 → ScoreAtLeast score 50 →
        generateReason rt report score = "Standard report requiring review") ∧
      (¬ ScoreAtLeast score 50 →
        generateReason rt report score = "Limited details provided")) := by
  have hcat : rt.toLowerCase (report.category.getD "") =
      loweredCategory rt report.category := rfl
  have hdisj : loweredCategory rt report.category ∈ ["murder", "violence", "domestic_violence"] →
      loweredCategory rt report.category ∉ ["cybercrime", "corruption"] := by
    intro h1 h2
    simp only [List.mem_cons, List.mem_singleton, List.not_mem_nil, or_false] at h1 h2
    rcases h1 with h1 | h1 | h1 <;> rcases h2 with h2 | h2 <;> rw [h1] at h2 <;>
      exact absurd h2 (by decide)
  have hmain : generateReason rt report score =
      (if (matchedClauses rt report).length = 0 then genericReason score
        else String.intercalate ", " ((matchedClauses rt report).take 2)) := by
    unfold generateReason matchedClauses reasonChecks
    simp only [strOr_eq_getD, numOr_eq_getD, hcat]
    by_cases c1 : loweredCategory rt report.category ∈
        ["murder", "violence", "domestic_violence"]
    · have c2 := hdisj c1
      by_cases c3 : utf16Length (report.description.getD "") > 300 <;>
        by_cases c4 : report.evidenceCount.getD 0 ≥ 3 <;>
        by_cases c5 : report.stakeAmount.getD 0 ≥ 15 <;>
        cases c6 : hasAddress report <;>
        simp only [c1, c2, c3, c4, c5, if_true, if_false, decide_True, decide_False,
          Bool.false_eq_true] <;>
        rfl
    · by_cases c2 : loweredCategory rt report.category ∈ ["cybercrime", "corruption"] <;>
        by_cases c3 : utf16Length (report.description.getD "") > 300 <;>
        by_cases c4 : report.evidenceCount.getD 0 ≥ 3 <;>
        by_cases c5 : report.stakeAmount.getD 0 ≥ 15 <;>
        cases c6 : hasAddress report <;>
        simp only [c1, c2, c3, c4, c5, if_true, if_false, decide_True, decide_False,
          Bool.false_eq_true] <;>
        rfl
  refine ⟨?_, List.length_take_le _ _, ?_⟩
  · intro hne
    rw [hmain, if_neg (fun h => hne (List.length_eq_zero.1 h))]
  · intro he
    have hg : generateReason rt report score = genericReason score := by
      rw [hmain, if_pos (List.length_eq_zero.2 he)]
    rw [hg]
    unfold genericReason
    refine ⟨fun h70 => ?_, fun h70 h50 => ?_, fun h50 => ?_⟩
    · rw [if_pos ((numGe_iff _ _).2 h70)]
    · rw [if_neg (fun h => h70 ((numGe_iff _ _).1 h)), if_pos ((numGe_iff _ _).2 h50)]
    · have h70 : ¬ ScoreAtLeast score 70 := by
        rintro ⟨s, hs, hle⟩
        exact h50 ⟨s, hs, le_trans (by norm_num) hle⟩
      rw [if_neg (fun h => h70 ((numGe_iff _ _).1 h)),
        if_neg (fun h => h50 ((numGe_iff _ _).1 h))]

/-- An instance of C18 on the concrete runtime: three clauses match, the first two are
returned; no clause matches, the generic statement of the band is returned. -/
theorem generateReason_examples :
    generateReason stdRuntime
        { category := some "Murder", evidenceCount := some 3,
          location := some { address := some "12 Main Street" } } (some 80) =
      "Severe crime category, multiple evidence files" ∧
    generateReason stdRuntime { category := some "fraud" } (some 62) =
      "Standard report requiring review" ∧
    generateReason stdRuntime { category := some "fraud" } none =
      "Limited details provided" := by
  decide!

/-! ## The local fallback of the batch analysis -/

theorem analyzeItems_length (rt : Runtime) (random : Nat → ℚ) (start : Nat)
    (reports : List Report) : (analyzeItems rt random start reports).length = reports.length := by
  induction reports generalizing start with
  | nil => rfl
  | cons r rest ih => simp [analyzeItems, ih]

theorem analyzeItems_reportId (rt : Runtime) (random : Nat → ℚ) (start : Nat)
    (reports : List Report) :
    (analyzeItems rt random start reports).map (fun a => a.reportId) =
      reports.map (fun r => r.id) := by
  induction reports generalizing start with
  | nil => rfl
  | cons r rest ih => simp [analyzeItems, analyzeItem, ih]

theorem analyzeItems_score (rt : Runtime) (random : Nat → ℚ) (start : Nat)
    (reports : List Report) (a : AnalysisItem)
    (ha : a ∈ analyzeItems rt random start reports) :
    ∃ r ∈ reports, ∃ u, a.credibilityScore = calculateLocalScore rt r u := by
  induction reports generalizing start with
  | nil => simp [analyzeItems] at ha
  | cons r rest ih =>
    simp only [analyzeItems, List.mem_cons] at ha
    rcases ha with rfl | ha
    · exact ⟨r, List.mem_cons_self _ _, random start, rfl⟩
    · obtain ⟨r2, hr2, u, hu⟩ := ih (start + 1) ha
      exact ⟨r2, List.mem_cons_of_mem _ hr2, u, hu⟩

theorem assignRanks_length (start : Nat) (l : List AnalysisItem) :
    (assignRanks start l).length = l.length := by
  induction l generalizing start with
  | nil => rfl
  | cons a rest ih => simp [assignRanks, ih]

theorem assignRanks_rank (start : Nat) (l : List AnalysisItem) :
    (assignRanks start l).map (fun a => a.rank) =
      (List.range' (start + 1) l.length).map some := by
  induction l generalizing start with
  | nil => rfl
  | cons a rest ih => simp [assignRanks, ih, List.range']

theorem assignRanks_reportId (start : Nat) (l : List AnalysisItem) :
    (assignRanks start l).map (fun a => a.reportId) = l.map (fun a => a.reportId) := by
  induction l generalizing start with
  | nil => rfl
  | cons a rest ih => simp [assignRanks, ih]

theorem assignRanks_score (start : Nat) (l : List AnalysisItem) :
    (assignRanks start l).map (fun a => a.credibilityScore) =
      l.map (fun a => a.credibilityScore) := by
  induction l generalizing start with
  | nil => rfl
  | cons a rest ih => simp [assignRanks, ih]

theorem assignRanks_filter_length (start : Nat) (l : List AnalysisItem)
    (p : AnalysisItem → Bool) (hp : ∀ a r, p { a with rank := r } = p a) :
    ((assignRanks start l).filter p).length = (l.filter p).length := by
  induction l generalizing start with
  | nil => rfl
  | cons a rest ih =>
    simp only [assignRanks, List.filter_cons, hp a (some (start + 1))]
    split <;> simp [ih]

/-- What holds of the local fallback for every batch: one entry per report, with ranks
`1..N` in order. The law of the built-in used: the sort returns a permutation. -/
theorem localBatch_structure (rt : Runtime)
    (sort : (AnalysisItem → AnalysisItem → Option Int) → List AnalysisItem → List AnalysisItem)
    (hsort : SortContract sort) (random : Nat → ℚ) (reports : List Report) :
    (analyzeAndPrioritizeReportsLocal rt sort random reports).analysis.length =
        reports.length ∧
      (analyzeAndPrioritizeReportsLocal rt sort random reports).analysis.map
          (fun a => a.rank) = (List.range' 1 reports.length).map some ∧
      ((analyzeAndPrioritizeReportsLocal rt sort random reports).analysis.map
          (fun a => a.reportId)).Perm (reports.map (fun r => r.id)) := by
  have hperm := hsort.perm compareScores (analyzeItems rt random 0 reports)
  have hlen : (sort compareScores (analyzeItems rt random 0 reports)).length =
      reports.length := by
    rw [hperm.length_eq, analyzeItems_length]
  refine ⟨?_, ?_, ?_⟩
  · simp only [analyzeAndPrioritizeReportsLocal, assignRanks_length, hlen]
  · simp only [analyzeAndPrioritizeReportsLocal, assignRanks_rank, hlen]
  · simp only [analyzeAndPrioritizeReportsLocal, assignRanks_reportId]
    rw [← analyzeItems_reportId rt random 0 reports]
    exact hperm.map _

/-- When no category of the batch is a property name of `Object.prototype`, the scores of
the local fallback are integers, non-increasing along the ranked list. -/
theorem localBatch_scores_sorted (rt : Runtime)
    (sort : (AnalysisItem → AnalysisItem → Option Int) → List AnalysisItem → List AnalysisItem)
    (hsort : SortContract sort) (random : Nat → ℚ) (reports : List Report)
    (hplain : ∀ r ∈ reports, readSeverity (loweredCategory rt r.category) ≠ .inherited) :
    ∃ scores : List Int,
      (analyzeAndPrioritizeReportsLocal rt sort random reports).analysis.map
          (fun a => a.credibilityScore) = scores.map some ∧
        scores.Sorted (· ≥ ·) := by
  have hsome : ∀ a ∈ analyzeItems rt random 0 reports,
      a.credibilityScore = some (a.credibilityScore.getD 0) := by
    intro a ha
    obtain ⟨r, hr, u, hu⟩ := analyzeItems_score rt random 0 reports a ha
    obtain ⟨n, hn, _⟩ := calculateLocalScore_range rt r u (hplain r hr)
    rw [hu, hn]
    rfl
  have hsorted := sort_sorted_desc sort hsort compareScores
    (fun a => a.credibilityScore.getD 0) (analyzeItems rt random 0 reports)
    (fun a ha b hb => by
      rw [compareScores, hsome a ha, hsome b hb]
      simp [numSub])
  refine ⟨(sort compareScores (analyzeItems rt random 0 reports)).map
    (fun a => a.credibilityScore.getD 0), ?_, hsorted⟩
  simp only [analyzeAndPrioritizeReportsLocal, assignRanks_score, List.map_map]
  apply List.map_congr_left
  intro a ha
  exact hsome a ((hsort.perm _ _).mem_iff.1 ha)

/-- Witness of the two statements on `plainBatch`, on the sort of V8 with every draw 0.5. -/
theorem localBatch_witness :
    (analyzeAndPrioritizeReportsLocal v8Runtime shortArraySort (fun _ => 1 / 2)
        plainBatch).analysis.map (fun a => (a.reportId, a.credibilityScore, a.rank)) =
      [(some "2", some 95, some 1), (some "1", some 85, some 2), (some "4", some 62, some 3),
        (some "3", some 55, some 4)] ∧
    ∃ scores : List Int,
      (analyzeAndPrioritizeReportsLocal v8Runtime shortArraySort (fun _ => 1 / 2)
          plainBatch).analysis.map (fun a => a.credibilityScore) = scores.map some ∧
        scores.Sorted (· ≥ ·) :=
  ⟨by decide!,
    localBatch_scores_sorted v8Runtime shortArraySort shortArraySort_contract
      (fun _ => 1 / 2) plainBatch (by decide)⟩

/-- C19 at its failing input: a report of unknown category, a report of category
"constructor" and a report of category "murder", every draw 0.5. The scores are 55, `NaN`
and 70; each comparison with `NaN` is a tie, and both sorts leave the three entries in input
order: rank 1 has score 55 and rank 3 has score 70. -/
theorem C19_ranked_scores_not_sorted :
    (analyzeAndPrioritizeReportsLocal stdRuntime stableSort (fun _ => 1 / 2)
        inheritedCategoryBatch).analysis.map (fun a => (a.rank, a.credibilityScore)) =
      [(some 1, some 55), (some 2, none), (some 3, some 70)] ∧
    (analyzeAndPrioritizeReportsLocal v8Runtime shortArraySort (fun _ => 1 / 2)
        inheritedCategoryBatch).analysis.map (fun a => (a.rank, a.credibilityScore)) =
      [(some 1, some 55), (some 2, none), (some 3, some 70)] ∧
    ¬ ((55 : Int) ≥ 70) := by
  decide!

theorem scoreBelow_iff (score : Option Int) (bound : Int) :
    scoreBelow score bound = true ↔ ∃ n, score = some n ∧ n < bound := by
  unfold scoreBelow
  cases score with
  | none => simp
  | some s => simp

/-- C20. For every batch of the local fallback, `highPriorityCount` is the number of analysis
entries whose priority level is "HIGH" and `suspiciousCount` the number of those whose score
is below 40 (a `NaN` score is not); both are counts over the whole batch: the same numbers
counted over the per-report results before the sort. The law of the built-in used: the sort
returns a permutation. -/
theorem C20_batch_counts (rt : Runtime)
    (sort : (AnalysisItem → AnalysisItem → Option Int) → List AnalysisItem → List AnalysisItem)
    (hsort : SortContract sort) (random : Nat → ℚ) (reports : List Report) :
    (analyzeAndPrioritizeReportsLocal rt sort random reports).highPriorityCount =
        (analyzeAndPrioritizeReportsLocal rt sort random reports).analysis.countP
          (fun a => decide (a.priorityLevel = "HIGH")) ∧
      (analyzeAndPrioritizeReportsLocal rt sort random reports).suspiciousCount =
        (analyzeAndPrioritizeReportsLocal rt sort random reports).analysis.countP
          (fun a => decide (∃ n, a.credibilityScore = some n ∧ n < 40)) ∧
      (analyzeAndPrioritizeReportsLocal rt sort random reports).highPriorityCount =
        (analyzeItems rt random 0 reports).countP
          (fun a => decide (a.priorityLevel = "HIGH")) ∧
      (analyzeAndPrioritizeReportsLocal rt sort random reports).suspiciousCount =
        (analyzeItems rt random 0 reports).countP
          (fun a => decide (∃ n, a.credibilityScore = some n ∧ n < 40)) := by
  have hperm := hsort.perm compareScores (analyzeItems rt random 0 reports)
  have hhigh : (fun a : AnalysisItem => a.priorityLevel == "HIGH") =
      fun a => decide (a.priorityLevel = "HIGH") := rfl
  have hlow : (fun a : AnalysisItem => scoreBelow a.credibilityScore 40) =
      fun a => decide (∃ n, a.credibilityScore = some n ∧ n < 40) := by
    funext a
    rw [Bool.eq_iff_iff, scoreBelow_iff, decide_eq_true_iff]
  refine ⟨?_, ?_, ?_, ?_⟩
  · simp only [analyzeAndPrioritizeReportsLocal, List.countP_eq_length_filter, hhigh]
  · simp only [analyzeAndPrioritizeReportsLocal, List.countP_eq_length_filter, hlow]
  · simp only [analyzeAndPrioritizeReportsLocal, List.countP_eq_length_filter, hhigh]
    rw [assignRanks_filter_length _ _ (fun a => decide (a.priorityLevel = "HIGH"))
      (fun a r => rfl)]
    exact (hperm.filter _).length_eq
  · simp only [analyzeAndPrioritizeReportsLocal, List.countP_eq_length_filter, hlow]
    rw [assignRanks_filter_length _ _
      (fun a => decide (∃ n, a.credibilityScore = some n ∧ n < 40)) (fun a r => rfl)]
    exact (hperm.filter _).length_eq

/-- Witness of C20 on `plainBatch`, on the sort of V8 with every draw 0.5: two entries of
priority "HIGH", none below 40. -/
theorem C20_batch_counts_witness :
    (analyzeAndPrioritizeReportsLocal v8Runtime shortArraySort (fun _ => 1 / 2)
        plainBatch).highPriorityCount = 2 ∧
    (analyzeAndPrioritizeReportsLocal v8Runtime shortArraySort (fun _ => 1 / 2)
        plainBatch).suspiciousCount = 0 ∧
    (analyzeAndPrioritizeReportsLocal v8Runtime shortArraySort (fun _ => 1 / 2)
        plainBatch).highPriorityCount =
      (analyzeItems v8Runtime (fun _ => 1 / 2) 0 plainBatch).countP
        (fun a => decide (a.priorityLevel = "HIGH")) :=
  ⟨by decide!, by decide!,
    (C20_batch_counts v8Runtime shortArraySort shortArraySort_contract (fun _ => 1 / 2)
      plainBatch).2.2.1⟩

/-! ## Bounds and monotonicity of the local score -/

theorem severityWeight_ge (c : String) : 50 ≤ severityWeight c := by
  unfold severityWeight
  cases hl : CATEGORY_SEVERITY.lookup c with
  | none => simp
  | some n =>
    have hm := lookup_mem _ _ _ hl
    simp only [CATEGORY_SEVERITY, List.mem_cons, Prod.mk.injEq, List.mem_singleton,
      List.not_mem_nil, or_false] at hm
    rcases hm with h | h | h | h | h | h | h | h | h | h <;>
      rw [Option.getD_some, h.2] <;> norm_num

theorem descriptionPoints_nonneg (report : Report) : 0 ≤ descriptionPoints report := by
  unfold descriptionPoints
  simp only
  split_ifs <;> norm_num

theorem evidencePoints_nonneg (report : Report) : 0 ≤ evidencePoints report := by
  unfold evidencePoints
  simp only
  split_ifs <;> norm_num

theorem stakePoints_nonneg (report : Report) : 0 ≤ stakePoints report := by
  unfold stakePoints
  simp only
  split_ifs <;> norm_num

theorem locationPoints_nonneg (report : Report) : 0 ≤ locationPoints report := by
  unfold locationPoints
  split
  · split
    · split_ifs <;> norm_num
    · exact le_refl 0
  · exact le_refl 0

/-- The score as specified is at least 51 when the jitter is at least -4. -/
theorem specifiedScore_ge (rt : Runtime) (report : Report) (j : Int) (hj : -4 ≤ j) :
    51 ≤ specifiedScore rt report j := by
  unfold specifiedScore
  have h1 := severityWeight_ge (loweredCategory rt report.category)
  have h2 := descriptionPoints_nonneg report
  have h3 := evidencePoints_nonneg report
  have h4 := stakePoints_nonneg report
  have h5 := locationPoints_nonneg report
  have h6 : (-4 : ℚ) ≤ (j : ℚ) := by exact_mod_cast hj
  have hx : (51 : ℚ) ≤ min 95 (max 25
      (40 + 3 / 10 * severityWeight (loweredCategory rt report.category)
        + descriptionPoints report + evidencePoints report + stakePoints report
        + locationPoints report + (j : ℚ))) :=
    le_min (by norm_num) (le_max_of_le_right (by linarith))
  apply Rat.le_floor.2
  push_cast
  linarith

/-- For a category that is not a property name of `Object.prototype` and a draw of `[0, 1)`,
the scorer returns an integer that is at least 51. -/
theorem calculateLocalScore_ge (rt : Runtime) (report : Report) (random : ℚ)
    (h : readSeverity (loweredCategory rt report.category) ≠ .inherited)
    (hu : IsRandomDraw random) :
    ∃ n : Int, calculateLocalScore rt report random = some n ∧ 51 ≤ n :=
  ⟨_, calculateLocalScore_eq_specified rt report random h,
    specifiedScore_ge rt report _ (variance_range random hu).1⟩

/-- For a category whose read is an inherited member of `Object.prototype`, the score is
`NaN`, whatever the other fields and the draw. -/
theorem calculateLocalScore_inherited (rt : Runtime) (report : Report) (random : ℚ)
    (h : readSeverity (loweredCategory rt report.category) = .inherited) :
    calculateLocalScore rt report random = none := by
  have hcat : rt.toLowerCase (strOr report.category "") =
      loweredCategory rt report.category := by
    rw [strOr_eq_getD]
    rfl
  unfold calculateLocalScore
  simp only [hcat, h, severityScore, descriptionPoints_eq, evidencePoints_eq,
    stakePoints_eq, locationPoints_eq]
  rfl

/-- C27 at its failing input: a report of category "constructor" with five evidence files
and a stake of 20. The read `CATEGORY_SEVERITY[category]` gives the inherited function, the
score is `NaN` for every draw: not a number that is at least 51. For a report without any
field and the draw 0 the score is 51. -/
theorem C27_score_nan_not_at_least_51 :
    (∀ random : ℚ, calculateLocalScore stdRuntime
        { category := some "constructor", evidenceCount := some 5, stakeAmount := some 20 }
        random = none) ∧
    (∀ random : ℚ, ¬ ∃ n : Int, calculateLocalScore stdRuntime
        { category := some "constructor", evidenceCount := some 5, stakeAmount := some 20 }
        random = some n ∧ 51 ≤ n) ∧
    calculateLocalScore stdRuntime {} 0 = some 51 := by
  have h : ∀ random : ℚ, calculateLocalScore stdRuntime
      { category := some "constructor", evidenceCount := some 5, stakeAmount := some 20 }
      random = none :=
    fun random => calculateLocalScore_inherited stdRuntime _ random (by decide)
  refine ⟨h, fun random hn => ?_, by decide!⟩
  obtain ⟨n, hn, _⟩ := hn
  rw [h random] at hn
  exact Option.noConfusion hn
theorem getPriorityFromScore_ne_low (rt : Runtime) (score : Option ℚ)
    (category : Option String) (h : ScoreAtLeast score 50) :
    getPriorityFromScore rt score category ≠ "LOW" := by
  unfold getPriorityFromScore
  simp only
  split_ifs with h1 h2
  · decide
  · decide
  · exact absurd ((numGe_iff _ _).2 h) h2

theorem scoreAtLeast_of_ge (n : Int) (h : 51 ≤ n) : ScoreAtLeast (scoreValue (some n)) 50 := by
  refine ⟨(n : ℚ), rfl, ?_⟩
  have h1 : ((51 : Int) : ℚ) ≤ (n : ℚ) := by exact_mod_cast h
  push_cast at h1
  linarith

/-- For a category that is not a property name of `Object.prototype` and a draw of `[0, 1)`,
the local analysis of one report has a score of at least 51 and a priority level that is not
"LOW". -/
theorem analyzeItem_never_low (rt : Runtime) (report : Report) (random : ℚ)
    (h : readSeverity (loweredCategory rt report.category) ≠ .inherited)
    (hu : IsRandomDraw random) :
    (analyzeItem rt report random).priorityLevel ≠ "LOW" ∧
      scoreBelow (analyzeItem rt report random).credibilityScore 40 = false ∧
      (localAnalysis rt report random).priorityLevel ≠ "LOW" := by
  obtain ⟨n, hn, h51⟩ := calculateLocalScore_ge rt report random h hu
  refine ⟨?_, ?_, ?_⟩
  · simp only [analyzeItem, hn]
    exact getPriorityFromScore_ne_low rt _ _ (scoreAtLeast_of_ge n h51)
  · simp only [analyzeItem, hn, scoreBelow, decide_eq_false_iff_not]
    omega
  · simp only [localAnalysis, hn]
    exact getPriorityFromScore_ne_low rt _ _ (scoreAtLeast_of_ge n h51)

theorem mem_analyzeItems (rt : Runtime) (random : Nat → ℚ) (start : Nat)
    (reports : List Report) (a : AnalysisItem)
    (ha : a ∈ analyzeItems rt random start reports) :
    ∃ r ∈ reports, ∃ i, a = analyzeItem rt r (random i) := by
  induction reports generalizing start with
  | nil => simp [analyzeItems] at ha
  | cons r rest ih =>
    simp only [analyzeItems, List.mem_cons] at ha
    rcases ha with rfl | ha
    · exact ⟨r, List.mem_cons_self _ _, start, rfl⟩
    · obtain ⟨r2, hr2, i, hi⟩ := ih (start + 1) ha
      exact ⟨r2, List.mem_cons_of_mem _ hr2, i, hi⟩

theorem mem_assignRanks (start : Nat) (l : List AnalysisItem) (a : AnalysisItem)
    (ha : a ∈ assignRanks start l) : ∃ b ∈ l, ∃ k, a = { b with rank := k } := by
  induction l generalizing start with
  | nil => simp [assignRanks] at ha
  | cons b rest ih =>
    simp only [assignRanks, List.mem_cons] at ha
    rcases ha with rfl | ha
    · exact ⟨b, List.mem_cons_self _ _, _, rfl⟩
    · obtain ⟨c, hc, k, hk⟩ := ih (start + 1) ha
      exact ⟨c, List.mem_cons_of_mem _ hc, k, hk⟩

/-- When no category of the batch is a property name of `Object.prototype` and every draw is
in `[0, 1)`, the local fallback counts no suspicious report and gives no entry the priority
level "LOW". The law of the built-in used: the sort returns a permutation. -/
theorem localBatch_never_low (rt : Runtime)
    (sort : (AnalysisItem → AnalysisItem → Option Int) → List AnalysisItem → List AnalysisItem)
    (hsort : SortContract sort) (random : Nat → ℚ) (reports : List Report)
    (hplain : ∀ r ∈ reports, readSeverity (loweredCategory rt r.category) ≠ .inherited)
    (hdraw : ∀ i, IsRandomDraw (random i)) :
    (analyzeAndPrioritizeReportsLocal rt sort random reports).suspiciousCount = 0 ∧
      ∀ a ∈ (analyzeAndPrioritizeReportsLocal rt sort random reports).analysis,
        a.priorityLevel ≠ "LOW" := by
  have hall : ∀ a ∈ (analyzeAndPrioritizeReportsLocal rt sort random reports).analysis,
      a.priorityLevel ≠ "LOW" ∧ scoreBelow a.credibilityScore 40 = false := by
    intro a ha
    simp only [analyzeAndPrioritizeReportsLocal] at ha
    obtain ⟨b, hb, k, rfl⟩ := mem_assignRanks _ _ _ ha
    obtain ⟨r, hr, i, rfl⟩ := mem_analyzeItems rt random 0 reports b
      ((hsort.perm _ _).mem_iff.1 hb)
    have h := analyzeItem_never_low rt r (random i) (hplain r hr) (hdraw i)
    exact ⟨h.1, h.2.1⟩
  refine ⟨?_, fun a ha => (hall a ha).1⟩
  have hnil : (analyzeAndPrioritizeReportsLocal rt sort random reports).analysis.filter
      (fun a => scoreBelow a.credibilityScore 40) = [] := by
    rw [List.filter_eq_nil_iff]
    intro a ha
    rw [(hall a ha).2]
    exact Bool.false_ne_true
  have hcount : (analyzeAndPrioritizeReportsLocal rt sort random reports).suspiciousCount =
      ((analyzeAndPrioritizeReportsLocal rt sort random reports).analysis.filter
        (fun a => scoreBelow a.credibilityScore 40)).length := rfl
  rw [hcount, hnil]
  rfl

/-- Witness of the two statements on `plainBatch`, every draw 0.5: the lowest score is 55,
no entry is "LOW", none is counted as suspicious. -/
theorem localBatch_never_low_witness :
    (∃ n : Int, calculateLocalScore stdRuntime {} (1 / 2) = some n ∧ 51 ≤ n) ∧
    ((analyzeAndPrioritizeReportsLocal v8Runtime shortArraySort (fun _ => 1 / 2)
        plainBatch).suspiciousCount = 0 ∧
      ∀ a ∈ (analyzeAndPrioritizeReportsLocal v8Runtime shortArraySort (fun _ => 1 / 2)
          plainBatch).analysis, a.priorityLevel ≠ "LOW") ∧
    (analyzeAndPrioritizeReportsLocal v8Runtime shortArraySort (fun _ => 1 / 2)
        plainBatch).analysis.map (fun a => a.priorityLevel) =
      ["HIGH", "HIGH", "MEDIUM", "MEDIUM"] :=
  ⟨calculateLocalScore_ge stdRuntime {} (1 / 2) (by decide) ⟨by norm_num, by norm_num⟩,
    localBatch_never_low v8Runtime shortArraySort shortArraySort_contract (fun _ => 1 / 2)
      plainBatch (by decide) (fun _ => ⟨by norm_num, by norm_num⟩),
    by decide!⟩

/-- C28 at its failing input: the batch of a report of unknown category, a report of
category "constructor" and a report of category "murder", every draw 0.5. The entry of the
second report has the score `NaN` and the priority level "LOW"; `suspiciousCount` is 0. The
local analysis of `analyzeReport` for a report of category "constructor" has the priority
level "LOW" as well. -/
theorem C28_low_priority_for_inherited_category :
    (analyzeAndPrioritizeReportsLocal stdRuntime stableSort (fun _ => 1 / 2)
        inheritedCategoryBatch).analysis.map
          (fun a => (a.reportId, a.credibilityScore, a.priorityLevel)) =
      [(some "A", some 55, "MEDIUM"), (some "B", none, "LOW"), (some "C", some 70, "HIGH")] ∧
    (analyzeAndPrioritizeReportsLocal stdRuntime stableSort (fun _ => 1 / 2)
        inheritedCategoryBatch).suspiciousCount = 0 ∧
    (localAnalysis stdRuntime { category := some "constructor" } (1 / 2)).priorityLevel =
      "LOW" ∧
    (localAnalysis stdRuntime { category := some "constructor" } (1 / 2)).credibilityScore =
      none := by
  decide!

/-! ### Monotonicity -/

theorem rat_floor_mono (a b : ℚ) (h : a ≤ b) : Rat.floor a ≤ Rat.floor b :=
  Rat.le_floor.2 (le_trans (Rat.le_floor.1 (le_refl _)) h)

/-- The score as specified is monotone in the description length, the evidence count and the
stake amount. -/
theorem specifiedScore_mono (rt : Runtime) (r1 r2 : Report) (j : Int)
    (hcat : r2.category = r1.category) (hloc : r2.location = r1.location)
    (hd : utf16Length (r1.description.getD "") ≤ utf16Length (r2.description.getD ""))
    (he : r1.evidenceCount.getD 0 ≤ r2.evidenceCount.getD 0)
    (hs : r1.stakeAmount.getD 0 ≤ r2.stakeAmount.getD 0) :
    specifiedScore rt r1 j ≤ specifiedScore rt r2 j := by
  have h1 : descriptionPoints r1 ≤ descriptionPoints r2 := by
    unfold descriptionPoints
    simp only
    split_ifs <;> first | (exfalso; omega) | norm_num
  have h2 : evidencePoints r1 ≤ evidencePoints r2 := by
    unfold evidencePoints
    simp only
    split_ifs <;> first | (exfalso; omega) | norm_num
  have h3 : stakePoints r1 ≤ stakePoints r2 := by
    unfold stakePoints
    simp only
    split_ifs <;> first | (exfalso; omega) | norm_num
  have h4 : locationPoints r2 = locationPoints r1 := by
    unfold locationPoints
    rw [hloc]
  unfold specifiedScore
  rw [hcat, h4]
  apply rat_floor_mono
  apply add_le_add_right
  exact min_le_min (le_refl _) (max_le_max (le_refl _) (by linarith))

/-- For a category that is not a property name of `Object.prototype`, the local score is
monotone in the supporting signals: with the same draw, a report that differs from `r1` by a
description at least as long, an evidence count and a stake amount at least as large gets a
score at least as large. -/
theorem calculateLocalScore_mono (rt : Runtime) (r1 : Report) (description : Option String)
    (evidenceCount stakeAmount : Option Int) (random : ℚ)
    (h : readSeverity (loweredCategory rt r1.category) ≠ .inherited)
    (hd : utf16Length (r1.description.getD "") ≤ utf16Length (description.getD ""))
    (he : r1.evidenceCount.getD 0 ≤ evidenceCount.getD 0)
    (hs : r1.stakeAmount.getD 0 ≤ stakeAmount.getD 0) :
    ∃ n1 n2 : Int, calculateLocalScore rt r1 random = some n1 ∧
      calculateLocalScore rt
        { r1 with description := description, evidenceCount := evidenceCount,
                  stakeAmount := stakeAmount } random = some n2 ∧
      n1 ≤ n2 :=
  ⟨_, _, calculateLocalScore_eq_specified rt r1 random h,
    calculateLocalScore_eq_specified rt _ random h,
    specifiedScore_mono rt r1 _ _ rfl rfl hd he hs⟩

/-- Witness of the monotonicity on a report of category "fraud" with two evidence files:
three more evidence files raise the score from 71 to 78. -/
theorem calculateLocalScore_mono_witness :
    (∃ n1 n2 : Int,
      calculateLocalScore stdRuntime { category := some "fraud", evidenceCount := some 2 }
          (1 / 2) = some n1 ∧
        calculateLocalScore stdRuntime { category := some "fraud", evidenceCount := some 5 }
          (1 / 2) = some n2 ∧
        n1 ≤ n2) ∧
    calculateLocalScore stdRuntime { category := some "fraud", evidenceCount := some 2 }
        (1 / 2) = some 71 ∧
    calculateLocalScore stdRuntime { category := some "fraud", evidenceCount := some 5 }
        (1 / 2) = some 78 :=
  ⟨calculateLocalScore_mono stdRuntime { category := some "fraud", evidenceCount := some 2 }
      none (some 5) none (1 / 2) (by decide) (by decide) (by decide) (by decide),
    by decide!, by decide!⟩

/-- C29 at its failing input: two reports of category "constructor" that are identical
except that the second has five evidence files and the first none. Both scores are `NaN`,
for every draw, and a `NaN` is not greater than or equal to a `NaN`: there are no two
numbers to compare. -/
theorem C29_nan_scores_not_comparable :
    (∀ random : ℚ,
      calculateLocalScore stdRuntime
        { category := some "constructor", evidenceCount := some 0 } random = none ∧
      calculateLocalScore stdRuntime
        { category := some "constructor", evidenceCount := some 5 } random = none) ∧
    (∀ random : ℚ, ¬ ∃ n1 n2 : Int,
      calculateLocalScore stdRuntime
        { category := some "constructor", evidenceCount := some 0 } random = some n1 ∧
      calculateLocalScore stdRuntime
        { category := some "constructor", evidenceCount := some 5 } random = some n2 ∧
      n1 ≤ n2) := by
  have h1 : ∀ random : ℚ, calculateLocalScore stdRuntime
      { category := some "constructor", evidenceCount := some 0 } random = none :=
    fun random => calculateLocalScore_inherited stdRuntime _ random (by decide)
  have h2 : ∀ random : ℚ, calculateLocalScore stdRuntime
      { category := some "constructor", evidenceCount := some 5 } random = none :=
    fun random => calculateLocalScore_inherited stdRuntime _ random (by decide)
  refine ⟨fun random => ⟨h1 random, h2 random⟩, fun random hn => ?_⟩
  obtain ⟨n1, n2, hn1, _, _⟩ := hn
  rw [h1 random] at hn1
  exact Option.noConfusion hn1

/-! ## The remote call and the fallback -/

theorem readTruthy_iff (payload : JsonValue) (key : String) :
    readTruthy (payload.get key) = true ↔ HasTruthyMember payload key := by
  unfold readTruthy HasTruthyMember
  cases payload.get key with
  | none => simp
  | some v => simp

/-- C21 at its counterexample: a remote call that resolves to an object without any of the
fields of a score result (the reply `{"message": "unable to analyse"}`), and a batch call
that resolves to an object whose `analysis` is a string. Neither payload is a well-formed
score result, and each is returned unchanged: the local scorer is not used. -/
theorem C21_malformed_payload_returned :
    ¬ IsScoreResult (.object [("message", .string "unable to analyse")]) ∧
    analyzeReport stdRuntime
        (.fulfilled (.object [("message", .string "unable to analyse")])) {} (1 / 2) =
      .fulfilled (.remote (.object [("message", .string "unable to analyse")])) ∧
    analyzeReport stdRuntime
        (.fulfilled (.object [("message", .string "unable to analyse")])) {} (1 / 2) ≠
      .fulfilled (.fallback (localAnalysis stdRuntime {} (1 / 2))) ∧
    analyzeAndPrioritizeReports stdRuntime stableSort
        (.fulfilled (.object [("analysis", .string "none")])) (fun _ => 1 / 2) plainBatch =
      .fulfilled (.remote (.object [("analysis", .string "none")])) := by
  refine ⟨?_, rfl, ?_, rfl⟩
  · intro h
    obtain ⟨⟨n, hn, _⟩, _⟩ := h
    simp [JsonValue.get, List.lookup] at hn
  · intro h
    have h2 : analyzeReport stdRuntime
        (.fulfilled (.object [("message", .string "unable to analyse")])) {} (1 / 2) =
      .fulfilled (.remote (.object [("message", .string "unable to analyse")])) := rfl
    rw [h2] at h
    injection h with h3
    exact ReportAnalysis.noConfusion h3

/-- C21, amended. `analyzeReport` and `analyzeAndPrioritizeReports` never reject, however
the remote call settles. When the call is rejected, or resolves to a payload that is falsy or
has a truthy `error` member (for the batch call also: has no truthy `analysis` member), the
result is the local analysis; every other payload is returned unchanged, whether or not it is
a well-formed score result. -/
theorem C21_remote_gate (rt : Runtime)
    (sort : (AnalysisItem → AnalysisItem → Option Int) → List AnalysisItem → List AnalysisItem)
    (report : Report) (random : ℚ) (draws : Nat → ℚ) (reports : List Report) :
    (∀ remote, ∃ r, analyzeReport rt remote report random = .fulfilled r) ∧
    (∀ remote, ∃ r, analyzeAndPrioritizeReports rt sort remote draws reports = .fulfilled r) ∧
    analyzeReport rt .rejected report random =
      .fulfilled (.fallback (localAnalysis rt report random)) ∧
    analyzeAndPrioritizeReports rt sort .rejected draws reports =
      .fulfilled (.fallback (analyzeAndPrioritizeReportsLocal rt sort draws reports)) ∧
    (∀ payload, (payload.truthy = false ∨ HasTruthyMember payload "error") →
      analyzeReport rt (.fulfilled payload) report random =
        .fulfilled (.fallback (localAnalysis rt report random))) ∧
    (∀ payload, ¬ (payload.truthy = false ∨ HasTruthyMember payload "error") →
      analyzeReport rt (.fulfilled payload) report random = .fulfilled (.remote payload)) ∧
    (∀ payload, (payload.truthy = false ∨ HasTruthyMember payload "error" ∨
        ¬ HasTruthyMember payload "analysis") →
      analyzeAndPrioritizeReports rt sort (.fulfilled payload) draws reports =
        .fulfilled (.fallback (analyzeAndPrioritizeReportsLocal rt sort draws reports))) ∧
    (∀ payload, ¬ (payload.truthy = false ∨ HasTruthyMember payload "error" ∨
        ¬ HasTruthyMember payload "analysis") →
      analyzeAndPrioritizeReports rt sort (.fulfilled payload) draws reports =
        .fulfilled (.remote payload)) := by
  refine ⟨?_, ?_, rfl, rfl, ?_, ?_, ?_, ?_⟩
  · intro remote
    cases remote with
    | rejected => exact ⟨_, rfl⟩
    | fulfilled payload =>
      by_cases h : (payload.truthy && !readTruthy (payload.get "error")) = true
      · exact ⟨.remote payload, by simp [analyzeReport, tryReturn, h]⟩
      · exact ⟨.fallback (localAnalysis rt report random),
          by simp [analyzeReport, tryReturn, h]⟩
  · intro remote
    cases remote with
    | rejected => exact ⟨_, rfl⟩
    | fulfilled payload =>
      by_cases h : (payload.truthy && readTruthy (payload.get "analysis") &&
          !readTruthy (payload.get "error")) = true
      · exact ⟨.remote payload, by simp [analyzeAndPrioritizeReports, tryReturn, h]⟩
      · exact ⟨.fallback (analyzeAndPrioritizeReportsLocal rt sort draws reports),
          by simp [analyzeAndPrioritizeReports, tryReturn, h]⟩
  · intro payload h
    have hc : (payload.truthy && !readTruthy (payload.get "error")) = false := by
      rcases h with h | h
      · simp [h]
      · simp [(readTruthy_iff _ _).2 h]
    simp [analyzeReport, tryReturn, hc]
  · intro payload h
    have hc : (payload.truthy && !readTruthy (payload.get "error")) = true := by
      rw [not_or, ← readTruthy_iff] at h
      simp [h.1, h.2]
    simp [analyzeReport, tryReturn, hc]
  · intro payload h
    have hc : (payload.truthy && readTruthy (payload.get "analysis") &&
        !readTruthy (payload.get "error")) = false := by
      rcases h with h | h | h
      · simp [h]
      · simp [(readTruthy_iff _ _).2 h]
      · rw [← readTruthy_iff] at h
        simp [h]
    simp [analyzeAndPrioritizeReports, tryReturn, hc]
  · intro payload h
    have hc : (payload.truthy && readTruthy (payload.get "analysis") &&
        !readTruthy (payload.get "error")) = true := by
      rw [not_or, not_or, not_not, ← readTruthy_iff, ← readTruthy_iff] at h
      simp [h.1, h.2.1, h.2.2]
    simp [analyzeAndPrioritizeReports, tryReturn, hc]

/-- Witness of C21 on the reply the prompt asks for, and on a rejected call. -/
theorem C21_remote_gate_witness :
    analyzeReport stdRuntime
        (.fulfilled (.object [("credibilityScore", .number 75),
          ("priorityLevel", .string "HIGH")])) {} (1 / 2) =
      .fulfilled (.remote (.object [("credibilityScore", .number 75),
        ("priorityLevel", .string "HIGH")])) ∧
    analyzeReport stdRuntime .rejected {} (1 / 2) =
      .fulfilled (.fallback (localAnalysis stdRuntime {} (1 / 2))) :=
  ⟨(C21_remote_gate stdRuntime stableSort {} (1 / 2) (fun _ => 1 / 2) []).2.2.2.2.2.1 _
      (by simp [HasTruthyMember, JsonValue.truthy, JsonValue.get, List.lookup]),
    (C21_remote_gate stdRuntime stableSort {} (1 / 2) (fun _ => 1 / 2) []).2.2.1⟩

/-! ## truncateText -/

theorem utf16Units_length (s : String) : (utf16Units s).length = utf16Length s := by
  unfold utf16Units utf16Length
  induction s.data with
  | nil => rfl
  | cons c cs ih =>
    simp only [List.map_cons, List.flatten_cons, List.length_append, List.sum_cons, ih]
    split <;> rfl

/-- C26. `truncateText` on a string of UTF-16 code units (the characters of a JavaScript
string) and a non-negative integer `maxLength`, 60 when omitted: the empty string when the
text is absent or empty; the text unchanged when its length is at most `maxLength`; otherwise
the first `maxLength` characters followed by "...", a string of length `maxLength + 3`. -/
theorem C26_truncateText (text : List Nat) (maxLength : Nat) :
    truncateText none (some maxLength) = [] ∧
    truncateText none none = [] ∧
    truncateText (some []) (some maxLength) = [] ∧
    truncateText (some []) none = [] ∧
    (text.length ≤ maxLength → truncateText (some text) (some maxLength) = text) ∧
    (maxLength < text.length →
      truncateText (some text) (some maxLength) = text.take maxLength ++ utf16Units "..." ∧
      (truncateText (some text) (some maxLength)).length = maxLength + 3) ∧
    truncateText (some text) none = truncateText (some text) (some 60) := by
  refine ⟨rfl, rfl, rfl, rfl, ?_, ?_, rfl⟩
  · intro h
    unfold truncateText
    cases text with
    | nil => rfl
    | cons c cs =>
      simp only [List.length_cons, Nat.add_one_ne_zero, if_false, Option.getD_some]
      rw [if_neg]
      simpa using h
  · intro h
    have hne : text.length ≠ 0 := by omega
    have he : truncateText (some text) (some maxLength) =
        text.take maxLength ++ utf16Units "..." := by
      unfold truncateText
      simp only [hne, if_false, Option.getD_some]
      rw [if_pos h]
    refine ⟨he, ?_⟩
    rw [he, List.length_append, List.length_take, Nat.min_eq_left (le_of_lt h)]
    rfl

/-- Witness of C26 on the cases of the test file: a text of 24 characters cut at 10, a text
of 5 characters kept, and a text with a character outside the basic plane, which counts as
two. -/
theorem C26_truncateText_witness :
    truncateText (some (utf16Units "This is a very long text")) (some 10) =
      utf16Units "This is a ..." ∧
    (truncateText (some (utf16Units "This is a very long text")) (some 10)).length = 13 ∧
    truncateText (some (utf16Units "Hello")) (some 10) = utf16Units "Hello" ∧
    (utf16Units "a😀b").length = 4 ∧
    truncateText (some (utf16Units "a😀b")) (some 3) = [97, 55357, 56832, 46, 46, 46] :=
  ⟨by
      rw [(C26_truncateText (utf16Units "This is a very long text") 10).2.2.2.2.2.1
        (by decide) |>.1]
      decide,
    (C26_truncateText (utf16Units "This is a very long text") 10).2.2.2.2.2.1 (by decide) |>.2,
    (C26_truncateText (utf16Units "Hello") 10).2.2.2.2.1 (by decide),
    by decide, by decide⟩

/-! ## reportService -/

theorem catchReturn_fulfilled {α : Type} (block : Settled α) (handler : α) :
    ∃ v, catchReturn block handler = .fulfilled v := by
  cases block with
  | fulfilled v => exact ⟨v, rfl⟩
  | rejected => exact ⟨handler, rfl⟩

/-- C25. The four list operations of `reportService` never reject: however the backend calls
settle, each resolves to a list. Each resolves to the empty list when the backend list call
it depends on is rejected (for `getAllReports` and `getReportsByStatus` that is the call for
an authority when the authority check resolves to `true`, and `getUserReports` when it
resolves to `false` or is itself rejected), and when that call resolves to `null`. -/
theorem C25_list_operations_never_reject (status : String) (authority : Settled Bool)
    (all byStatus user : Settled (Option (List Report))) :
    ((∃ l, reportService.getUserReports user = .fulfilled l) ∧
      (∃ l, reportService.getAllReports authority all user = .fulfilled l) ∧
      (∃ l, reportService.getReportsByStatus status authority byStatus user = .fulfilled l) ∧
      (∃ l, reportService.getUserReportsByStatus status user = .fulfilled l)) ∧
    (reportService.getUserReports .rejected = .fulfilled [] ∧
      reportService.getAllReports (.fulfilled true) .rejected user = .fulfilled [] ∧
      reportService.getAllReports (.fulfilled false) all .rejected = .fulfilled [] ∧
      reportService.getAllReports .rejected all .rejected = .fulfilled [] ∧
      reportService.getReportsByStatus status (.fulfilled true) .rejected user =
        .fulfilled [] ∧
      reportService.getReportsByStatus status (.fulfilled false) byStatus .rejected =
        .fulfilled [] ∧
      reportService.getReportsByStatus status .rejected byStatus .rejected = .fulfilled [] ∧
      reportService.getUserReportsByStatus status .rejected = .fulfilled []) ∧
    (reportService.getUserReports (.fulfilled none) = .fulfilled [] ∧
      reportService.getAllReports (.fulfilled true) (.fulfilled none) user = .fulfilled [] ∧
      reportService.getAllReports (.fulfilled false) all (.fulfilled none) = .fulfilled [] ∧
      reportService.getReportsByStatus status (.fulfilled true) (.fulfilled none) user =
        .fulfilled [] ∧
      reportService.getReportsByStatus status (.fulfilled false) byStatus (.fulfilled none) =
        .fulfilled [] ∧
      reportService.getUserReportsByStatus status (.fulfilled none) = .fulfilled []) :=
  ⟨⟨catchReturn_fulfilled _ _, catchReturn_fulfilled _ _, catchReturn_fulfilled _ _,
      catchReturn_fulfilled _ _⟩,
    ⟨rfl, rfl, rfl, rfl, rfl, rfl, rfl, rfl⟩, ⟨rfl, rfl, rfl, rfl, rfl, rfl⟩⟩

/-- What the operations resolve to when the backend list call resolves to a list: that list,
and for the operations that filter the reports of the user, its records of the given
status, in order. -/
theorem reportService_on_success (status : String) (reports : List Report)
    (all byStatus user : Settled (Option (List Report))) :
    reportService.getUserReports (.fulfilled (some reports)) = .fulfilled reports ∧
    reportService.getAllReports (.fulfilled true) (.fulfilled (some reports)) user =
      .fulfilled reports ∧
    reportService.getAllReports .rejected all (.fulfilled (some reports)) =
      .fulfilled reports ∧
    reportService.getReportsByStatus status (.fulfilled true) (.fulfilled (some reports)) user =
      .fulfilled reports ∧
    reportService.getReportsByStatus status (.fulfilled false) byStatus
        (.fulfilled (some reports)) =
      .fulfilled (reports.filter (fun r => decide (r.status = some status))) ∧
    reportService.getUserReportsByStatus status (.fulfilled (some reports)) =
      .fulfilled (reports.filter (fun r => decide (r.status = some status))) :=
  ⟨rfl, rfl, rfl, rfl, rfl, rfl⟩

/-- The operations on the reports of the test file: three reports of the user, the second
verified, filtered by the status "pending". -/
theorem reportService_examples :
    reportService.getUserReportsByStatus "pending"
        (.fulfilled (some [ { id := some "1", status := some "pending" },
          { id := some "2", status := some "verified" },
          { id := some "3", status := some "pending" } ])) =
      .fulfilled [ { id := some "1", status := some "pending" },
        { id := some "3", status := some "pending" } ] ∧
    reportService.getAllReports (.fulfilled false) .rejected .rejected = .fulfilled [] := by
  constructor
  · simp [reportService.getUserReportsByStatus, catchReturn, Settled.andThen, listOr]
  · rfl

/-! ## The fetch guard -/

theorem guardInvariant_step (s : FetchState) (e : FetchEvent) (h : GuardInvariant s)
    (he : e = .refresh → s.inFlight = 0) : GuardInvariant (s.step e) := by
  unfold GuardInvariant at h ⊢
  cases e with
  | mount =>
    simp only [FetchState.step, fetchData]
    by_cases hf : s.fetchingRef = true
    · simp only [hf, if_true] at h ⊢
      exact h
    · simp only [hf] at h ⊢
      simp [h]
  | refresh =>
    have h0 := he rfl
    simp [FetchState.step, fetchData, h0]
  | completion =>
    simp only [FetchState.step]
    by_cases h0 : s.inFlight = 0
    · simp only [h0, if_true]
      exact (h0 ▸ h)
    · by_cases hf : s.fetchingRef = true
      · simp only [hf, if_true] at h
        simp [h]
      · simp only [hf] at h
        exact absurd h h0

theorem refreshWhenIdle_take (events : List FetchEvent) :
    ∀ (s : FetchState) (k : Nat), RefreshWhenIdle s events →
      RefreshWhenIdle s (events.take k) := by
  induction events with
  | nil => intro s k h; simpa using h
  | cons e rest ih =>
    intro s k h
    cases k with
    | zero => exact trivial
    | succ k => exact ⟨h.1, ih (s.step e) k h.2⟩

theorem guardInvariant_run (events : List FetchEvent) :
    ∀ s : FetchState, GuardInvariant s → RefreshWhenIdle s events →
      GuardInvariant (s.run events) := by
  induction events with
  | nil => intro s h _; exact h
  | cons e rest ih =>
    intro s h hr
    exact ih (s.step e) (guardInvariant_step s e h hr.1) hr.2

/-- C24 at its failing input: the hook mounts and, before its fetch completes, the view
requests a refresh. The refresh clears the flag, so the call of the fetch function passes
the guard: two fetches are in flight. In every state a refresh starts a fetch, whatever the
number in flight; and once the first of the two fetches completes, the flag is clear while
the second is still in flight, so the next effect run starts another one. -/
theorem C24_refresh_starts_second_fetch (s : FetchState) :
    (s.step .refresh).inFlight = s.inFlight + 1 ∧
    (({} : FetchState).run [.mount]).inFlight = 1 ∧
    (({} : FetchState).run [.mount, .refresh]).inFlight = 2 ∧
    ¬ (({} : FetchState).run [.mount, .refresh]).inFlight ≤ 1 ∧
    (({} : FetchState).run [.mount, .refresh, .completion]).fetchingRef = false ∧
    (({} : FetchState).run [.mount, .refresh, .completion, .mount]).inFlight = 2 := by
  refine ⟨?_, by decide, by decide, by decide, by decide, by decide⟩
  simp [FetchState.step, fetchData]

/-- What the guard does achieve: for every sequence of mount, refresh-request and
fetch-completion events in which each refresh is requested while no fetch is in flight, the
number of fetches started and not yet completed never exceeds one: after every initial part
of the sequence it is at most one. Effect runs alone never start a second fetch. -/
theorem one_fetch_when_refresh_idle (events : List FetchEvent)
    (h : RefreshWhenIdle {} events) (k : Nat) :
    (({} : FetchState).run (events.take k)).inFlight ≤ 1 := by
  have hinv := guardInvariant_run (events.take k) {} rfl (refreshWhenIdle_take events {} k h)
  unfold GuardInvariant at hinv
  rw [hinv]
  split <;> omega

/-- Witness of the statement on a mount, a second effect run while the fetch is in flight,
its completion, a refresh and the completion of the second fetch. -/
theorem one_fetch_when_refresh_idle_witness :
    RefreshWhenIdle {} [.mount, .mount, .completion, .refresh, .completion] ∧
    (({} : FetchState).run
      ([FetchEvent.mount, .mount, .completion, .refresh, .completion].take 4)).inFlight ≤ 1 ∧
    (({} : FetchState).run [.mount, .mount]).inFlight = 1 :=
  ⟨by decide,
    one_fetch_when_refresh_idle [.mount, .mount, .completion, .refresh, .completion]
      (by decide) 4,
    by decide⟩

/-! ## The authority page -/

theorem run_deliver_keeps (deliveries : List (List Report)) :
    ∀ s : AuthorityPageState,
      (s.run (deliveries.map .deliver)).aiPrioritizedReports = s.aiPrioritizedReports ∧
      (s.run (deliveries.map .deliver)).aiAnalysisResult = s.aiAnalysisResult := by
  induction deliveries with
  | nil => intro s; exact ⟨rfl, rfl⟩
  | cons d rest ih =>
    intro s
    exact ih (s.step (.deliver d))

/-- C22 at its failing input: the page shows the two pending reports of `rankedData`, the
panel stores a prioritised list, the first report is verified and the refresh that the page
requests delivers the new collection. The stored list is still there, and it, not the new
collection, is the list handed to `useFilters`: the verified report is still shown as
pending, where `useFilters` on the new collection shows the second report only. -/
theorem C22_prioritised_list_survives_refresh :
    reportsToFilter
        (({ reports := rankedData } : AuthorityPageState).run
          [.prioritize (prioritizedReports stdRuntime rankedData rankedAnalysis)
              (.fallback (analyzeAndPrioritizeReportsLocal stdRuntime stableSort
                (fun _ => 1 / 2) (pendingReports rankedData))),
            .deliver refreshedData]) =
      prioritizedReports stdRuntime rankedData rankedAnalysis ∧
    prioritizedReports stdRuntime rankedData rankedAnalysis = rankedData ∧
    rankedData ≠ refreshedData ∧
    (displayedReports stdRuntime
        (({ reports := rankedData } : AuthorityPageState).run
          [.prioritize (prioritizedReports stdRuntime rankedData rankedAnalysis)
              (.fallback (analyzeAndPrioritizeReportsLocal stdRuntime stableSort
                (fun _ => 1 / 2) (pendingReports rankedData))),
            .deliver refreshedData])).map (fun r => (r.id, r.status)) =
      [(some "B", some "pending"), (some "A", some "pending")] ∧
    (filteredData stdRuntime (some refreshedData) authorityFilters).map
        (fun r => (r.id, r.status)) = [(some "B", some "pending")] := by
  refine ⟨rfl, by decide!, by decide, ?_, by decide⟩
  have h : prioritizedReports stdRuntime rankedData rankedAnalysis = rankedData := by decide!
  show (filteredData stdRuntime
    (some (prioritizedReports stdRuntime rankedData rankedAnalysis)) authorityFilters).map
      (fun r => (r.id, r.status)) = _
  rw [h]
  decide

/-- What the page does in every state: once `handleAIPrioritize` has stored a list, that
list and the analysis result stay stored through every sequence of deliveries of new reports
collections, and the list handed to `useFilters` is the stored list, whatever was delivered.
Only while nothing is stored is that list the reports collection last delivered. -/
theorem prioritised_list_kept (s : AuthorityPageState) (prioritized : List Report)
    (analysisResult : BatchResult) (deliveries : List (List Report)) (reports : List Report) :
    ((s.step (.prioritize prioritized analysisResult)).run
        (deliveries.map .deliver)).aiPrioritizedReports = some prioritized ∧
    ((s.step (.prioritize prioritized analysisResult)).run
        (deliveries.map .deliver)).aiAnalysisResult = some analysisResult ∧
    reportsToFilter ((s.step (.prioritize prioritized analysisResult)).run
        (deliveries.map .deliver)) = prioritized ∧
    reportsToFilter
      (({ s with aiPrioritizedReports := none } : AuthorityPageState).run
        ((deliveries ++ [reports]).map .deliver)) = reports := by
  have h := run_deliver_keeps deliveries (s.step (.prioritize prioritized analysisResult))
  refine ⟨h.1, h.2, ?_, ?_⟩
  · unfold reportsToFilter
    rw [h.1]
    rfl
  · have h2 := run_deliver_keeps (deliveries ++ [reports])
      { s with aiPrioritizedReports := none }
    unfold reportsToFilter
    rw [h2.1]
    simp [AuthorityPageState.run, AuthorityPageState.step, List.foldl_append]

/-- C23 at its failing input: two pending reports, "A" dated 2024-01-10 with five evidence
files and "B" dated 2024-01-20. The local fallback ranks "A" first and "B" second, and the
prioritised list of the panel is "A", "B". `useFilters` then sorts that list by date,
descending, the sort of its construction-time filters: the page displays "B", "A", the
ranks 2, 1, on both runtimes. -/
theorem C23_date_sort_overrides_rank :
    rankedAnalysis.map (fun a => (a.reportId, a.credibilityScore, a.rank)) =
      [(some "A", some 70, some 1), (some "B", some 55, some 2)] ∧
    (prioritizedReports stdRuntime rankedData rankedAnalysis).map (fun r => r.id) =
      [some "A", some "B"] ∧
    (displayedReports stdRuntime
        { reports := rankedData
          aiPrioritizedReports := some (prioritizedReports stdRuntime rankedData
            rankedAnalysis) }).map (fun r => (r.id, rankOf rankedAnalysis r)) =
      [(some "B", some 2), (some "A", some 1)] ∧
    (displayedReports v8Runtime
        { reports := rankedData
          aiPrioritizedReports := some (prioritizedReports v8Runtime rankedData
            rankedAnalysis) }).map (fun r => (r.id, rankOf rankedAnalysis r)) =
      [(some "B", some 2), (some "A", some 1)] ∧
    ¬ [(2 : Nat), 1].Sorted (· ≤ ·) := by
  decide!

/-! ## Descending against ascending -/

/-- With a consistent comparator under which no two entries of the list tie, the stable
sorted arrangement for the negated comparator is the reverse of the one for the
comparator. -/
theorem stableSort_numNeg_reverse {α : Type} (cmp : α → α → Option Int) (l : List α)
    (hc : ConsistentOn cmp l)
    (hd : l.Pairwise (fun a b => sortCompare cmp a b ≠ 0)) :
    stableSort (fun x y => numNeg (cmp x y)) l = (stableSort cmp l).reverse := by
  have hanti := hc.1
  have hP := preOn_of_consistentOn cmp l hc
  have hPn := preOn_of_consistentOn _ l (consistentOn_numNeg cmp l hc)
  have hpA : (stableSort cmp l).Perm l := stableSort_perm cmp l
  have hpD : (stableSort (fun x y => numNeg (cmp x y)) l).Perm l := stableSort_perm _ l
  have hA : (stableSort cmp l).Pairwise (fun a b => sortCompare cmp a b ≤ 0) :=
    pairwise_insertionSort_on _ _ _ hP l (fun _ hy => hy)
  have hD : (stableSort (fun x y => numNeg (cmp x y)) l).Pairwise
      (fun a b => sortCompare (fun x y => numNeg (cmp x y)) a b ≤ 0) :=
    pairwise_insertionSort_on _ _ _ hPn l (fun _ hy => hy)
  have hsymm : ∀ {x y : α}, (x ∈ l → y ∈ l → sortCompare cmp x y ≠ 0) →
      (y ∈ l → x ∈ l → sortCompare cmp y x ≠ 0) := by
    intro x y h hy hx
    have h1 := hanti x hx y hy
    have h2 := hanti y hy x hx
    have h3 := h hx hy
    omega
  have hR : l.Pairwise (fun a b => a ∈ l → b ∈ l → sortCompare cmp a b ≠ 0) :=
    hd.imp (fun h _ _ => h)
  have hRA := (hpA.pairwise_iff hsymm).2 hR
  have hRD := (hpD.pairwise_iff hsymm).2 hR
  have hsA : (stableSort cmp l).Pairwise
      (fun a b => a ∈ l ∧ b ∈ l ∧ sortCompare cmp a b < 0) := by
    refine (hA.and hRA).imp_of_mem ?_
    intro a b ha hb h
    have hal := hpA.mem_iff.1 ha
    have hbl := hpA.mem_iff.1 hb
    have h1 := h.2 hal hbl
    have h2 := h.1
    exact ⟨hal, hbl, by omega⟩
  have hsD : (stableSort (fun x y => numNeg (cmp x y)) l).reverse.Pairwise
      (fun a b => a ∈ l ∧ b ∈ l ∧ sortCompare cmp a b < 0) := by
    rw [List.pairwise_reverse]
    refine (hD.and hRD).imp_of_mem ?_
    intro a b ha hb h
    have hal := hpD.mem_iff.1 ha
    have hbl := hpD.mem_iff.1 hb
    have h1 := h.2 hal hbl
    have h2 := h.1
    rw [sortCompare_numNeg] at h2
    have h3 := hanti b hbl a hal
    exact ⟨hbl, hal, by omega⟩
  haveI : IsAntisymm α (fun a b => a ∈ l ∧ b ∈ l ∧ sortCompare cmp a b < 0) :=
    ⟨fun a b hab hba => by
      have h1 := hanti a hab.1 b hab.2.1
      have h2 := hab.2.2
      have h3 := hba.2.2
      omega⟩
  have heq := List.eq_of_perm_of_sorted
    (((List.reverse_perm _).trans hpD).trans hpA.symm) hsD hsA
  rw [← heq, List.reverse_reverse]

/-- The records that pass the filters do not depend on the direction of the sort. -/
theorem passing_sortDirection (rt : Runtime) (data : List Report) (f : Filters)
    (dir : String) : passing rt data { f with sortDirection := dir } = passing rt data f :=
  rfl

/-- The sort callback, whatever the direction, compares two records as a tie exactly when
the `comparison` does. -/
theorem compareFn_tie_iff (rt : Runtime) (f : Filters) (a b : Report) :
    sortCompare (compareFn rt f) a b = 0 ↔ sortCompare (comparison rt f.sortBy) a b = 0 := by
  by_cases hd : f.sortDirection = "asc"
  · simp [sortCompare, compareFn, hd]
  · have he : compareFn rt f = fun a b => numNeg (comparison rt f.sortBy a b) := by
      funext a b
      simp [compareFn, hd]
    rw [he, sortCompare_numNeg]
    omega

/-- When the records that pass the filters have pairwise distinct sort keys, no two of them
compare as a tie. The key is the time value of `new Date(r.date || 0)`, the stake, the
evidence count, or the title under `localeCompare`. -/
theorem no_ties_of_distinct_keys (rt : Runtime) (sortBy : String) (l : List Report)
    (hby : sortBy ∈ ["date", "stake", "evidence", "title"])
    (hdate : sortBy = "date" → ∀ r ∈ l, (newDate rt r.date).isSome = true)
    (hkeys : DistinctSortKeys rt sortBy l) :
    l.Pairwise (fun a b => sortCompare (comparison rt sortBy) a b ≠ 0) := by
  simp only [List.mem_cons, List.mem_singleton, List.not_mem_nil, or_false] at hby
  rcases hby with h | h | h | h
  · have hk := List.pairwise_map.1 (hkeys.1 h)
    refine hk.imp_of_mem ?_
    intro a b ha hb hne
    have hda := hdate h a ha
    have hdb := hdate h b hb
    rw [Option.isSome_iff_exists] at hda hdb
    obtain ⟨x, hx⟩ := hda
    obtain ⟨y, hy⟩ := hdb
    rw [hx, hy] at hne
    have hxy : x ≠ y := fun he => hne (by rw [he])
    simp only [sortCompare, comparison, h, if_true, hx, hy, numSub]
    omega
  · have hk := List.pairwise_map.1 (hkeys.2.1 h)
    refine hk.imp ?_
    intro a b hne
    simp only [stakeKey] at hne
    simp [sortCompare, comparison, h, numOr_eq_getD]
    omega
  · have hk := List.pairwise_map.1 (hkeys.2.2.1 h)
    refine hk.imp ?_
    intro a b hne
    simp only [evidenceKey] at hne
    simp [sortCompare, comparison, h, numOr_eq_getD]
    omega
  · refine (hkeys.2.2.2 h).imp ?_
    intro a b hne
    simpa [sortCompare, comparison, h, strOr_eq_getD, titleKey] using hne

/-- Two records that share the sort key compare as a tie. -/
theorem tie_of_sharesSortKey (rt : Runtime) (sortBy : String) (a b : Report)
    (h : SharesSortKey rt sortBy a b) : sortCompare (comparison rt sortBy) a b = 0 := by
  rcases h with ⟨h, hk⟩ | ⟨h, hk⟩ | ⟨h, hk⟩ | ⟨h, hk⟩
  · simp only [sortCompare, comparison, h, if_true, hk]
    cases newDate rt b.date <;> simp [numSub]
  · simp only [stakeKey] at hk
    simp [sortCompare, comparison, h, numOr_eq_getD, hk]
  · simp only [evidenceKey] at hk
    simp [sortCompare, comparison, h, numOr_eq_getD, hk]
  · simpa [sortCompare, comparison, h, strOr_eq_getD, titleKey] using hk

/-- C30. For a sort by stake, evidence or title, or by date when no date of `data` is
unparsable: when the records that pass the filters have pairwise distinct sort keys,
`filteredData` for the direction "desc" is exactly the reverse of `filteredData` for "asc";
and two records that share a key, the first before the second in `data`, are in that order
in `filteredData` for "desc" as they are for "asc": not reversed. Titles are compared by
`localeCompare`. The laws of the built-ins used: the contract of the sort, and that
`localeCompare` is antisymmetric in sign and transitive. -/
theorem C30_desc_reverses_asc (rt : Runtime) (hsort : SortContract rt.sort)
    (hanti : ∀ s t, rt.localeCompare s t < 0 ↔ 0 < rt.localeCompare t s)
    (htrans : ∀ s t u, rt.localeCompare s t ≤ 0 → rt.localeCompare t u ≤ 0 →
      rt.localeCompare s u ≤ 0)
    (data : List Report) (f : Filters)
    (hby : f.sortBy ∈ ["date", "stake", "evidence", "title"])
    (hdate : f.sortBy = "date" → ∀ r ∈ data, (newDate rt r.date).isSome = true) :
    (DistinctSortKeys rt f.sortBy (passing rt data f) →
      filteredData rt (some data) { f with sortDirection := "desc" } =
        (filteredData rt (some data) { f with sortDirection := "asc" }).reverse) ∧
    (∀ a b, [a, b].Sublist data → a ∈ passing rt data f → b ∈ passing rt data f →
      SharesSortKey rt f.sortBy a b →
      [a, b].Sublist (filteredData rt (some data) { f with sortDirection := "desc" }) ∧
      [a, b].Sublist (filteredData rt (some data) { f with sortDirection := "asc" })) := by
  have hdl : f.sortBy = "date" → ∀ r ∈ passing rt data f, (newDate rt r.date).isSome = true :=
    fun hs r hr => hdate hs r ((passing_sublist rt data f).subset hr)
  have hc := comparison_consistent rt hanti htrans f.sortBy (passing rt data f) hdl
  have hasc : compareFn rt { f with sortDirection := "asc" } = comparison rt f.sortBy := by
    funext a b
    simp [compareFn]
  have hdesc : compareFn rt { f with sortDirection := "desc" } =
      fun a b => numNeg (comparison rt f.sortBy a b) := by
    funext a b
    simp [compareFn]
  constructor
  · intro hkeys
    have hties := no_ties_of_distinct_keys rt f.sortBy (passing rt data f) hby hdl hkeys
    simp only [filteredData, passing_sortDirection, hasc, hdesc]
    rw [hsort.stable _ _ hc, hsort.stable _ _ (consistentOn_numNeg _ _ hc)]
    exact stableSort_numNeg_reverse _ _ hc hties
  · intro a b hab ha hb hkey
    have htie := tie_of_sharesSortKey rt f.sortBy a b hkey
    exact ⟨sort_stable_of_valid_dates rt hsort hanti htrans data
        { f with sortDirection := "desc" } a b hdate hab
        ((mem_filteredData rt hsort data _ a).2 ha) ((mem_filteredData rt hsort data _ b).2 hb)
        ((compareFn_tie_iff rt { f with sortDirection := "desc" } a b).2 htie),
      sort_stable_of_valid_dates rt hsort hanti htrans data
        { f with sortDirection := "asc" } a b hdate hab
        ((mem_filteredData rt hsort data _ a).2 ha) ((mem_filteredData rt hsort data _ b).2 hb)
        ((compareFn_tie_iff rt { f with sortDirection := "asc" } a b).2 htie)⟩

/-- Witness of C30 on the test fixture sorted by stake, on the sort of V8: the four stakes
are distinct, and the descending list is the ascending one reversed. On `tieData` the first
and the last record share their stake and keep their input order in both directions, so the
descending list is not the reverse of the ascending one. -/
theorem C30_desc_reverses_asc_witness :
    DistinctSortKeys v8Runtime "stake" (passing v8Runtime mockData { sortBy := "stake" }) ∧
    filteredData v8Runtime (some mockData) { sortBy := "stake", sortDirection := "desc" } =
      (filteredData v8Runtime (some mockData)
        { sortBy := "stake", sortDirection := "asc" }).reverse ∧
    (filteredData v8Runtime (some mockData)
        { sortBy := "stake", sortDirection := "desc" }).map (fun r => r.id) =
      [some "3", some "1", some "4", some "2"] ∧
    (filteredData v8Runtime (some tieData)
        { sortBy := "stake", sortDirection := "desc" }).map (fun r => r.id) =
      [some "a", some "c", some "b"] ∧
    (filteredData v8Runtime (some tieData)
        { sortBy := "stake", sortDirection := "asc" }).map (fun r => r.id) =
      [some "b", some "a", some "c"] :=
  ⟨⟨fun h => absurd h (by decide), fun _ => by decide, fun h => absurd h (by decide),
      fun h => absurd h (by decide)⟩,
    (C30_desc_reverses_asc v8Runtime v8Runtime_sort codePointCompare_antisymm
      codePointCompare_trans mockData { sortBy := "stake" } (by decide)
      (fun h => absurd h (by decide))).1
      ⟨fun h => absurd h (by decide), fun _ => by decide, fun h => absurd h (by decide),
        fun h => absurd h (by decide)⟩,
    by decide, by decide, by decide⟩

end Whispr
